import Mathlib

/-!
Concurrent generators: a step-relation model of the producer/consumer pipeline.

The development embeds `GenerateOrders` (internal/adapters/generator/number_generator.go),
`ProcessingService.StartWorkers` / `ProcessingService.worker`
(internal/core/services/processing_service.go) and the pipeline part of `main` (cmd/main.go)
as an interleaving transition system.  Every goroutine is a program counter; one `Action`
is one atomic move of one goroutine (or one rendezvous on the unbuffered channel), and a
schedule is a list of actions.  Go's `select` picks any ready case, which the model
renders by leaving the choice to the schedule.  A transfer on the unbuffered channel needs
a goroutine blocked in its select; every select of the program also waits on the one
`ctx.Done()`, and no select blocks once that is closed, so transfers are enabled only
until `cancel()` is called.  Go `int` is taken to be 64 bits wide.
-/


set_option maxRecDepth 100000

namespace ConcurrentGenerators

/-! ## Definitions -/

/-- Modelled from the spec: the declaration of `domain.Order` is not among the sources;
its two integer fields `ID` and `Value` are the ones the generator writes
(number_generator.go, lines 37-40) and the worker and logger read.  The generator assigns
`int` expressions to them without conversion, so both are Go `int`s. -/
structure Order where
  ID : Int
  Value : Int
  deriving DecidableEq

/-- Go `int` arithmetic on a 64-bit platform: a result is reduced to the two's
complement range `[-2^63, 2^63)`. -/
def wrapInt (x : Int) : Int :=
  (x + 9223372036854775808) % 18446744073709551616 - 9223372036854775808

/-- The order literal of number_generator.go lines 37-40:
`ID: (generatorID * numOrdersPerGenerator) + j, Value: j`, in Go `int` arithmetic. -/
def buildOrder (generatorID numOrdersPerGenerator : Int) (j : Nat) : Order :=
  { ID := wrapInt (wrapInt (generatorID * numOrdersPerGenerator) + (j : Int))
    Value := (j : Int) }

/-- The three arguments `main` hands to the pipeline (Go `int`s, so possibly negative). -/
structure Config where
  numGenerators : Int
  numOrdersPerGenerator : Int
  numWorkers : Int
  deriving DecidableEq

/-- The values `main` passes (cmd/main.go lines 80-88). -/
def mainConfig : Config :=
  { numGenerators := 5, numOrdersPerGenerator := 10, numWorkers := 3 }

/-- Where a generator goroutine (number_generator.go lines 32-61) stands.  The loop
counter `j` starts at 0 and only grows while `j < numOrdersPerGenerator`, so it is a
natural number that never overflows. -/
inductive GenPc where
  /-- At the head of `for j := 0; j < numOrdersPerGenerator; j++` with counter `j`. -/
  | loop (j : Nat)
  /-- Order `o` of iteration `j` is built; blocked in the `select` of line 49. -/
  | select (j : Nat) (o : Order)
  /-- Returned (the deferred `wg.Done()` has run) after `j` sends; `cancelled` tells
  whether the `ctx.Done()` branch was the exit. -/
  | exited (j : Nat) (cancelled : Bool)
  deriving DecidableEq

/-- One generator goroutine: the argument `generatorID` it was started with and its pc. -/
structure GenState where
  generatorID : Int
  pc : GenPc
  deriving DecidableEq

/-- Why a worker returned. -/
inductive ExitReason where
  | channelClosed
  | cancelled
  deriving DecidableEq

/-- Where a worker goroutine (processing_service.go lines 39-69) stands. -/
inductive WorkerPc where
  /-- Blocked in the `select` of line 44. -/
  | select
  /-- Received `o` with `ok = true`; `Process` has not returned yet. -/
  | holding (o : Order)
  /-- Returned; the deferred `wg.Done()` has run. -/
  | exited (r : ExitReason)
  deriving DecidableEq

/-- One worker goroutine: the argument `id` it was started with and its pc. -/
structure WorkerState where
  id : Int
  pc : WorkerPc
  deriving DecidableEq

/-- The goroutine of number_generator.go lines 66-70 (`wg.Wait(); close(orders)`). -/
inductive CloserPc where
  | notStarted
  | waiting
  | closedChannel
  deriving DecidableEq

/-- The main goroutine: inside `GenerateOrders`, inside `StartWorkers`, or in `wg.Wait()`. -/
inductive MainPc where
  /-- `for i := 0; i < numGenerators; i++` (line 30) with counter `i`. -/
  | genLoop (i : Nat)
  /-- After `wg.Add(1)` (line 31), before the `go` statement of iteration `i`. -/
  | genAdded (i : Nat)
  /-- Loop left; about to start the closing goroutine (line 66) and return. -/
  | spawnCloser
  /-- `for i := 0; i < numWorkers; i++` of `StartWorkers` with counter `i`. -/
  | workLoop (i : Nat)
  /-- After `wg.Add(1)`, before `go s.worker(ctx, i+1, wg, orders)`. -/
  | workAdded (i : Nat)
  /-- `StartWorkers` has returned; blocked in `wg.Wait()` (main.go line 91). -/
  | waiting
  /-- `wg.Wait()` has returned. -/
  | finished
  deriving DecidableEq

/-- Observable events, logged in the order in which they happen. -/
inductive Event where
  /-- The generator started as `generatorID` had order `o` accepted on the channel. -/
  | send (generatorID : Int) (o : Order)
  /-- The worker started as `id` received order `o`. -/
  | recv (id : Int) (o : Order)
  /-- `Process` was called by worker `id` on `o` and reported an error iff `err`. -/
  | process (id : Int) (o : Order) (err : Bool)
  /-- The generator `generatorID` took the `ctx.Done()` branch of its select. -/
  | genCancelled (generatorID : Int)
  /-- The generator `generatorID` ran its deferred `wg.Done()`. -/
  | genDone (generatorID : Int)
  /-- The statement `close(orders)` ran. -/
  | close
  /-- The function `cancel()` was called. -/
  | cancel
  /-- The statement `wg.Add(1)` of `StartWorkers` ran. -/
  | workerAdd
  /-- The statement `go s.worker(ctx, id, wg, orders)` ran. -/
  | workerStart (id : Int)
  /-- The worker `id` ran its deferred `wg.Done()`. -/
  | workerDone (id : Int)
  deriving DecidableEq

/-- The whole pipeline.  `gens` and `workers` list the started goroutines in start order;
`genWg` is the counter of the `sync.WaitGroup` local to `GenerateOrders`, `workWg` the
counter of the one `main` passes to `StartWorkers`; `trace` is the event log, oldest
event first. -/
structure State where
  main : MainPc
  gens : List GenState
  workers : List WorkerState
  closer : CloserPc
  genWg : Int
  workWg : Int
  closed : Bool
  cancelled : Bool
  panicked : Bool
  trace : List Event
  deriving DecidableEq

/-- The state when `main` calls `GenerateOrders`: channel open, both counters zero. -/
def init : State :=
  { main := .genLoop 0, gens := [], workers := [], closer := .notStarted,
    genWg := 0, workWg := 0, closed := false, cancelled := false, panicked := false,
    trace := [] }

/-- One atomic move.  Goroutines are named by their position in `gens` / `workers`. -/
inductive Action where
  /-- The main goroutine runs its next statement. -/
  | mainStep
  /-- The closing goroutine: `wg.Wait()` returns and `close(orders)` runs. -/
  | closerStep
  /-- An interrupt arrives and `cancel()` is called. -/
  | cancel
  /-- The generator at position `k` tests `j < numOrdersPerGenerator`, then builds the
  next order or returns. -/
  | genStep (k : Nat)
  /-- The select of generator `k` takes `case <-ctx.Done()`. -/
  | genCancel (k : Nat)
  /-- The select of generator `k` takes `case orders <- order` while the select of
  worker `w` takes `case order, ok := <-orders`: the unbuffered channel hands over.
  Possible only while `ctx.Done()` is open, see `handoff`. -/
  | handoff (k w : Nat)
  /-- The select of generator `k` takes the send case on a closed channel. -/
  | genSendClosed (k : Nat)
  /-- The select of worker `w` receives from the closed channel (`ok = false`). -/
  | workerClosed (w : Nat)
  /-- The select of worker `w` takes `case <-ctx.Done()`. -/
  | workerCancel (w : Nat)
  /-- The call `s.logger.Process(workerCtx, order)` of worker `w` returns, with an error
  iff `err`. -/
  | process (w : Nat) (err : Bool)
  deriving DecidableEq

/-- Push one event onto the log. -/
def State.log (s : State) (e : Event) : State :=
  { s with trace := s.trace ++ [e] }

/-- The next statement of the main goroutine.  `none` means blocked (in `wg.Wait()`)
or finished. -/
def mainStep (cfg : Config) (s : State) : Option State :=
  match s.main with
  | .genLoop i =>
    if (i : Int) < cfg.numGenerators then
      some { s with main := .genAdded i, genWg := s.genWg + 1 }
    else
      some { s with main := .spawnCloser }
  | .genAdded i =>
    some { s with main := .genLoop (i + 1),
                  gens := s.gens ++ [{ generatorID := (i : Int) + 1, pc := .loop 0 }] }
  | .spawnCloser =>
    some { s with main := .workLoop 0, closer := .waiting }
  | .workLoop i =>
    if (i : Int) < cfg.numWorkers then
      some (({ s with main := .workAdded i, workWg := s.workWg + 1 } : State).log .workerAdd)
    else
      some { s with main := .waiting }
  | .workAdded i =>
    some (({ s with main := .workLoop (i + 1),
                    workers := s.workers ++ [{ id := (i : Int) + 1, pc := .select }] } : State).log
            (.workerStart ((i : Int) + 1)))
  | .waiting =>
    if s.workWg = 0 then some { s with main := .finished } else none
  | .finished => none

/-- The closing goroutine: once started it waits for the generators' counter to be zero,
then closes the channel; closing a closed channel panics. -/
def closerStep (s : State) : Option State :=
  match s.closer with
  | .waiting =>
    if s.genWg = 0 then
      if s.closed then some { s with panicked := true }
      else some (({ s with closer := .closedChannel, closed := true } : State).log .close)
    else none
  | _ => none

/-- Generator `k` at its loop head: build the order of iteration `j`, or leave the loop,
return and run `wg.Done()`. -/
def genStep (cfg : Config) (s : State) (k : Nat) : Option State :=
  match s.gens[k]? with
  | some ⟨gid, .loop j⟩ =>
    if (j : Int) < cfg.numOrdersPerGenerator then
      some { s with gens := s.gens.set k
                      ⟨gid, .select j (buildOrder gid cfg.numOrdersPerGenerator j)⟩ }
    else
      some (({ s with gens := s.gens.set k ⟨gid, .exited j false⟩,
                      genWg := s.genWg - 1 } : State).log (.genDone gid))
  | _ => none

/-- Generator `k` in its select with the context cancelled: take `case <-ctx.Done()`,
return and run `wg.Done()`. -/
def genCancel (s : State) (k : Nat) : Option State :=
  match s.gens[k]? with
  | some ⟨gid, .select j _⟩ =>
    if s.cancelled then
      some ((({ s with gens := s.gens.set k ⟨gid, .exited j true⟩,
                       genWg := s.genWg - 1 } : State).log (.genCancelled gid)).log (.genDone gid))
    else none
  | _ => none

/-- Generator `k` and worker `w` are both in their selects on the open unbuffered channel
and `ctx.Done()` is still open: the send and the receive complete together.  The generator
goes on to `j++`, the worker holds the order with `ok = true`.

The only receivers of `orders` are the workers, and `main` passes one `ctx` to both
`GenerateOrders` (cmd/main.go:82) and `StartWorkers` (cmd/main.go:88), so the select of the
generator (number_generator.go:49-59) and the select of the worker
(processing_service.go:44-68) wait on the same `ctx.Done()`.  A transfer on the unbuffered
channel needs one of the two goroutines blocked in its select when the other one arrives.
A select blocks only when none of its cases can proceed; once `cancel()` has closed `Done`,
the `Done` case of every select can proceed, so a select entered from then on does not
block, and the selects that were blocked at that moment are released through their `Done`
case.  Hence no transfer between a generator and a worker completes once `cancelled` is
set: the moves left to the two selects are `genCancel` and `workerCancel`. -/
def handoff (s : State) (k w : Nat) : Option State :=
  match s.gens[k]?, s.workers[w]? with
  | some ⟨gid, .select j o⟩, some ⟨wid, .select⟩ =>
    if s.closed then none
    else if s.cancelled then none
    else
      some ((({ s with gens := s.gens.set k ⟨gid, .loop (j + 1)⟩,
                       workers := s.workers.set w ⟨wid, .holding o⟩ } : State).log
              (.send gid o)).log (.recv wid o))
  | _, _ => none

/-- Generator `k` in its select with the channel closed: the send case is ready and
panics. -/
def genSendClosed (s : State) (k : Nat) : Option State :=
  match s.gens[k]? with
  | some ⟨_, .select _ _⟩ =>
    if s.closed then some { s with panicked := true } else none
  | _ => none

/-- Worker `w` in its select with the channel closed: `ok = false`, return, `wg.Done()`. -/
def workerClosed (s : State) (w : Nat) : Option State :=
  match s.workers[w]? with
  | some ⟨wid, .select⟩ =>
    if s.closed then
      some (({ s with workers := s.workers.set w ⟨wid, .exited .channelClosed⟩,
                      workWg := s.workWg - 1 } : State).log (.workerDone wid))
    else none
  | _ => none

/-- Worker `w` in its select with the context cancelled: return, `wg.Done()`. -/
def workerCancel (s : State) (w : Nat) : Option State :=
  match s.workers[w]? with
  | some ⟨wid, .select⟩ =>
    if s.cancelled then
      some (({ s with workers := s.workers.set w ⟨wid, .exited .cancelled⟩,
                      workWg := s.workWg - 1 } : State).log (.workerDone wid))
    else none
  | _ => none

/-- Worker `w` holds an order: `Process` returns (error or not), the error is only
logged, and the worker is back at the head of its `for` loop. -/
def processStep (s : State) (w : Nat) (err : Bool) : Option State :=
  match s.workers[w]? with
  | some ⟨wid, .holding o⟩ =>
    some (({ s with workers := s.workers.set w ⟨wid, .select⟩ } : State).log (.process wid o err))
  | _ => none

/-- One transition.  A panicked program makes no further move. -/
def step (cfg : Config) (s : State) (a : Action) : Option State :=
  if s.panicked then none
  else
    match a with
    | .mainStep => mainStep cfg s
    | .closerStep => closerStep s
    | .cancel => some (({ s with cancelled := true } : State).log .cancel)
    | .genStep k => genStep cfg s k
    | .genCancel k => genCancel s k
    | .handoff k w => handoff s k w
    | .genSendClosed k => genSendClosed s k
    | .workerClosed w => workerClosed s w
    | .workerCancel w => workerCancel s w
    | .process w err => processStep s w err

/-- Run a schedule from a state; `none` when some action of it is not enabled. -/
def exec (cfg : Config) : State → List Action → Option State
  | s, [] => some s
  | s, a :: as =>
    match step cfg s a with
    | some s' => exec cfg s' as
    | none => none

/-- The states some schedule leads to from `init`. -/
def Reachable (cfg : Config) (s : State) : Prop :=
  ∃ sched : List Action, exec cfg init sched = some s

/-- The orders generator `g` sent, in send order. -/
def sentBy (g : Int) (tr : List Event) : List Order :=
  tr.filterMap fun e =>
    match e with
    | .send g' o => if g' = g then some o else none
    | _ => none

/-- All send events as (generator, order), in send order. -/
def sends (tr : List Event) : List (Int × Order) :=
  tr.filterMap fun e =>
    match e with
    | .send g o => some (g, o)
    | _ => none

/-- All receive events as (worker, order), in receive order. -/
def recvs (tr : List Event) : List (Int × Order) :=
  tr.filterMap fun e =>
    match e with
    | .recv w o => some (w, o)
    | _ => none

/-- All `Process` calls as (worker, order), in call order. -/
def procs (tr : List Event) : List (Int × Order) :=
  tr.filterMap fun e =>
    match e with
    | .process w o _ => some (w, o)
    | _ => none

/-- The IDs of all orders sent, in send order. -/
def sentIDs (tr : List Event) : List Int :=
  (sends tr).map fun p => p.2.ID

/-- The orders worker `w` received, in receive order. -/
def recvBy (w : Int) (tr : List Event) : List Order :=
  tr.filterMap fun e =>
    match e with
    | .recv w' o => if w' = w then some o else none
    | _ => none

/-- The orders worker `w` passed to `Process`, in call order. -/
def procBy (w : Int) (tr : List Event) : List Order :=
  tr.filterMap fun e =>
    match e with
    | .process w' o _ => if w' = w then some o else none
    | _ => none

/-- A generator has returned. -/
def GenState.isExited (g : GenState) : Bool :=
  match g.pc with
  | .exited _ _ => true
  | _ => false

/-- A worker has returned. -/
def WorkerState.isExited (w : WorkerState) : Bool :=
  match w.pc with
  | .exited _ => true
  | _ => false

/-- The number of sends a generator has completed. -/
def GenState.counter (g : GenState) : Nat :=
  match g.pc with
  | .loop j => j
  | .select j _ => j
  | .exited j _ => j

/-- The order a worker holds between receipt and the return of `Process`, if any. -/
def WorkerState.held (w : WorkerState) : List Order :=
  match w.pc with
  | .holding o => [o]
  | _ => []

/-- A schedule for `G` generators of `P` orders and `W` workers (`W` at least 1), all
running to the end without cancellation: start everything, let generator after generator
hand each of its orders to worker 0, close the channel, let every worker see the close,
and let `main` return from `wg.Wait()`. -/
def fullSchedule (G P W : Nat) : List Action :=
  List.replicate (2 * G + 2 + 2 * W + 1) Action.mainStep
    ++ ((List.range G).map fun k =>
          (List.replicate P [Action.genStep k, Action.handoff k 0, Action.process 0 false]).flatten
            ++ [Action.genStep k]).flatten
    ++ [Action.closerStep]
    ++ (List.range W).map Action.workerClosed
    ++ [Action.mainStep]

/-- The enabled transitions, one constructor per branch of `step`. -/
inductive Step (cfg : Config) (s : State) : State → Prop where
  | genAdd (i : Nat) (hp : s.panicked = false) (hm : s.main = .genLoop i)
      (hlt : (i : Int) < cfg.numGenerators) :
      Step cfg s { s with main := .genAdded i, genWg := s.genWg + 1 }
  | genLoopExit (i : Nat) (hp : s.panicked = false) (hm : s.main = .genLoop i)
      (hge : ¬ (i : Int) < cfg.numGenerators) :
      Step cfg s { s with main := .spawnCloser }
  | genSpawn (i : Nat) (hp : s.panicked = false) (hm : s.main = .genAdded i) :
      Step cfg s { s with main := .genLoop (i + 1),
                          gens := s.gens ++ [{ generatorID := (i : Int) + 1, pc := .loop 0 }] }
  | closerSpawn (hp : s.panicked = false) (hm : s.main = .spawnCloser) :
      Step cfg s { s with main := .workLoop 0, closer := .waiting }
  | workAdd (i : Nat) (hp : s.panicked = false) (hm : s.main = .workLoop i)
      (hlt : (i : Int) < cfg.numWorkers) :
      Step cfg s (({ s with main := .workAdded i, workWg := s.workWg + 1 } : State).log
        .workerAdd)
  | workLoopExit (i : Nat) (hp : s.panicked = false) (hm : s.main = .workLoop i)
      (hge : ¬ (i : Int) < cfg.numWorkers) :
      Step cfg s { s with main := .waiting }
  | workSpawn (i : Nat) (hp : s.panicked = false) (hm : s.main = .workAdded i) :
      Step cfg s (({ s with main := .workLoop (i + 1),
                            workers := s.workers ++ [{ id := (i : Int) + 1, pc := .select }] }
                    : State).log (.workerStart ((i : Int) + 1)))
  | waitReturn (hp : s.panicked = false) (hm : s.main = .waiting) (h0 : s.workWg = 0) :
      Step cfg s { s with main := .finished }
  | closePanic (hp : s.panicked = false) (hc : s.closer = .waiting) (h0 : s.genWg = 0)
      (hcl : s.closed = true) :
      Step cfg s { s with panicked := true }
  | close (hp : s.panicked = false) (hc : s.closer = .waiting) (h0 : s.genWg = 0)
      (hcl : s.closed = false) :
      Step cfg s (({ s with closer := .closedChannel, closed := true } : State).log .close)
  | cancel (hp : s.panicked = false) :
      Step cfg s (({ s with cancelled := true } : State).log .cancel)
  | genBuild (k : Nat) (gid : Int) (j : Nat) (hp : s.panicked = false)
      (hg : s.gens[k]? = some ⟨gid, .loop j⟩)
      (hlt : (j : Int) < cfg.numOrdersPerGenerator) :
      Step cfg s { s with gens := s.gens.set k
                            ⟨gid, .select j (buildOrder gid cfg.numOrdersPerGenerator j)⟩ }
  | genExit (k : Nat) (gid : Int) (j : Nat) (hp : s.panicked = false)
      (hg : s.gens[k]? = some ⟨gid, .loop j⟩)
      (hge : ¬ (j : Int) < cfg.numOrdersPerGenerator) :
      Step cfg s (({ s with gens := s.gens.set k ⟨gid, .exited j false⟩,
                            genWg := s.genWg - 1 } : State).log (.genDone gid))
  | genCancel (k : Nat) (gid : Int) (j : Nat) (o : Order) (hp : s.panicked = false)
      (hg : s.gens[k]? = some ⟨gid, .select j o⟩) (hc : s.cancelled = true) :
      Step cfg s ((({ s with gens := s.gens.set k ⟨gid, .exited j true⟩,
                             genWg := s.genWg - 1 } : State).log (.genCancelled gid)).log
                    (.genDone gid))
  | handoff (k w : Nat) (gid : Int) (j : Nat) (o : Order) (wid : Int)
      (hp : s.panicked = false)
      (hg : s.gens[k]? = some ⟨gid, .select j o⟩)
      (hw : s.workers[w]? = some ⟨wid, .select⟩) (hcl : s.closed = false)
      (hnc : s.cancelled = false) :
      Step cfg s ((({ s with gens := s.gens.set k ⟨gid, .loop (j + 1)⟩,
                             workers := s.workers.set w ⟨wid, .holding o⟩ } : State).log
                    (.send gid o)).log (.recv wid o))
  | sendPanic (k : Nat) (gid : Int) (j : Nat) (o : Order) (hp : s.panicked = false)
      (hg : s.gens[k]? = some ⟨gid, .select j o⟩) (hcl : s.closed = true) :
      Step cfg s { s with panicked := true }
  | workerClosed (w : Nat) (wid : Int) (hp : s.panicked = false)
      (hw : s.workers[w]? = some ⟨wid, .select⟩) (hcl : s.closed = true) :
      Step cfg s (({ s with workers := s.workers.set w ⟨wid, .exited .channelClosed⟩,
                            workWg := s.workWg - 1 } : State).log (.workerDone wid))
  | workerCancel (w : Nat) (wid : Int) (hp : s.panicked = false)
      (hw : s.workers[w]? = some ⟨wid, .select⟩) (hc : s.cancelled = true) :
      Step cfg s (({ s with workers := s.workers.set w ⟨wid, .exited .cancelled⟩,
                            workWg := s.workWg - 1 } : State).log (.workerDone wid))
  | process (w : Nat) (wid : Int) (o : Order) (err : Bool) (hp : s.panicked = false)
      (hw : s.workers[w]? = some ⟨wid, .holding o⟩) :
      Step cfg s (({ s with workers := s.workers.set w ⟨wid, .select⟩ } : State).log
        (.process wid o err))

/-- Weight 1 for a generator that has not returned. -/
def GenState.active (g : GenState) : Nat := if g.isExited then 0 else 1

/-- The number of started generators that have not returned. -/
def activeGens (gs : List GenState) : Nat := (gs.map GenState.active).sum

/-- The main goroutine is between `wg.Add(1)` and the `go` statement in `GenerateOrders`. -/
def MainPc.genPending : MainPc → Nat
  | .genAdded _ => 1
  | _ => 0

/-- The main goroutine is still inside `GenerateOrders` before the closer is started. -/
def MainPc.inGenerate : MainPc → Bool
  | .genLoop _ => true
  | .genAdded _ => true
  | .spawnCloser => true
  | _ => false

/-- The main goroutine is still inside the `for` loop of `GenerateOrders`. -/
def MainPc.inGenLoop : MainPc → Bool
  | .genLoop _ => true
  | .genAdded _ => true
  | _ => false

/-- Invariant of the generator side: generator ids follow the start order, the number of
started generators follows the loop counter of `GenerateOrders`, the counter `genWg` counts
the generators that have not returned (plus a pending `Add`), the closer is started only after
the loop, and the channel is closed only by the closer, after all generators returned. -/
structure InvA (cfg : Config) (s : State) : Prop where
  ids : ∀ (k : Nat) (g : GenState), s.gens[k]? = some g → g.generatorID = (k : Int) + 1
  loopLen : ∀ i, s.main = .genLoop i →
    s.gens.length = i ∧ (i = 0 ∨ (i : Int) ≤ cfg.numGenerators)
  addedLen : ∀ i, s.main = .genAdded i → s.gens.length = i ∧ (i : Int) < cfg.numGenerators
  pastLen : s.main.inGenLoop = false → s.gens.length = cfg.numGenerators.toNat
  wg : s.genWg = (activeGens s.gens : Int) + (s.main.genPending : Int)
  closerNS : s.closer = .notStarted ↔ s.main.inGenerate = true
  closedIff : s.closed = true ↔ s.closer = .closedChannel
  closedExited : s.closed = true → ∀ g ∈ s.gens, g.isExited = true
  noPanic : s.panicked = false

/-- What the program counter of a generator says about its loop counter and its order. -/
def GenPcOk (cfg : Config) (g : GenState) : Prop :=
  match g.pc with
  | .loop j => j = 0 ∨ (j : Int) ≤ cfg.numOrdersPerGenerator
  | .select j o =>
    (j : Int) < cfg.numOrdersPerGenerator ∧ o = buildOrder g.generatorID cfg.numOrdersPerGenerator j
  | .exited j false => (j = 0 ∨ (j : Int) ≤ cfg.numOrdersPerGenerator) ∧
      ¬ (j : Int) < cfg.numOrdersPerGenerator
  | .exited j true => (j : Int) < cfg.numOrdersPerGenerator

/-- Invariant of the sends: each generator has sent exactly the orders of its first
`counter` iterations, in order; nobody else has sent anything; the number of sends is the
sum of the counters. -/
structure InvB (cfg : Config) (s : State) : Prop where
  sent : ∀ (k : Nat) (g : GenState), s.gens[k]? = some g →
    sentBy g.generatorID s.trace =
      (List.range g.counter).map (buildOrder g.generatorID cfg.numOrdersPerGenerator)
  pcOk : ∀ (k : Nat) (g : GenState), s.gens[k]? = some g → GenPcOk cfg g
  foreign : ∀ g : Int, (∀ k : Nat, k < s.gens.length → g ≠ (k : Int) + 1) →
    sentBy g s.trace = []
  total : (sends s.trace).length = (s.gens.map GenState.counter).sum

/-- Weight 1 for a worker that has not returned. -/
def WorkerState.active (w : WorkerState) : Nat := if w.isExited then 0 else 1

/-- The number of started workers that have not returned. -/
def activeWorkers (ws : List WorkerState) : Nat := (ws.map WorkerState.active).sum

/-- The main goroutine is between `wg.Add(1)` and the `go` statement in `StartWorkers`. -/
def MainPc.workPending : MainPc → Nat
  | .workAdded _ => 1
  | _ => 0

/-- The call of `StartWorkers` has returned. -/
def MainPc.workersStarted : MainPc → Bool
  | .waiting => true
  | .finished => true
  | _ => false

/-- Invariant of the worker side: worker ids follow the start order, the number of started
workers follows the loop counter of `StartWorkers`, and the counter `workWg` counts the
workers that have not returned (plus a pending `Add`). -/
structure InvW (cfg : Config) (s : State) : Prop where
  wids : ∀ (k : Nat) (w : WorkerState), s.workers[k]? = some w → w.id = (k : Int) + 1
  wbefore : s.main.inGenerate = true → s.workers = []
  wloopLen : ∀ i, s.main = .workLoop i →
    s.workers.length = i ∧ (i = 0 ∨ (i : Int) ≤ cfg.numWorkers)
  waddedLen : ∀ i, s.main = .workAdded i → s.workers.length = i ∧ (i : Int) < cfg.numWorkers
  wafter : s.main.workersStarted = true → s.workers.length = cfg.numWorkers.toNat
  wwg : s.workWg = (activeWorkers s.workers : Int) + (s.main.workPending : Int)
  wdone : s.main = .finished → s.workWg = 0

/-- The event is the start of a worker goroutine. -/
def Event.isWorkerStart : Event → Bool
  | .workerStart _ => true
  | _ => false

/-- Invariant of receipts and `Process` calls: per worker the received orders are the
processed ones plus the one held; receives mirror sends; `Add`, start and `Done` events are
counted against the list of workers. -/
structure InvR (cfg : Config) (s : State) : Prop where
  recv : ∀ (k : Nat) (w : WorkerState), s.workers[k]? = some w →
    recvBy w.id s.trace = procBy w.id s.trace ++ w.held
  wforeign : ∀ w : Int, (∀ k : Nat, k < s.workers.length → w ≠ (k : Int) + 1) →
    recvBy w s.trace = [] ∧ procBy w s.trace = [] ∧ s.trace.count (.workerDone w) = 0
  pair : (recvs s.trace).map Prod.snd = (sends s.trace).map Prod.snd
  adds : s.trace.count .workerAdd = s.workers.length + s.main.workPending
  starts : (s.trace.filter Event.isWorkerStart).length = s.workers.length
  dones : ∀ (k : Nat) (w : WorkerState), s.workers[k]? = some w →
    s.trace.count (.workerDone w.id) = if w.isExited then 1 else 0

/-- The event is a send. -/
def Event.isSend : Event → Bool
  | .send _ _ => true
  | _ => false

/-- The event is a send by generator `g`. -/
def Event.isSendBy (g : Int) : Event → Bool
  | .send g' _ => decide (g' = g)
  | _ => false

/-- The event is the close of the channel. -/
def Event.isClose : Event → Bool
  | .close => true
  | _ => false

/-- The event is a call of `cancel()`. -/
def Event.isCancel : Event → Bool
  | .cancel => true
  | _ => false

/-- The event is generator `g` taking the `ctx.Done()` branch. -/
def Event.isGenCancelled (g : Int) : Event → Bool
  | .genCancelled g' => decide (g' = g)
  | _ => false

/-- In the log `tr` (oldest event first) some event satisfying `q` comes later than some
event satisfying `p`. -/
def occursAfter (p q : Event → Bool) : List Event → Bool
  | [] => false
  | e :: tr => (p e && tr.any q) || occursAfter p q tr

/-- The generator took the `ctx.Done()` branch. -/
def GenState.sawCancel (g : GenState) : Bool :=
  match g.pc with
  | .exited _ true => true
  | _ => false

/-- Invariant of the order of events: the close and cancel events mirror the flags, no send
follows the close, no send follows the call of `cancel()`, a generator that took the cancel
branch did so after the signal and sent nothing afterwards. -/
structure InvT (cfg : Config) (s : State) : Prop where
  closeCount : s.trace.countP Event.isClose = if s.closed then 1 else 0
  closeTrace : s.trace.any Event.isClose = s.closed
  cancelTrace : s.trace.any Event.isCancel = s.cancelled
  sendClose : occursAfter Event.isClose Event.isSend s.trace = false
  cancelExit : ∀ (k : Nat) (g : GenState), s.gens[k]? = some g → g.sawCancel = true →
    s.cancelled = true
  genCanc : ∀ (k : Nat) (g : GenState), s.gens[k]? = some g →
    s.trace.any (Event.isGenCancelled g.generatorID) = g.sawCancel
  genCancForeign : ∀ g : Int, (∀ k : Nat, k < s.gens.length → g ≠ (k : Int) + 1) →
    s.trace.any (Event.isGenCancelled g) = false
  sendCanc : ∀ g : Int,
    occursAfter (Event.isGenCancelled g) (Event.isSendBy g) s.trace = false
  sendCancel : occursAfter Event.isCancel Event.isSend s.trace = false

/-- All invariants together. -/
structure Inv (cfg : Config) (s : State) : Prop where
  a : InvA cfg s
  b : InvB cfg s
  w : InvW cfg s
  r : InvR cfg s
  t : InvT cfg s

/-- The schedule that runs `GenerateOrders` and `StartWorkers` to their return with no
other goroutine moving: `G` generators and `W` workers are started. -/
def startSchedule (G W : Nat) : List Action :=
  List.replicate (2 * G + 2 + 2 * W + 1) Action.mainStep

/-- With `main`'s arguments: everything started, then generator 1 builds its first order. -/
def builtState : State :=
  (exec mainConfig init (startSchedule 5 3 ++ [.genStep 0])).getD init

/-- Two generators of `2^62` orders each and one worker. -/
def overflowConfig : Config :=
  { numGenerators := 2, numOrdersPerGenerator := 4611686018427387904, numWorkers := 1 }

/-- The overflow configuration: everything started, then generator 2 builds its first
order. -/
def overflowBuiltState : State :=
  (exec overflowConfig init (startSchedule 2 1 ++ [.genStep 1])).getD init

/-- With `main`'s arguments: everything started, generator 2 hands two orders to worker 1,
then an interrupt arrives and generator 2 takes the cancel branch with its third order. -/
def cancelSchedule : List Action :=
  startSchedule 5 3 ++
    [.genStep 1, .handoff 1 0, .process 0 true, .genStep 1, .handoff 1 0, .genStep 1,
     .cancel, .genCancel 1]

/-- The state `cancelSchedule` leads to. -/
def cancelledState : State :=
  (exec mainConfig init cancelSchedule).getD init

/-- With `main`'s arguments: the run of `fullSchedule` to the end. -/
def completedState : State :=
  (exec mainConfig init (fullSchedule 5 10 3)).getD init

/-- No workers at all: the generators are started, `StartWorkers` returns at once and
`main` is in `wg.Wait()`. -/
def noWorkerState : State :=
  (exec ⟨2, 3, 0⟩ init (startSchedule 2 0 ++ [.genStep 0, .genStep 1])).getD init

/-- Natural-number arguments as a configuration. -/
def natConfig (G P W : Nat) : Config :=
  { numGenerators := (G : Int), numOrdersPerGenerator := (P : Int), numWorkers := (W : Int) }

/-- While `GenerateOrders` starts generators: `i` of them started, nothing else moved. -/
structure GenPhase (i : Nat) (s : State) : Prop where
  main : s.main = .genLoop i
  glen : s.gens.length = i
  gidle : ∀ k : Nat, k < i → s.gens[k]? = some ⟨(k : Int) + 1, .loop 0⟩
  workers : s.workers = []
  closer : s.closer = .notStarted
  genWg : s.genWg = (i : Int)
  workWg : s.workWg = 0
  closed : s.closed = false
  cancelled : s.cancelled = false
  panicked : s.panicked = false

/-- While `StartWorkers` starts workers: all `G` generators idle at their loop head, `i`
workers started. -/
structure WorkPhase (G i : Nat) (s : State) : Prop where
  main : s.main = .workLoop i
  glen : s.gens.length = G
  gidle : ∀ k : Nat, k < G → s.gens[k]? = some ⟨(k : Int) + 1, .loop 0⟩
  wlen : s.workers.length = i
  widle : ∀ k : Nat, k < i → s.workers[k]? = some ⟨(k : Int) + 1, .select⟩
  closer : s.closer = .waiting
  genWg : s.genWg = (G : Int)
  workWg : s.workWg = (i : Int)
  closed : s.closed = false
  cancelled : s.cancelled = false
  panicked : s.panicked = false

/-- Everything is started and `main` waits; generators before position `k` have sent all
`P` orders and returned, generator `k` (if any) is at its loop head with counter `j`, the
later ones have not moved; all workers are in their select. -/
structure RunPhase (G P W k j : Nat) (s : State) : Prop where
  main : s.main = .waiting
  glen : s.gens.length = G
  gdone : ∀ i : Nat, i < k → s.gens[i]? = some ⟨(i : Int) + 1, .exited P false⟩
  gcur : k < G → s.gens[k]? = some ⟨(k : Int) + 1, .loop j⟩
  gidle : ∀ i : Nat, k < i → i < G → s.gens[i]? = some ⟨(i : Int) + 1, .loop 0⟩
  wlen : s.workers.length = W
  widle : ∀ i : Nat, i < W → s.workers[i]? = some ⟨(i : Int) + 1, .select⟩
  closer : s.closer = .waiting
  genWg : s.genWg = (G : Int) - (k : Int)
  workWg : s.workWg = (W : Int)
  closed : s.closed = false
  cancelled : s.cancelled = false
  panicked : s.panicked = false

/-- The channel is closed, no cancellation; workers before position `i` have returned, the
others are in their select. -/
structure DrainPhase (W i : Nat) (s : State) : Prop where
  main : s.main = .waiting
  wlen : s.workers.length = W
  wdone : ∀ k : Nat, k < i → s.workers[k]? = some ⟨(k : Int) + 1, .exited .channelClosed⟩
  widle : ∀ k : Nat, i ≤ k → k < W → s.workers[k]? = some ⟨(k : Int) + 1, .select⟩
  workWg : s.workWg = (W : Int) - (i : Int)
  closed : s.closed = true
  cancelled : s.cancelled = false
  panicked : s.panicked = false

/-- The actions by which generator `k` hands one order to worker 0, which processes it. -/
def itemBlock (k : Nat) : List Action :=
  [Action.genStep k, Action.handoff k 0, Action.process 0 false]

/-- The step from `s` to `t` changed neither the control state of `main` and the closer,
nor the two counters, nor the flags. -/
def State.sameControl (s t : State) : Prop :=
  t.main = s.main ∧ t.closer = s.closer ∧ t.genWg = s.genWg ∧ t.workWg = s.workWg ∧
    t.closed = s.closed ∧ t.cancelled = s.cancelled ∧ t.panicked = s.panicked

/-- The actions by which generator `k` sends all `P` orders and returns. -/
def generatorBlock (P k : Nat) : List Action :=
  (List.replicate P (itemBlock k)).flatten ++ [Action.genStep k]

/-- Five generators of `2^62` orders each and two workers. -/
def collisionConfig : Config :=
  { numGenerators := 5, numOrdersPerGenerator := 4611686018427387904, numWorkers := 2 }

/-- Everything started; generator 1 hands its first order to worker 1, generator 5 hands
its first order to worker 2.  No cancellation. -/
def collisionSchedule : List Action :=
  startSchedule 5 2 ++ [.genStep 0, .handoff 0 0, .genStep 4, .handoff 4 1]

/-- The state `collisionSchedule` leads to. -/
def collisionState : State :=
  (exec collisionConfig init collisionSchedule).getD init

/-- Everything started; generator 2 hands its first order to the worker.  No cancellation. -/
def overflowSchedule : List Action :=
  startSchedule 2 1 ++ [.genStep 1, .handoff 1 0]

/-- The state `overflowSchedule` leads to. -/
def overflowState : State :=
  (exec overflowConfig init overflowSchedule).getD init

/-- The orders paired with `w` in a list of (worker, order) pairs. -/
def projBy (w : Int) (l : List (Int × Order)) : List Order :=
  l.filterMap fun p => if p.1 = w then some p.2 else none

/-- The state without its event log. -/
def State.forget (s : State) : State := { s with trace := [] }

/-- With `main`'s arguments: an interrupt arrives while `StartWorkers` runs; worker 1 is
started, sees the cancellation and returns before workers 2 and 3 are registered. -/
def earlyExitSchedule : List Action :=
  List.replicate 12 Action.mainStep ++
    [.cancel, .mainStep, .mainStep, .workerCancel 0, .mainStep, .mainStep, .mainStep,
     .mainStep, .mainStep]

/-- The state `earlyExitSchedule` leads to. -/
def earlyExitState : State :=
  (exec mainConfig init earlyExitSchedule).getD init

/-- With `main`'s arguments: everything started, generator 1 has built its first order
and waits in its select, worker 1 waits in its select, then an interrupt arrives. -/
def cancelFiredSchedule : List Action :=
  startSchedule 5 3 ++ [.genStep 0, .cancel]

/-- The state `cancelFiredSchedule` leads to. -/
def cancelFiredState : State :=
  (exec mainConfig init cancelFiredSchedule).getD init

/-! ## Theorems -/

theorem step_sound {cfg : Config} {s s' : State} {a : Action}
    (h : step cfg s a = some s') : Step cfg s s' := by
  unfold step at h
  split at h
  · exact absurd h (by simp)
  · rename_i hp
    have hp' : s.panicked = false := by simpa using hp
    cases a with
    | mainStep =>
      simp only [mainStep] at h
      split at h
      · rename_i i hm
        split at h
        · rename_i hlt; cases h; exact .genAdd i hp' hm hlt
        · rename_i hge; cases h; exact .genLoopExit i hp' hm hge
      · rename_i i hm; cases h; exact .genSpawn i hp' hm
      · rename_i hm; cases h; exact .closerSpawn hp' hm
      · rename_i i hm
        split at h
        · rename_i hlt; cases h; exact .workAdd i hp' hm hlt
        · rename_i hge; cases h; exact .workLoopExit i hp' hm hge
      · rename_i i hm; cases h; exact .workSpawn i hp' hm
      · rename_i hm
        split at h
        · rename_i h0; cases h; exact .waitReturn hp' hm h0
        · exact absurd h (by simp)
      · exact absurd h (by simp)
    | closerStep =>
      simp only [closerStep] at h
      split at h
      · rename_i hc
        split at h
        · rename_i h0
          split at h
          · rename_i hcl; cases h; exact .closePanic hp' hc h0 hcl
          · rename_i hcl; cases h; exact .close hp' hc h0 (by simpa using hcl)
        · exact absurd h (by simp)
      · exact absurd h (by simp)
    | cancel => simp only [Option.some.injEq] at h; cases h; exact .cancel hp'
    | genStep k =>
      simp only [genStep] at h
      split at h
      · rename_i gid j hg
        split at h
        · rename_i hlt; cases h; exact .genBuild k gid j hp' hg hlt
        · rename_i hge; cases h; exact .genExit k gid j hp' hg hge
      · exact absurd h (by simp)
    | genCancel k =>
      simp only [genCancel] at h
      split at h
      · rename_i gid j o hg
        split at h
        · rename_i hc; cases h; exact .genCancel k gid j o hp' hg hc
        · exact absurd h (by simp)
      · exact absurd h (by simp)
    | handoff k w =>
      simp only [handoff] at h
      split at h
      · rename_i gid j o wid hg hw
        split at h
        · exact absurd h (by simp)
        · rename_i hcl
          split at h
          · exact absurd h (by simp)
          · rename_i hnc; cases h
            exact .handoff k w gid j o wid hp' hg hw (by simpa using hcl) (by simpa using hnc)
      · exact absurd h (by simp)
    | genSendClosed k =>
      simp only [genSendClosed] at h
      split at h
      · rename_i gid j o hg
        split at h
        · rename_i hcl; cases h; exact .sendPanic k gid j o hp' hg hcl
        · exact absurd h (by simp)
      · exact absurd h (by simp)
    | workerClosed w =>
      simp only [workerClosed] at h
      split at h
      · rename_i wid hw
        split at h
        · rename_i hcl; cases h; exact .workerClosed w wid hp' hw hcl
        · exact absurd h (by simp)
      · exact absurd h (by simp)
    | workerCancel w =>
      simp only [workerCancel] at h
      split at h
      · rename_i wid hw
        split at h
        · rename_i hc; cases h; exact .workerCancel w wid hp' hw hc
        · exact absurd h (by simp)
      · exact absurd h (by simp)
    | process w err =>
      simp only [processStep] at h
      split at h
      · rename_i wid o hw; cases h; exact .process w wid o err hp' hw
      · exact absurd h (by simp)

theorem exec_append (cfg : Config) (s : State) (as bs : List Action) :
    exec cfg s (as ++ bs) = (exec cfg s as).bind fun t => exec cfg t bs := by
  induction as generalizing s with
  | nil => simp [exec]
  | cons a as ih =>
    simp only [List.cons_append, exec]
    cases step cfg s a with
    | none => simp
    | some t => simpa using ih t

theorem exec_snoc (cfg : Config) (s : State) (as : List Action) (a : Action) :
    exec cfg s (as ++ [a]) = (exec cfg s as).bind fun t => step cfg t a := by
  rw [exec_append]
  congr 1
  funext t
  simp only [exec]
  cases step cfg t a <;> rfl

/-- Induction over the reachable states: a property of `init` kept by every enabled
transition from a reachable state holds in all reachable states. -/
theorem Reachable.induct {cfg : Config} (Inv : State → Prop) (h0 : Inv init)
    (hs : ∀ s s', Reachable cfg s → Inv s → Step cfg s s' → Inv s') :
    ∀ s, Reachable cfg s → Inv s := by
  intro s ⟨sched, h⟩
  induction sched using List.reverseRecOn generalizing s with
  | nil => simp only [exec, Option.some.injEq] at h; exact h ▸ h0
  | append_singleton as a ih =>
    rw [exec_snoc] at h
    cases hq : exec cfg init as with
    | none => simp [hq] at h
    | some t =>
      simp only [hq, Option.some_bind] at h
      exact hs t s ⟨as, hq⟩ (ih t hq) (step_sound h)

theorem Reachable.step {cfg : Config} {s s' : State} {a : Action}
    (hr : Reachable cfg s) (h : step cfg s a = some s') : Reachable cfg s' := by
  obtain ⟨sched, hq⟩ := hr
  exact ⟨sched ++ [a], by rw [exec_snoc, hq]; simpa using h⟩

theorem get_set_cases {α : Type} {l : List α} {k i : Nat} {x y : α}
    (h : (l.set k x)[i]? = some y) : (i = k ∧ y = x) ∨ (i ≠ k ∧ l[i]? = some y) := by
  by_cases hik : k = i
  · subst hik
    rw [List.getElem?_set] at h
    simp only [if_true] at h
    split at h
    · left; exact ⟨rfl, by simpa using h.symm⟩
    · exact absurd h (by simp)
  · rw [List.getElem?_set_ne hik] at h
    right; exact ⟨fun e => hik e.symm, h⟩

theorem get_snoc_cases {α : Type} {l : List α} {i : Nat} {x y : α}
    (h : (l ++ [x])[i]? = some y) : l[i]? = some y ∨ (i = l.length ∧ y = x) := by
  rw [List.getElem?_append] at h
  split at h
  · left; exact h
  · rename_i hge
    right
    have hi : i - l.length = 0 := by
      by_contra hne
      have : ([x] : List α)[i - l.length]? = none := by
        apply List.getElem?_eq_none; simp; omega
      rw [this] at h; exact absurd h (by simp)
    constructor
    · omega
    · rw [hi] at h; simpa using h.symm

theorem sum_map_set {α : Type} (f : α → Nat) :
    ∀ (l : List α) (k : Nat) (a x : α), l[k]? = some a →
      ((l.set k x).map f).sum + f a = (l.map f).sum + f x
  | [], k, a, x, h => by simp at h
  | b :: l, 0, a, x, h => by
    simp only [List.getElem?_cons_zero, Option.some.injEq] at h
    subst h
    simp only [List.set_cons_zero, List.map_cons, List.sum_cons]
    omega
  | b :: l, k + 1, a, x, h => by
    simp only [List.getElem?_cons_succ] at h
    have := sum_map_set f l k a x h
    simp only [List.set_cons_succ, List.map_cons, List.sum_cons]
    omega

theorem activeGens_set {l : List GenState} {k : Nat} {a : GenState} (x : GenState)
    (h : l[k]? = some a) : activeGens (l.set k x) + a.active = activeGens l + x.active :=
  sum_map_set GenState.active l k a x h

theorem exited_of_activeGens_zero {l : List GenState} (h : activeGens l = 0) :
    ∀ g ∈ l, g.isExited = true := by
  intro g hg
  unfold activeGens at h
  have h1 : GenState.active g ∈ l.map GenState.active := List.mem_map_of_mem _ hg
  have h2 : GenState.active g ≤ (l.map GenState.active).sum := List.single_le_sum (by simp) _ h1
  have h3 : GenState.active g = 0 := by omega
  unfold GenState.active at h3
  split at h3
  · assumption
  · cases h3

theorem mem_of_get {α : Type} {l : List α} {k : Nat} {a : α} (h : l[k]? = some a) : a ∈ l :=
  List.mem_iff_getElem?.2 ⟨k, h⟩

theorem invA_init (cfg : Config) : InvA cfg init := by
  constructor <;> simp [init, activeGens, MainPc.genPending, MainPc.inGenerate, MainPc.inGenLoop]

theorem invA_step {cfg : Config} {s s' : State} (hA : InvA cfg s) (h : Step cfg s s') :
    InvA cfg s' := by
  obtain ⟨ids, loopLen, addedLen, pastLen, wg, closerNS, closedIff, closedExited, noPanic⟩ := hA
  have hopen : s.main.inGenerate = true → s.closed = false := by
    intro hin
    cases hc : s.closed with
    | false => rfl
    | true =>
      have h1 := closedIff.1 hc
      have h2 := closerNS.2 hin
      rw [h1] at h2; cases h2
  cases h
  case genAdd i hp hm hlt =>
    have hl := loopLen i hm
    rw [hm] at wg closerNS
    refine ⟨ids, ?_, ?_, ?_, ?_, ?_, closedIff, closedExited, noPanic⟩
    · intro i' h'; cases h'
    · intro i' h'; cases h'; exact ⟨hl.1, hlt⟩
    · intro h'; cases h'
    · simp only [MainPc.genPending] at wg ⊢; omega
    · simpa [MainPc.inGenerate, State.log] using closerNS
  case genLoopExit i hp hm hge =>
    have hl := loopLen i hm
    rw [hm] at wg closerNS
    refine ⟨ids, ?_, ?_, ?_, ?_, ?_, closedIff, closedExited, noPanic⟩
    · intro i' h'; cases h'
    · intro i' h'; cases h'
    · intro _; rw [hl.1]; omega
    · simpa [MainPc.genPending, State.log] using wg
    · simpa [MainPc.inGenerate, State.log] using closerNS
  case genSpawn i hp hm =>
    have hl := addedLen i hm
    have hcl := hopen (by rw [hm]; rfl)
    rw [hm] at wg closerNS
    refine ⟨?_, ?_, ?_, ?_, ?_, ?_, closedIff, ?_, noPanic⟩
    · intro k g hg
      rcases get_snoc_cases hg with h1 | ⟨h1, h2⟩
      · exact ids k g h1
      · subst h2; simp [h1, hl.1]
    · intro i' h'
      cases h'
      simp only [List.length_append, List.length_singleton]
      exact ⟨by omega, Or.inr (by push_cast; omega)⟩
    · intro i' h'; cases h'
    · intro h'; cases h'
    · simp only [MainPc.genPending, activeGens, List.map_append, List.sum_append,
        List.map_cons, List.map_nil, List.sum_cons, List.sum_nil] at wg ⊢
      have : GenState.active ⟨(i : Int) + 1, .loop 0⟩ = 1 := rfl
      rw [this]; push_cast at wg ⊢; omega
    · simpa [MainPc.inGenerate, State.log] using closerNS
    · intro h'; rw [hcl] at h'; cases h'
  case closerSpawn hp hm =>
    have hl := pastLen (by rw [hm]; rfl)
    have hcl := hopen (by rw [hm]; rfl)
    rw [hm] at wg
    refine ⟨ids, ?_, ?_, ?_, ?_, ?_, ?_, closedExited, noPanic⟩
    · intro i' h'; cases h'
    · intro i' h'; cases h'
    · intro _; exact hl
    · simpa [MainPc.genPending, State.log] using wg
    · simp [MainPc.inGenerate]
    · simp [hcl]
  case workAdd i hp hm hlt =>
    have hl := pastLen (by rw [hm]; rfl)
    rw [hm] at wg closerNS
    refine ⟨ids, ?_, ?_, ?_, ?_, ?_, closedIff, closedExited, noPanic⟩
    · intro i' h'; cases h'
    · intro i' h'; cases h'
    · intro _; exact hl
    · simpa [MainPc.genPending, State.log] using wg
    · simpa [MainPc.inGenerate, State.log] using closerNS
  case workLoopExit i hp hm hge =>
    have hl := pastLen (by rw [hm]; rfl)
    rw [hm] at wg closerNS
    refine ⟨ids, ?_, ?_, ?_, ?_, ?_, closedIff, closedExited, noPanic⟩
    · intro i' h'; cases h'
    · intro i' h'; cases h'
    · intro _; exact hl
    · simpa [MainPc.genPending, State.log] using wg
    · simpa [MainPc.inGenerate, State.log] using closerNS
  case workSpawn i hp hm =>
    have hl := pastLen (by rw [hm]; rfl)
    rw [hm] at wg closerNS
    refine ⟨ids, ?_, ?_, ?_, ?_, ?_, closedIff, closedExited, noPanic⟩
    · intro i' h'; cases h'
    · intro i' h'; cases h'
    · intro _; exact hl
    · simpa [MainPc.genPending, State.log] using wg
    · simpa [MainPc.inGenerate, State.log] using closerNS
  case waitReturn hp hm h0 =>
    have hl := pastLen (by rw [hm]; rfl)
    rw [hm] at wg closerNS
    refine ⟨ids, ?_, ?_, ?_, ?_, ?_, closedIff, closedExited, noPanic⟩
    · intro i' h'; cases h'
    · intro i' h'; cases h'
    · intro _; exact hl
    · simpa [MainPc.genPending, State.log] using wg
    · simpa [MainPc.inGenerate, State.log] using closerNS
  case closePanic hp hc h0 hcl =>
    have := closedIff.1 hcl
    rw [hc] at this; cases this
  case close hp hc h0 hcl =>
    have hng : s.main.inGenerate = false := by
      cases hin : s.main.inGenerate with
      | false => rfl
      | true => have := closerNS.2 hin; rw [hc] at this; cases this
    have hact : activeGens s.gens = 0 := by
      have : (0 : Int) ≤ (s.main.genPending : Int) := Int.ofNat_nonneg _
      rw [h0] at wg
      have h1 : (0 : Int) ≤ (activeGens s.gens : Int) := Int.ofNat_nonneg _
      omega
    refine ⟨ids, loopLen, addedLen, pastLen, wg, ?_, ?_, ?_, noPanic⟩
    · simp [State.log, hng]
    · simp [State.log]
    · intro _; exact exited_of_activeGens_zero hact
  case cancel hp =>
    exact ⟨ids, loopLen, addedLen, pastLen, wg, closerNS, closedIff, closedExited, noPanic⟩
  case genBuild k gid j hp hg hlt =>
    have hact := activeGens_set ⟨gid, .select j (buildOrder gid cfg.numOrdersPerGenerator j)⟩ hg
    have hcl : s.closed = false := by
      cases hc : s.closed with
      | false => rfl
      | true => have := closedExited hc _ (mem_of_get hg); cases this
    refine ⟨?_, ?_, ?_, ?_, ?_, closerNS, closedIff, ?_, noPanic⟩
    · intro k' g h'
      rcases get_set_cases h' with ⟨h1, h2⟩ | ⟨_, h2⟩
      · subst h1 h2; have h3 := ids _ _ hg; exact h3
      · exact ids _ _ h2
    · simpa using loopLen
    · simpa using addedLen
    · simpa using pastLen
    · simp only [GenState.active, GenState.isExited] at hact
      simp only [wg]; simp at hact; omega
    · intro h'; rw [hcl] at h'; cases h'
  case genExit k gid j hp hg hge =>
    have hact := activeGens_set ⟨gid, .exited j false⟩ hg
    refine ⟨?_, ?_, ?_, ?_, ?_, closerNS, closedIff, ?_, noPanic⟩
    · intro k' g h'
      rcases get_set_cases h' with ⟨h1, h2⟩ | ⟨_, h2⟩
      · subst h1 h2; have h3 := ids _ _ hg; exact h3
      · exact ids _ _ h2
    · simpa [State.log] using loopLen
    · simpa [State.log] using addedLen
    · simpa [State.log] using pastLen
    · simp only [GenState.active, GenState.isExited] at hact
      simp only [State.log, wg]; simp at hact; omega
    · intro h' g hgm
      rcases List.mem_or_eq_of_mem_set hgm with h1 | h1
      · exact closedExited h' g h1
      · subst h1; rfl
  case genCancel k gid j o hp hg hc =>
    have hact := activeGens_set ⟨gid, .exited j true⟩ hg
    refine ⟨?_, ?_, ?_, ?_, ?_, closerNS, closedIff, ?_, noPanic⟩
    · intro k' g h'
      rcases get_set_cases h' with ⟨h1, h2⟩ | ⟨_, h2⟩
      · subst h1 h2; have h3 := ids _ _ hg; exact h3
      · exact ids _ _ h2
    · simpa [State.log] using loopLen
    · simpa [State.log] using addedLen
    · simpa [State.log] using pastLen
    · simp only [GenState.active, GenState.isExited] at hact
      simp only [State.log, wg]; simp at hact; omega
    · intro h' g hgm
      rcases List.mem_or_eq_of_mem_set hgm with h1 | h1
      · exact closedExited h' g h1
      · subst h1; rfl
  case handoff k w gid j o wid hp hg hw hcl hnc =>
    have hact := activeGens_set ⟨gid, .loop (j + 1)⟩ hg
    refine ⟨?_, ?_, ?_, ?_, ?_, closerNS, closedIff, ?_, noPanic⟩
    · intro k' g h'
      rcases get_set_cases h' with ⟨h1, h2⟩ | ⟨_, h2⟩
      · subst h1 h2; have h3 := ids _ _ hg; exact h3
      · exact ids _ _ h2
    · simpa [State.log] using loopLen
    · simpa [State.log] using addedLen
    · simpa [State.log] using pastLen
    · simp only [GenState.active, GenState.isExited] at hact
      simp only [State.log, wg]; simp at hact; omega
    · intro h'; simp only [State.log] at h'; rw [hcl] at h'; cases h'
  case sendPanic k gid j o hp hg hcl =>
    have := closedExited hcl _ (mem_of_get hg); cases this
  case workerClosed w wid hp hw hcl =>
    exact ⟨ids, loopLen, addedLen, pastLen, wg, closerNS, closedIff, closedExited, noPanic⟩
  case workerCancel w wid hp hw hc =>
    exact ⟨ids, loopLen, addedLen, pastLen, wg, closerNS, closedIff, closedExited, noPanic⟩
  case process w wid o err hp hw =>
    exact ⟨ids, loopLen, addedLen, pastLen, wg, closerNS, closedIff, closedExited, noPanic⟩

theorem invA {cfg : Config} {s : State} (h : Reachable cfg s) : InvA cfg s :=
  Reachable.induct (InvA cfg) (invA_init cfg) (fun _ _ _ hA hs => invA_step hA hs) s h

theorem sentBy_snoc (g : Int) (tr : List Event) (e : Event) :
    sentBy g (tr ++ [e]) = sentBy g tr ++ sentBy g [e] := by
  simp [sentBy, List.filterMap_append]

theorem sends_snoc (tr : List Event) (e : Event) :
    sends (tr ++ [e]) = sends tr ++ sends [e] := by
  simp [sends, List.filterMap_append]

theorem invB_init (cfg : Config) : InvB cfg init := by
  constructor <;> simp [init, sentBy, sends]

theorem invB_step {cfg : Config} {s s' : State} (hA : InvA cfg s) (hB : InvB cfg s)
    (h : Step cfg s s') : InvB cfg s' := by
  obtain ⟨sent, pcOk, foreign, total⟩ := hB
  have hlen : ∀ (k : Nat) (g : GenState), s.gens[k]? = some g → k < s.gens.length := by
    intro k g hg
    by_contra hc
    rw [List.getElem?_eq_none (by omega)] at hg; cases hg
  cases h
  case genAdd i hp hm hlt => exact ⟨sent, pcOk, foreign, total⟩
  case genLoopExit i hp hm hge => exact ⟨sent, pcOk, foreign, total⟩
  case genSpawn i hp hm =>
    have hl := (hA.addedLen i hm).1
    refine ⟨?_, ?_, ?_, ?_⟩
    · intro k g hg
      rcases get_snoc_cases hg with h1 | ⟨h1, h2⟩
      · exact sent k g h1
      · subst h2
        have := foreign ((i : Int) + 1) (by intro k hk; rw [hl] at hk; omega)
        simpa [GenState.counter] using this
    · intro k g hg
      rcases get_snoc_cases hg with h1 | ⟨h1, h2⟩
      · exact pcOk k g h1
      · subst h2; simp [GenPcOk]
    · intro g hg
      apply foreign g
      intro k hk
      exact hg k (by simp; omega)
    · simpa [GenState.counter] using total
  case closerSpawn hp hm => exact ⟨sent, pcOk, foreign, total⟩
  case workAdd i hp hm hlt =>
    refine ⟨?_, pcOk, ?_, ?_⟩
    · intro k g hg; simpa [State.log, sentBy_snoc, sentBy] using sent k g hg
    · intro g hg; simpa [State.log, sentBy_snoc, sentBy] using foreign g hg
    · simpa [State.log, sends_snoc, sends] using total
  case workLoopExit i hp hm hge => exact ⟨sent, pcOk, foreign, total⟩
  case workSpawn i hp hm =>
    refine ⟨?_, pcOk, ?_, ?_⟩
    · intro k g hg; simpa [State.log, sentBy_snoc, sentBy] using sent k g hg
    · intro g hg; simpa [State.log, sentBy_snoc, sentBy] using foreign g hg
    · simpa [State.log, sends_snoc, sends] using total
  case waitReturn hp hm h0 => exact ⟨sent, pcOk, foreign, total⟩
  case closePanic hp hc h0 hcl => exact ⟨sent, pcOk, foreign, total⟩
  case close hp hc h0 hcl =>
    refine ⟨?_, pcOk, ?_, ?_⟩
    · intro k g hg; simpa [State.log, sentBy_snoc, sentBy] using sent k g hg
    · intro g hg; simpa [State.log, sentBy_snoc, sentBy] using foreign g hg
    · simpa [State.log, sends_snoc, sends] using total
  case cancel hp =>
    refine ⟨?_, pcOk, ?_, ?_⟩
    · intro k g hg; simpa [State.log, sentBy_snoc, sentBy] using sent k g hg
    · intro g hg; simpa [State.log, sentBy_snoc, sentBy] using foreign g hg
    · simpa [State.log, sends_snoc, sends] using total
  case genBuild k gid j hp hg hlt =>
    have hs := sent k _ hg
    have hsum := sum_map_set GenState.counter s.gens k _
      ⟨gid, .select j (buildOrder gid cfg.numOrdersPerGenerator j)⟩ hg
    refine ⟨?_, ?_, ?_, ?_⟩
    · intro k' g h'
      rcases get_set_cases h' with ⟨h1, h2⟩ | ⟨_, h2⟩
      · subst h1 h2; exact hs
      · exact sent _ _ h2
    · intro k' g h'
      rcases get_set_cases h' with ⟨h1, h2⟩ | ⟨_, h2⟩
      · subst h1 h2; exact ⟨hlt, rfl⟩
      · exact pcOk _ _ h2
    · simpa using foreign
    · simp only [GenState.counter] at hsum
      simp only [total]; omega
  case genExit k gid j hp hg hge =>
    have hs := sent k _ hg
    have hpc := pcOk k _ hg
    have hsum := sum_map_set GenState.counter s.gens k _ ⟨gid, .exited j false⟩ hg
    refine ⟨?_, ?_, ?_, ?_⟩
    · intro k' g h'
      rcases get_set_cases h' with ⟨h1, h2⟩ | ⟨_, h2⟩
      · subst h1 h2; simpa [State.log, sentBy_snoc, sentBy] using hs
      · simpa [State.log, sentBy_snoc, sentBy] using sent _ _ h2
    · intro k' g h'
      rcases get_set_cases h' with ⟨h1, h2⟩ | ⟨_, h2⟩
      · subst h1 h2; exact ⟨hpc, hge⟩
      · exact pcOk _ _ h2
    · intro g hg'; simpa [State.log, sentBy_snoc, sentBy] using foreign g (by simpa [State.log] using hg')
    · simp only [GenState.counter] at hsum
      have ht := total
      simp only [sends] at ht
      simp only [State.log, sends, List.filterMap_append, List.filterMap_cons,
        List.filterMap_nil, List.length_append, List.length_cons, List.length_nil,
        List.append_nil]
      omega
  case genCancel k gid j o hp hg hc =>
    have hs := sent k _ hg
    have hpc := pcOk k _ hg
    have hsum := sum_map_set GenState.counter s.gens k _ ⟨gid, .exited j true⟩ hg
    refine ⟨?_, ?_, ?_, ?_⟩
    · intro k' g h'
      rcases get_set_cases h' with ⟨h1, h2⟩ | ⟨_, h2⟩
      · subst h1 h2; simpa [State.log, sentBy_snoc, sentBy] using hs
      · simpa [State.log, sentBy_snoc, sentBy] using sent _ _ h2
    · intro k' g h'
      rcases get_set_cases h' with ⟨h1, h2⟩ | ⟨_, h2⟩
      · subst h1 h2; exact hpc.1
      · exact pcOk _ _ h2
    · intro g hg'; simpa [State.log, sentBy_snoc, sentBy] using foreign g (by simpa [State.log] using hg')
    · simp only [GenState.counter] at hsum
      have ht := total
      simp only [sends] at ht
      simp only [State.log, sends, List.filterMap_append, List.filterMap_cons,
        List.filterMap_nil, List.length_append, List.length_cons, List.length_nil,
        List.append_nil]
      omega
  case handoff k w gid j o wid hp hg hw hcl hnc =>
    have hs := sent k _ hg
    have hpc := pcOk k _ hg
    have hid := hA.ids k _ hg
    have hk := hlen k _ hg
    have hsum := sum_map_set GenState.counter s.gens k _ ⟨gid, .loop (j + 1)⟩ hg
    simp only [GenState.counter] at hs hsum
    simp only [GenPcOk] at hpc
    simp only at hid
    refine ⟨?_, ?_, ?_, ?_⟩
    · intro k' g h'
      rcases get_set_cases h' with ⟨h1, h2⟩ | ⟨hne, h2⟩
      · subst h1 h2
        simp only [State.log, sentBy_snoc, GenState.counter, List.range_succ, List.map_append,
          List.map_cons, List.map_nil, hs]
        simp [sentBy, hpc.2]
      · have hid' := hA.ids _ _ h2
        have hne' : gid ≠ g.generatorID := by rw [hid, hid']; omega
        simpa [State.log, sentBy_snoc, sentBy, hne'] using sent _ _ h2
    · intro k' g h'
      rcases get_set_cases h' with ⟨h1, h2⟩ | ⟨_, h2⟩
      · subst h1 h2; simp only [GenPcOk]; right; omega
      · exact pcOk _ _ h2
    · intro g hg'
      have hne' : gid ≠ g := by
        intro e; subst e; exact hg' k (by simpa [State.log] using hk) hid
      simpa [State.log, sentBy_snoc, sentBy, hne'] using foreign g (by simpa [State.log] using hg')
    · have ht := total
      simp only [sends] at ht
      simp only [State.log, sends, List.filterMap_append, List.filterMap_cons,
        List.filterMap_nil, List.length_append, List.length_cons, List.length_nil,
        List.append_nil]
      omega
  case sendPanic k gid j o hp hg hcl => exact ⟨sent, pcOk, foreign, total⟩
  case workerClosed w wid hp hw hcl =>
    refine ⟨?_, pcOk, ?_, ?_⟩
    · intro k g hg; simpa [State.log, sentBy_snoc, sentBy] using sent k g hg
    · intro g hg; simpa [State.log, sentBy_snoc, sentBy] using foreign g hg
    · simpa [State.log, sends_snoc, sends] using total
  case workerCancel w wid hp hw hc =>
    refine ⟨?_, pcOk, ?_, ?_⟩
    · intro k g hg; simpa [State.log, sentBy_snoc, sentBy] using sent k g hg
    · intro g hg; simpa [State.log, sentBy_snoc, sentBy] using foreign g hg
    · simpa [State.log, sends_snoc, sends] using total
  case process w wid o err hp hw =>
    refine ⟨?_, pcOk, ?_, ?_⟩
    · intro k g hg; simpa [State.log, sentBy_snoc, sentBy] using sent k g hg
    · intro g hg; simpa [State.log, sentBy_snoc, sentBy] using foreign g hg
    · simpa [State.log, sends_snoc, sends] using total

theorem activeWorkers_set {l : List WorkerState} {k : Nat} {a : WorkerState} (x : WorkerState)
    (h : l[k]? = some a) :
    activeWorkers (l.set k x) + a.active = activeWorkers l + x.active :=
  sum_map_set WorkerState.active l k a x h

theorem exited_of_activeWorkers_zero {l : List WorkerState} (h : activeWorkers l = 0) :
    ∀ w ∈ l, w.isExited = true := by
  intro w hw
  unfold activeWorkers at h
  have h1 : WorkerState.active w ∈ l.map WorkerState.active := List.mem_map_of_mem _ hw
  have h2 : WorkerState.active w ≤ (l.map WorkerState.active).sum :=
    List.single_le_sum (by simp) _ h1
  have h3 : WorkerState.active w = 0 := by omega
  unfold WorkerState.active at h3
  split at h3
  · assumption
  · cases h3

theorem activeWorkers_zero_of_exited {l : List WorkerState}
    (h : ∀ w ∈ l, w.isExited = true) : activeWorkers l = 0 := by
  unfold activeWorkers
  apply List.sum_eq_zero
  intro x hx
  obtain ⟨w, hw, rfl⟩ := List.mem_map.1 hx
  simp [WorkerState.active, h w hw]

theorem invW_init (cfg : Config) : InvW cfg init := by
  constructor <;>
    simp [init, activeWorkers, MainPc.workPending, MainPc.inGenerate, MainPc.workersStarted]

theorem invW_step {cfg : Config} {s s' : State} (hW : InvW cfg s) (h : Step cfg s s') :
    InvW cfg s' := by
  obtain ⟨wids, wbefore, wloopLen, waddedLen, wafter, wwg, wdone⟩ := hW
  cases h
  case genAdd i hp hm hlt =>
    rw [hm] at wwg wbefore
    refine ⟨wids, ?_, ?_, ?_, ?_, ?_, ?_⟩
    · intro _; exact wbefore rfl
    · intro i' h'; cases h'
    · intro i' h'; cases h'
    · intro h'; cases h'
    · simpa [MainPc.workPending] using wwg
    · intro h'; cases h'
  case genLoopExit i hp hm hge =>
    rw [hm] at wwg wbefore
    refine ⟨wids, ?_, ?_, ?_, ?_, ?_, ?_⟩
    · intro _; exact wbefore rfl
    · intro i' h'; cases h'
    · intro i' h'; cases h'
    · intro h'; cases h'
    · simpa [MainPc.workPending] using wwg
    · intro h'; cases h'
  case genSpawn i hp hm =>
    rw [hm] at wwg wbefore
    refine ⟨wids, ?_, ?_, ?_, ?_, ?_, ?_⟩
    · intro _; exact wbefore rfl
    · intro i' h'; cases h'
    · intro i' h'; cases h'
    · intro h'; cases h'
    · simpa [MainPc.workPending] using wwg
    · intro h'; cases h'
  case closerSpawn hp hm =>
    rw [hm] at wwg wbefore
    have hnil := wbefore rfl
    refine ⟨wids, ?_, ?_, ?_, ?_, ?_, ?_⟩
    · intro h'; cases h'
    · intro i' h'; cases h'; simp [hnil]
    · intro i' h'; cases h'
    · intro h'; cases h'
    · simpa [MainPc.workPending] using wwg
    · intro h'; cases h'
  case workAdd i hp hm hlt =>
    have hl := wloopLen i hm
    rw [hm] at wwg
    refine ⟨wids, ?_, ?_, ?_, ?_, ?_, ?_⟩
    · intro h'; cases h'
    · intro i' h'; cases h'
    · intro i' h'; cases h'; exact ⟨hl.1, hlt⟩
    · intro h'; cases h'
    · simp only [MainPc.workPending, State.log] at wwg ⊢; omega
    · intro h'; cases h'
  case workLoopExit i hp hm hge =>
    have hl := wloopLen i hm
    rw [hm] at wwg
    refine ⟨wids, ?_, ?_, ?_, ?_, ?_, ?_⟩
    · intro h'; cases h'
    · intro i' h'; cases h'
    · intro i' h'; cases h'
    · intro _; rw [hl.1]; omega
    · simpa [MainPc.workPending] using wwg
    · intro h'; cases h'
  case workSpawn i hp hm =>
    have hl := waddedLen i hm
    rw [hm] at wwg
    refine ⟨?_, ?_, ?_, ?_, ?_, ?_, ?_⟩
    · intro k w hw
      rcases get_snoc_cases hw with h1 | ⟨h1, h2⟩
      · exact wids k w h1
      · subst h2; simp [h1, hl.1]
    · intro h'; cases h'
    · intro i' h'
      cases h'
      simp only [State.log, List.length_append, List.length_singleton]
      exact ⟨by omega, Or.inr (by push_cast; omega)⟩
    · intro i' h'; cases h'
    · intro h'; cases h'
    · simp only [MainPc.workPending, activeWorkers, List.map_append, List.sum_append,
        List.map_cons, List.map_nil, List.sum_cons, List.sum_nil, State.log] at wwg ⊢
      have : WorkerState.active ⟨(i : Int) + 1, .select⟩ = 1 := rfl
      rw [this]; push_cast at wwg ⊢; omega
    · intro h'; cases h'
  case waitReturn hp hm h0 =>
    have hl := wafter (by rw [hm]; rfl)
    rw [hm] at wwg
    refine ⟨wids, ?_, ?_, ?_, ?_, ?_, ?_⟩
    · intro h'; cases h'
    · intro i' h'; cases h'
    · intro i' h'; cases h'
    · intro _; exact hl
    · simpa [MainPc.workPending] using wwg
    · intro _; exact h0
  case closePanic hp hc h0 hcl => exact ⟨wids, wbefore, wloopLen, waddedLen, wafter, wwg, wdone⟩
  case close hp hc h0 hcl => exact ⟨wids, wbefore, wloopLen, waddedLen, wafter, wwg, wdone⟩
  case cancel hp => exact ⟨wids, wbefore, wloopLen, waddedLen, wafter, wwg, wdone⟩
  case genBuild k gid j hp hg hlt => exact ⟨wids, wbefore, wloopLen, waddedLen, wafter, wwg, wdone⟩
  case genExit k gid j hp hg hge => exact ⟨wids, wbefore, wloopLen, waddedLen, wafter, wwg, wdone⟩
  case genCancel k gid j o hp hg hc =>
    exact ⟨wids, wbefore, wloopLen, waddedLen, wafter, wwg, wdone⟩
  case sendPanic k gid j o hp hg hcl =>
    exact ⟨wids, wbefore, wloopLen, waddedLen, wafter, wwg, wdone⟩
  case handoff k w gid j o wid hp hg hw hcl hnc =>
    have hact := activeWorkers_set ⟨wid, .holding o⟩ hw
    refine ⟨?_, ?_, ?_, ?_, ?_, ?_, ?_⟩
    · intro k' g h'
      rcases get_set_cases h' with ⟨h1, h2⟩ | ⟨_, h2⟩
      · subst h1 h2; have h3 := wids _ _ hw; exact h3
      · exact wids _ _ h2
    · intro h'
      have := wbefore h'
      rw [this] at hw; simp at hw
    · simpa [State.log] using wloopLen
    · simpa [State.log] using waddedLen
    · simpa [State.log] using wafter
    · simp only [WorkerState.active, WorkerState.isExited] at hact
      simp only [State.log, wwg]; simp at hact; omega
    · exact wdone
  case workerClosed w wid hp hw hcl =>
    have hact := activeWorkers_set ⟨wid, .exited .channelClosed⟩ hw
    refine ⟨?_, ?_, ?_, ?_, ?_, ?_, ?_⟩
    · intro k' g h'
      rcases get_set_cases h' with ⟨h1, h2⟩ | ⟨_, h2⟩
      · subst h1 h2; have h3 := wids _ _ hw; exact h3
      · exact wids _ _ h2
    · intro h'
      have := wbefore h'
      rw [this] at hw; simp at hw
    · simpa [State.log] using wloopLen
    · simpa [State.log] using waddedLen
    · simpa [State.log] using wafter
    · simp only [WorkerState.active, WorkerState.isExited] at hact
      simp only [State.log, wwg]; simp at hact; omega
    · intro hm
      have h0 := wdone hm
      rw [h0] at wwg
      have hz : activeWorkers s.workers = 0 := by
        have h1 : (0 : Int) ≤ (s.main.workPending : Int) := Int.ofNat_nonneg _
        have h2 : (0 : Int) ≤ (activeWorkers s.workers : Int) := Int.ofNat_nonneg _
        omega
      have := exited_of_activeWorkers_zero hz _ (mem_of_get hw)
      cases this
  case workerCancel w wid hp hw hc =>
    have hact := activeWorkers_set ⟨wid, .exited .cancelled⟩ hw
    refine ⟨?_, ?_, ?_, ?_, ?_, ?_, ?_⟩
    · intro k' g h'
      rcases get_set_cases h' with ⟨h1, h2⟩ | ⟨_, h2⟩
      · subst h1 h2; have h3 := wids _ _ hw; exact h3
      · exact wids _ _ h2
    · intro h'
      have := wbefore h'
      rw [this] at hw; simp at hw
    · simpa [State.log] using wloopLen
    · simpa [State.log] using waddedLen
    · simpa [State.log] using wafter
    · simp only [WorkerState.active, WorkerState.isExited] at hact
      simp only [State.log, wwg]; simp at hact; omega
    · intro hm
      have h0 := wdone hm
      rw [h0] at wwg
      have hz : activeWorkers s.workers = 0 := by
        have h1 : (0 : Int) ≤ (s.main.workPending : Int) := Int.ofNat_nonneg _
        have h2 : (0 : Int) ≤ (activeWorkers s.workers : Int) := Int.ofNat_nonneg _
        omega
      have := exited_of_activeWorkers_zero hz _ (mem_of_get hw)
      cases this
  case process w wid o err hp hw =>
    have hact := activeWorkers_set ⟨wid, .select⟩ hw
    refine ⟨?_, ?_, ?_, ?_, ?_, ?_, ?_⟩
    · intro k' g h'
      rcases get_set_cases h' with ⟨h1, h2⟩ | ⟨_, h2⟩
      · subst h1 h2; have h3 := wids _ _ hw; exact h3
      · exact wids _ _ h2
    · intro h'
      have := wbefore h'
      rw [this] at hw; simp at hw
    · simpa [State.log] using wloopLen
    · simpa [State.log] using waddedLen
    · simpa [State.log] using wafter
    · simp only [WorkerState.active, WorkerState.isExited] at hact
      simp only [State.log, wwg]; simp at hact; omega
    · exact wdone

theorem recvBy_snoc (w : Int) (tr : List Event) (e : Event) :
    recvBy w (tr ++ [e]) = recvBy w tr ++ recvBy w [e] := by
  simp [recvBy, List.filterMap_append]

theorem procBy_snoc (w : Int) (tr : List Event) (e : Event) :
    procBy w (tr ++ [e]) = procBy w tr ++ procBy w [e] := by
  simp [procBy, List.filterMap_append]

theorem recvs_snoc (tr : List Event) (e : Event) :
    recvs (tr ++ [e]) = recvs tr ++ recvs [e] := by
  simp [recvs, List.filterMap_append]

theorem invR_init (cfg : Config) : InvR cfg init := by
  constructor <;> simp [init, recvBy, procBy, recvs, sends, MainPc.workPending]

/-- A step that leaves the workers alone and logs nothing keeps `InvR`. -/
theorem invR_silent {cfg : Config} {s s' : State} (hR : InvR cfg s)
    (hw : s'.workers = s.workers) (ht : s'.trace = s.trace)
    (hm : s'.main.workPending = s.main.workPending) : InvR cfg s' := by
  obtain ⟨recv, wforeign, pair, adds, starts, dones⟩ := hR
  refine ⟨?_, ?_, ?_, ?_, ?_, ?_⟩
  · rw [hw, ht]; exact recv
  · rw [hw, ht]; exact wforeign
  · rw [ht]; exact pair
  · rw [hw, ht, hm]; exact adds
  · rw [hw, ht]; exact starts
  · rw [hw, ht]; exact dones

/-- A step that leaves the workers alone and logs one event that is no receive, no
`Process` call and no worker bookkeeping keeps `InvR`. -/
theorem invR_log {cfg : Config} {s s' : State} (e : Event) (hR : InvR cfg s)
    (hw : s'.workers = s.workers) (ht : s'.trace = s.trace ++ [e])
    (hm : s'.main.workPending = s.main.workPending)
    (h1 : ∀ w, recvBy w [e] = []) (h2 : ∀ w, procBy w [e] = [])
    (h3 : recvs [e] = []) (h4 : sends [e] = []) (h5 : e ≠ .workerAdd)
    (h6 : e.isWorkerStart = false) (h7 : ∀ w, e ≠ .workerDone w) : InvR cfg s' := by
  obtain ⟨recv, wforeign, pair, adds, starts, dones⟩ := hR
  have hc : ∀ w, (s.trace ++ [e]).count (.workerDone w) = s.trace.count (.workerDone w) := by
    intro w
    rw [List.count_append, List.count_singleton]
    simp [h7 w]
  refine ⟨?_, ?_, ?_, ?_, ?_, ?_⟩
  · intro k w hk
    rw [hw] at hk
    rw [ht, recvBy_snoc, procBy_snoc, h1, h2, List.append_nil, List.append_nil]
    exact recv k w hk
  · intro w hf
    rw [hw] at hf
    rw [ht, recvBy_snoc, procBy_snoc, h1, h2, List.append_nil, List.append_nil, hc]
    exact wforeign w hf
  · rw [ht, recvs_snoc, sends_snoc, h3, h4, List.append_nil, List.append_nil]; exact pair
  · rw [hw, ht, hm, List.count_append, List.count_singleton]
    simp [h5, adds]
  · rw [hw, ht, List.filter_append]
    simp [h6, starts]
  · intro k w hk
    rw [hw] at hk
    rw [ht, hc]
    exact dones k w hk

/-- A worker in its select returns and logs its `wg.Done()`. -/
theorem invR_exit {cfg : Config} {s : State} (hW : InvW cfg s) (hR : InvR cfg s)
    (w : Nat) (wid : Int) (r : ExitReason) (d : Int)
    (hw : s.workers[w]? = some ⟨wid, .select⟩) :
    InvR cfg (({ s with workers := s.workers.set w ⟨wid, .exited r⟩,
                        workWg := d } : State).log (.workerDone wid)) := by
  obtain ⟨recv, wforeign, pair, adds, starts, dones⟩ := hR
  have hid := hW.wids w _ hw
  simp only at hid
  have hk : w < s.workers.length := by
    by_contra hc
    rw [List.getElem?_eq_none (by omega)] at hw; cases hw
  have hc : ∀ w', w' ≠ wid → (s.trace ++ [Event.workerDone wid]).count (.workerDone w')
      = s.trace.count (.workerDone w') := by
    intro w' hne; rw [List.count_append, List.count_singleton]
    simp [hne.symm]
  refine ⟨?_, ?_, ?_, ?_, ?_, ?_⟩
  · intro k' g h'
    rcases get_set_cases h' with ⟨h1, h2⟩ | ⟨_, h2⟩
    · subst h1 h2
      simpa [State.log, recvBy_snoc, procBy_snoc, recvBy, procBy, WorkerState.held]
        using recv _ _ hw
    · simpa [State.log, recvBy_snoc, procBy_snoc, recvBy, procBy] using recv _ _ h2
  · intro w' hf
    have hf' : ∀ k : Nat, k < s.workers.length → w' ≠ (k : Int) + 1 :=
      fun k hk' => hf k (by simpa [State.log] using hk')
    have hne : w' ≠ wid := by rw [hid]; exact hf' w hk
    have := wforeign w' hf'
    simp only [State.log, hc w' hne]
    simpa [recvBy_snoc, procBy_snoc, recvBy, procBy, hne.symm] using this
  · simpa [State.log, recvs_snoc, sends_snoc, recvs, sends] using pair
  · simp only [State.log, List.count_append, List.count_singleton, List.length_set]
    simp [adds]
  · simpa [State.log, List.filter_append, Event.isWorkerStart] using starts
  · intro k' g h'
    rcases get_set_cases h' with ⟨h1, h2⟩ | ⟨hne, h2⟩
    · subst h1 h2
      have := dones _ _ hw
      simp only [WorkerState.isExited] at this
      simp only [State.log, List.count_append, List.count_singleton, WorkerState.isExited]
      simp [this]
    · have hid' := hW.wids _ _ h2
      have hne' : g.id ≠ wid := by rw [hid, hid']; omega
      simp only [State.log, hc _ hne']
      exact dones _ _ h2

theorem invR_step {cfg : Config} {s s' : State} (hW : InvW cfg s) (hR : InvR cfg s)
    (h : Step cfg s s') : InvR cfg s' := by
  have hlen : ∀ (k : Nat) (w : WorkerState), s.workers[k]? = some w →
      k < s.workers.length := by
    intro k g hg
    by_contra hc
    rw [List.getElem?_eq_none (by omega)] at hg; cases hg
  cases h
  case genAdd i hp hm hlt => exact invR_silent hR rfl rfl (by rw [hm]; rfl)
  case genLoopExit i hp hm hge => exact invR_silent hR rfl rfl (by rw [hm]; rfl)
  case genSpawn i hp hm => exact invR_silent hR rfl rfl (by rw [hm]; rfl)
  case closerSpawn hp hm => exact invR_silent hR rfl rfl (by rw [hm]; rfl)
  case workLoopExit i hp hm hge => exact invR_silent hR rfl rfl (by rw [hm]; rfl)
  case waitReturn hp hm h0 => exact invR_silent hR rfl rfl (by rw [hm]; rfl)
  case closePanic hp hc h0 hcl => exact invR_silent hR rfl rfl rfl
  case sendPanic k gid j o hp hg hcl => exact invR_silent hR rfl rfl rfl
  case genBuild k gid j hp hg hlt => exact invR_silent hR rfl rfl rfl
  case close hp hc h0 hcl =>
    exact invR_log .close hR rfl rfl rfl (by intro w; rfl) (by intro w; rfl) rfl rfl
      (by simp) rfl (by simp)
  case cancel hp =>
    exact invR_log .cancel hR rfl rfl rfl (by intro w; rfl) (by intro w; rfl) rfl rfl
      (by simp) rfl (by simp)
  case genExit k gid j hp hg hge =>
    exact invR_log (.genDone gid) hR rfl rfl rfl (by intro w; rfl) (by intro w; rfl) rfl rfl
      (by simp) rfl (by simp)
  case genCancel k gid j o hp hg hc =>
    let mid : State := { s with gens := s.gens.set k ⟨gid, .exited j true⟩, genWg := s.genWg - 1 }
    have h1 : InvR cfg (mid.log (.genCancelled gid)) :=
      invR_log (.genCancelled gid) hR rfl rfl rfl (by intro w; rfl) (by intro w; rfl) rfl rfl
        (by simp) rfl (by simp)
    exact invR_log (.genDone gid) h1 rfl rfl rfl (by intro w; rfl) (by intro w; rfl) rfl rfl
      (by simp) rfl (by simp)
  case workAdd i hp hm hlt =>
    obtain ⟨recv, wforeign, pair, adds, starts, dones⟩ := hR
    have hc : ∀ w, (s.trace ++ [Event.workerAdd]).count (.workerDone w)
        = s.trace.count (.workerDone w) := by
      intro w; rw [List.count_append, List.count_singleton]; simp
    refine ⟨?_, ?_, ?_, ?_, ?_, ?_⟩
    · intro k w hk
      simpa [State.log, recvBy_snoc, procBy_snoc, recvBy, procBy] using recv k w hk
    · intro w hf
      have := wforeign w hf
      simp only [State.log, hc]
      simpa [recvBy_snoc, procBy_snoc, recvBy, procBy] using this
    · simpa [State.log, recvs_snoc, sends_snoc, recvs, sends] using pair
    · rw [hm] at adds
      simp only [State.log, MainPc.workPending, List.count_append, List.count_singleton] at adds ⊢
      simp [adds]
    · simpa [State.log, List.filter_append, Event.isWorkerStart] using starts
    · intro k w hk
      simp only [State.log, hc]
      exact dones k w hk
  case workSpawn i hp hm =>
    obtain ⟨recv, wforeign, pair, adds, starts, dones⟩ := hR
    have hl := (hW.waddedLen i hm).1
    have hc : ∀ w, (s.trace ++ [Event.workerStart ((i : Int) + 1)]).count (.workerDone w)
        = s.trace.count (.workerDone w) := by
      intro w; rw [List.count_append, List.count_singleton]; simp
    have hnew := wforeign ((i : Int) + 1) (by intro k hk; rw [hl] at hk; omega)
    refine ⟨?_, ?_, ?_, ?_, ?_, ?_⟩
    · intro k w hk
      rcases get_snoc_cases hk with h1 | ⟨h1, h2⟩
      · simpa [State.log, recvBy_snoc, procBy_snoc, recvBy, procBy] using recv k w h1
      · subst h2
        simpa [State.log, recvBy_snoc, procBy_snoc, recvBy, procBy, WorkerState.held]
          using hnew.1.trans hnew.2.1.symm
    · intro w hf
      have := wforeign w (fun k hk => hf k (by simp [State.log]; omega))
      simp only [State.log, hc]
      simpa [recvBy_snoc, procBy_snoc, recvBy, procBy] using this
    · simpa [State.log, recvs_snoc, sends_snoc, recvs, sends] using pair
    · rw [hm] at adds
      simp only [State.log, MainPc.workPending, List.count_append, List.count_singleton,
        List.length_append, List.length_singleton] at adds ⊢
      simp [adds]
    · simp only [State.log, List.filter_append, List.length_append, starts]
      simp [Event.isWorkerStart]
    · intro k w hk
      simp only [State.log, hc]
      rcases get_snoc_cases hk with h1 | ⟨h1, h2⟩
      · exact dones k w h1
      · subst h2
        simpa [WorkerState.isExited] using hnew.2.2
  case workerClosed w wid hp hw hcl => exact invR_exit hW hR w wid _ _ hw
  case workerCancel w wid hp hw hc => exact invR_exit hW hR w wid _ _ hw
  case handoff k w gid j o wid hp hg hw hcl hnc =>
    obtain ⟨recv, wforeign, pair, adds, starts, dones⟩ := hR
    have hid := hW.wids w _ hw
    simp only at hid
    have hk := hlen w _ hw
    have hc : ∀ w', (s.trace ++ [Event.send gid o] ++ [Event.recv wid o]).count
        (.workerDone w') = s.trace.count (.workerDone w') := by
      intro w'; rw [List.count_append, List.count_append, List.count_singleton,
        List.count_singleton]
      simp
    refine ⟨?_, ?_, ?_, ?_, ?_, ?_⟩
    · intro k' g h'
      rcases get_set_cases h' with ⟨h1, h2⟩ | ⟨hne, h2⟩
      · subst h1 h2
        have := recv _ _ hw
        simp only [WorkerState.held, List.append_nil] at this
        simp only [State.log, recvBy_snoc, procBy_snoc, this, WorkerState.held]
        simp [recvBy, procBy]
      · have hid' := hW.wids _ _ h2
        have hne' : wid ≠ g.id := by rw [hid, hid']; omega
        simpa [State.log, recvBy_snoc, procBy_snoc, recvBy, procBy, hne'] using recv _ _ h2
    · intro w' hf
      have hf' : ∀ k : Nat, k < s.workers.length → w' ≠ (k : Int) + 1 :=
        fun k hk' => hf k (by simpa [State.log] using hk')
      have hne : wid ≠ w' := by rw [hid]; exact fun e => hf' w hk e.symm
      have := wforeign w' hf'
      simp only [State.log, hc]
      simpa [recvBy_snoc, procBy_snoc, recvBy, procBy, hne] using this
    · simpa [State.log, recvs_snoc, sends_snoc, recvs, sends] using pair
    · simp only [State.log, List.count_append, List.count_singleton, List.length_set]
      simp [adds]
    · simpa [State.log, List.filter_append, Event.isWorkerStart] using starts
    · intro k' g h'
      simp only [State.log, hc]
      rcases get_set_cases h' with ⟨h1, h2⟩ | ⟨hne, h2⟩
      · subst h1 h2
        have := dones _ _ hw
        simpa [WorkerState.isExited] using this
      · exact dones _ _ h2
  case process w wid o err hp hw =>
    obtain ⟨recv, wforeign, pair, adds, starts, dones⟩ := hR
    have hid := hW.wids w _ hw
    simp only at hid
    have hk := hlen w _ hw
    have hc : ∀ w', (s.trace ++ [Event.process wid o err]).count
        (.workerDone w') = s.trace.count (.workerDone w') := by
      intro w'; rw [List.count_append, List.count_singleton]
      simp
    refine ⟨?_, ?_, ?_, ?_, ?_, ?_⟩
    · intro k' g h'
      rcases get_set_cases h' with ⟨h1, h2⟩ | ⟨hne, h2⟩
      · subst h1 h2
        have := recv _ _ hw
        simp only [WorkerState.held] at this
        simp only [State.log, recvBy_snoc, procBy_snoc, this, WorkerState.held]
        simp [recvBy, procBy]
      · have hid' := hW.wids _ _ h2
        have hne' : wid ≠ g.id := by rw [hid, hid']; omega
        simpa [State.log, recvBy_snoc, procBy_snoc, recvBy, procBy, hne'] using recv _ _ h2
    · intro w' hf
      have hf' : ∀ k : Nat, k < s.workers.length → w' ≠ (k : Int) + 1 :=
        fun k hk' => hf k (by simpa [State.log] using hk')
      have hne : wid ≠ w' := by rw [hid]; exact fun e => hf' w hk e.symm
      have := wforeign w' hf'
      simp only [State.log, hc]
      simpa [recvBy_snoc, procBy_snoc, recvBy, procBy, hne] using this
    · simpa [State.log, recvs_snoc, sends_snoc, recvs, sends] using pair
    · simp only [State.log, List.count_append, List.count_singleton, List.length_set]
      simp [adds]
    · simpa [State.log, List.filter_append, Event.isWorkerStart] using starts
    · intro k' g h'
      simp only [State.log, hc]
      rcases get_set_cases h' with ⟨h1, h2⟩ | ⟨hne, h2⟩
      · subst h1 h2
        have := dones _ _ hw
        simpa [WorkerState.isExited] using this
      · exact dones _ _ h2

theorem occursAfter_snoc (p q : Event → Bool) (tr : List Event) (e : Event) :
    occursAfter p q (tr ++ [e]) = (occursAfter p q tr || (tr.any p && q e)) := by
  induction tr with
  | nil => simp [occursAfter]
  | cons a tr ih =>
    have h1 : occursAfter p q (a :: tr ++ [e])
        = ((p a && (tr ++ [e]).any q) || occursAfter p q (tr ++ [e])) := rfl
    have h2 : occursAfter p q (a :: tr) = ((p a && tr.any q) || occursAfter p q tr) := rfl
    rw [h1, h2, ih, List.any_append, List.any_cons]
    simp only [List.any_cons, List.any_nil, Bool.or_false]
    cases p a <;> cases q e <;> cases tr.any q <;> cases tr.any p <;>
      cases occursAfter p q tr <;> rfl

theorem invT_init (cfg : Config) : InvT cfg init := by
  constructor <;> simp [init, occursAfter]

/-- A step that leaves generators and flags alone and logs nothing keeps `InvT`. -/
theorem invT_silent {cfg : Config} {s s' : State} (hT : InvT cfg s)
    (hg : s'.gens = s.gens) (ht : s'.trace = s.trace) (hcl : s'.closed = s.closed)
    (hc : s'.cancelled = s.cancelled) : InvT cfg s' := by
  obtain ⟨h1, h2, h3, h4, h5, h6, h7, h8, h9⟩ := hT
  refine ⟨?_, ?_, ?_, ?_, ?_, ?_, ?_, ?_, ?_⟩
  · rw [ht, hcl]; exact h1
  · rw [ht, hcl]; exact h2
  · rw [ht, hc]; exact h3
  · rw [ht]; exact h4
  · rw [hg, hc]; exact h5
  · rw [hg, ht]; exact h6
  · rw [hg, ht]; exact h7
  · rw [ht]; exact h8
  · rw [ht]; exact h9

/-- A step that leaves generators and flags alone and logs an event that is neither a
send, nor a close, nor a cancel, nor a generator's cancellation keeps `InvT`. -/
theorem invT_log {cfg : Config} {s s' : State} (e : Event) (hT : InvT cfg s)
    (hg : s'.gens = s.gens) (ht : s'.trace = s.trace ++ [e]) (hcl : s'.closed = s.closed)
    (hc : s'.cancelled = s.cancelled)
    (e1 : e.isClose = false) (e2 : e.isCancel = false) (e3 : e.isSend = false)
    (e4 : ∀ g, e.isGenCancelled g = false) : InvT cfg s' := by
  obtain ⟨h1, h2, h3, h4, h5, h6, h7, h8, h9⟩ := hT
  have e5 : ∀ g, e.isSendBy g = false := by
    intro g; cases e <;> simp_all [Event.isSend, Event.isSendBy]
  refine ⟨?_, ?_, ?_, ?_, ?_, ?_, ?_, ?_, ?_⟩
  · rw [ht, hcl, List.countP_append, List.countP_singleton]; simp [h1, e1]
  · rw [ht, hcl, List.any_append]; simp [h2, e1]
  · rw [ht, hc, List.any_append]; simp [h3, e2]
  · rw [ht, occursAfter_snoc, h4, e3]; simp
  · rw [hg, hc]; exact h5
  · intro k g hk
    rw [hg] at hk
    rw [ht, List.any_append]; simp [h6 k g hk, e4]
  · intro g hf
    rw [hg] at hf
    rw [ht, List.any_append]; simp [h7 g hf, e4]
  · intro g
    rw [ht, occursAfter_snoc, h8, e5]; simp
  · rw [ht, occursAfter_snoc, h9, e3]; simp

/-- A generator changes its pc, keeping its id and not taking the cancel branch. -/
theorem invT_gens {cfg : Config} {s s' : State} (hT : InvT cfg s)
    (k : Nat) (g g' : GenState) (hk : s.gens[k]? = some g)
    (hg : s'.gens = s.gens.set k g') (hid : g'.generatorID = g.generatorID)
    (hsc : g'.sawCancel = g.sawCancel)
    (ht : s'.trace = s.trace) (hcl : s'.closed = s.closed)
    (hc : s'.cancelled = s.cancelled) : InvT cfg s' := by
  obtain ⟨h1, h2, h3, h4, h5, h6, h7, h8, h9⟩ := hT
  refine ⟨?_, ?_, ?_, ?_, ?_, ?_, ?_, ?_, ?_⟩
  · rw [ht, hcl]; exact h1
  · rw [ht, hcl]; exact h2
  · rw [ht, hc]; exact h3
  · rw [ht]; exact h4
  · intro k' x hx hs
    rw [hg] at hx
    rw [hc]
    rcases get_set_cases hx with ⟨e1, e2⟩ | ⟨_, e2⟩
    · subst e1 e2; exact h5 _ _ hk (hsc ▸ hs)
    · exact h5 _ _ e2 hs
  · intro k' x hx
    rw [hg] at hx
    rw [ht]
    rcases get_set_cases hx with ⟨e1, e2⟩ | ⟨_, e2⟩
    · subst e1 e2; rw [hid, hsc]; exact h6 _ _ hk
    · exact h6 _ _ e2
  · rw [hg, ht, List.length_set]; exact h7
  · rw [ht]; exact h8
  · rw [ht]; exact h9

/-- An accepted send is logged while the channel is open, `cancel()` has not been called
and the sender has not taken the cancel branch. -/
theorem invT_send {cfg : Config} {s s' : State} (hT : InvT cfg s) (gid : Int) (o : Order)
    (hg : s'.gens = s.gens) (ht : s'.trace = s.trace ++ [.send gid o])
    (hcl : s'.closed = s.closed) (hc : s'.cancelled = s.cancelled)
    (hopen : s.closed = false) (hlive : s.cancelled = false)
    (hnc : s.trace.any (Event.isGenCancelled gid) = false) : InvT cfg s' := by
  obtain ⟨h1, h2, h3, h4, h5, h6, h7, h8, h9⟩ := hT
  refine ⟨?_, ?_, ?_, ?_, ?_, ?_, ?_, ?_, ?_⟩
  · rw [ht, hcl, List.countP_append, List.countP_singleton]; simp [Event.isClose, Event.isCancel, Event.isGenCancelled, Event.isSend, h1]
  · rw [ht, hcl, List.any_append]; simp [Event.isClose, Event.isCancel, Event.isGenCancelled, Event.isSend, h2]
  · rw [ht, hc, List.any_append]; simp [Event.isClose, Event.isCancel, Event.isGenCancelled, Event.isSend, h3]
  · rw [ht, occursAfter_snoc, h4, h2, hopen]; simp [Event.isClose, Event.isCancel, Event.isGenCancelled, Event.isSend]
  · rw [hg, hc]; exact h5
  · intro k g hk
    rw [hg] at hk
    rw [ht, List.any_append]; simp [Event.isClose, Event.isCancel, Event.isGenCancelled, Event.isSend, h6 k g hk]
  · intro g hf
    rw [hg] at hf
    rw [ht, List.any_append]; simp [Event.isClose, Event.isCancel, Event.isGenCancelled, Event.isSend, h7 g hf]
  · intro g
    rw [ht, occursAfter_snoc, h8]
    by_cases hgg : gid = g
    · subst hgg; rw [hnc]; simp [Event.isClose, Event.isCancel, Event.isGenCancelled, Event.isSend]
    · simp [Event.isSendBy, hgg]
  · rw [ht, occursAfter_snoc, h9, h3, hlive]; simp

theorem invT_step {cfg : Config} {s s' : State} (hA : InvA cfg s) (hT : InvT cfg s)
    (h : Step cfg s s') : InvT cfg s' := by
  cases h
  case genAdd i hp hm hlt => exact invT_silent hT rfl rfl rfl rfl
  case genLoopExit i hp hm hge => exact invT_silent hT rfl rfl rfl rfl
  case closerSpawn hp hm => exact invT_silent hT rfl rfl rfl rfl
  case workLoopExit i hp hm hge => exact invT_silent hT rfl rfl rfl rfl
  case waitReturn hp hm h0 => exact invT_silent hT rfl rfl rfl rfl
  case closePanic hp hc h0 hcl => exact invT_silent hT rfl rfl rfl rfl
  case sendPanic k gid j o hp hg hcl => exact invT_silent hT rfl rfl rfl rfl
  case workAdd i hp hm hlt =>
    exact invT_log .workerAdd hT rfl rfl rfl rfl rfl rfl rfl (fun _ => rfl)
  case workSpawn i hp hm =>
    exact invT_log (.workerStart _) hT rfl rfl rfl rfl rfl rfl rfl (fun _ => rfl)
  case workerClosed w wid hp hw hcl =>
    exact invT_log (.workerDone wid) hT rfl rfl rfl rfl rfl rfl rfl (fun _ => rfl)
  case workerCancel w wid hp hw hc =>
    exact invT_log (.workerDone wid) hT rfl rfl rfl rfl rfl rfl rfl (fun _ => rfl)
  case process w wid o err hp hw =>
    exact invT_log (.process wid o err) hT rfl rfl rfl rfl rfl rfl rfl (fun _ => rfl)
  case genBuild k gid j hp hg hlt =>
    exact invT_gens hT k _ _ hg rfl rfl rfl rfl rfl rfl
  case genExit k gid j hp hg hge =>
    let mid : State := { s with gens := s.gens.set k ⟨gid, .exited j false⟩, genWg := s.genWg - 1 }
    have h1 : InvT cfg mid := invT_gens hT k _ _ hg rfl rfl rfl rfl rfl rfl
    exact invT_log (.genDone gid) h1 rfl rfl rfl rfl rfl rfl rfl (fun _ => rfl)
  case handoff k w gid j o wid hp hg hw hcl hnc =>
    let mid : State := { s with gens := s.gens.set k ⟨gid, .loop (j + 1)⟩, workers := s.workers.set w ⟨wid, .holding o⟩ }
    have h1 : InvT cfg mid := invT_gens hT k _ _ hg rfl rfl rfl rfl rfl rfl
    have hgc := hT.genCanc k _ hg
    have h2 : InvT cfg (mid.log (.send gid o)) :=
      invT_send h1 gid o rfl rfl rfl rfl hcl hnc hgc
    exact invT_log (.recv wid o) h2 rfl rfl rfl rfl rfl rfl rfl (fun _ => rfl)
  case genSpawn i hp hm =>
    obtain ⟨h1, h2, h3, h4, h5, h6, h7, h8, h9⟩ := hT
    have hl := (hA.addedLen i hm).1
    have hnew := h7 ((i : Int) + 1) (by intro k hk; rw [hl] at hk; omega)
    refine ⟨h1, h2, h3, h4, ?_, ?_, ?_, h8, h9⟩
    · intro k g hk hs
      rcases get_snoc_cases hk with e1 | ⟨_, e2⟩
      · exact h5 k g e1 hs
      · subst e2; cases hs
    · intro k g hk
      rcases get_snoc_cases hk with e1 | ⟨_, e2⟩
      · exact h6 k g e1
      · subst e2; exact hnew
    · intro g hf
      exact h7 g (fun k hk => hf k (by simp; omega))
  case close hp hc h0 hcl =>
    obtain ⟨h1, h2, h3, h4, h5, h6, h7, h8, h9⟩ := hT
    refine ⟨?_, ?_, ?_, ?_, h5, ?_, ?_, ?_, ?_⟩
    · simp only [State.log, List.countP_append, List.countP_singleton, h1, hcl]; simp [Event.isClose, Event.isCancel, Event.isGenCancelled, Event.isSend]
    · simp only [State.log, List.any_append]; simp [Event.isClose, Event.isCancel, Event.isGenCancelled, Event.isSend]
    · simp only [State.log, List.any_append]; simp [Event.isClose, Event.isCancel, Event.isGenCancelled, Event.isSend, h3]
    · simp only [State.log, occursAfter_snoc, h4]; simp [Event.isSend, Event.isClose, Event.isCancel, Event.isGenCancelled]
    · intro k g hk
      simp only [State.log, List.any_append]; simp [Event.isClose, Event.isCancel, Event.isGenCancelled, Event.isSend, h6 k g hk]
    · intro g hf
      simp only [State.log, List.any_append]; simp [Event.isClose, Event.isCancel, Event.isGenCancelled, Event.isSend, h7 g hf]
    · intro g
      simp only [State.log, occursAfter_snoc, h8]; simp [Event.isSendBy, Event.isClose, Event.isCancel, Event.isGenCancelled]
    · simp only [State.log, occursAfter_snoc, h9]; simp [Event.isSend, Event.isClose, Event.isCancel, Event.isGenCancelled]
  case cancel hp =>
    obtain ⟨h1, h2, h3, h4, h5, h6, h7, h8, h9⟩ := hT
    refine ⟨?_, ?_, ?_, ?_, ?_, ?_, ?_, ?_, ?_⟩
    · simp only [State.log, List.countP_append, List.countP_singleton, h1]; simp [Event.isClose, Event.isCancel, Event.isGenCancelled, Event.isSend]
    · simp only [State.log, List.any_append]; simp [Event.isClose, Event.isCancel, Event.isGenCancelled, Event.isSend, h2]
    · simp only [State.log, List.any_append]; simp [Event.isClose, Event.isCancel, Event.isGenCancelled, Event.isSend]
    · simp only [State.log, occursAfter_snoc, h4]; simp [Event.isSend, Event.isClose, Event.isCancel, Event.isGenCancelled]
    · intro _ _ _ _; rfl
    · intro k g hk
      simp only [State.log, List.any_append]; simp [Event.isClose, Event.isCancel, Event.isGenCancelled, Event.isSend, h6 k g hk]
    · intro g hf
      simp only [State.log, List.any_append]; simp [Event.isClose, Event.isCancel, Event.isGenCancelled, Event.isSend, h7 g hf]
    · intro g
      simp only [State.log, occursAfter_snoc, h8]; simp [Event.isSendBy, Event.isClose, Event.isCancel, Event.isGenCancelled]
    · simp only [State.log, occursAfter_snoc, h9]; simp [Event.isSend, Event.isClose, Event.isCancel, Event.isGenCancelled]
  case genCancel k gid j o hp hg hc =>
    obtain ⟨h1, h2, h3, h4, h5, h6, h7, h8, h9⟩ := hT
    have hid := hA.ids k _ hg
    simp only at hid
    have hk : k < s.gens.length := by
      by_contra hc'
      rw [List.getElem?_eq_none (by omega)] at hg; cases hg
    refine ⟨?_, ?_, ?_, ?_, ?_, ?_, ?_, ?_, ?_⟩
    · simp only [State.log, List.countP_append, List.countP_singleton, h1]; simp [Event.isClose, Event.isCancel, Event.isGenCancelled, Event.isSend]
    · simp only [State.log, List.any_append]; simp [Event.isClose, Event.isCancel, Event.isGenCancelled, Event.isSend, h2]
    · simp only [State.log, List.any_append]; simp [Event.isClose, Event.isCancel, Event.isGenCancelled, Event.isSend, h3]
    · simp only [State.log, occursAfter_snoc, h4]; simp [Event.isSend, Event.isClose, Event.isCancel, Event.isGenCancelled]
    · intro _ _ _ _; exact hc
    · intro k' g hk'
      simp only [State.log, List.any_append]
      rcases get_set_cases hk' with ⟨e1, e2⟩ | ⟨hne, e2⟩
      · subst e1 e2; simp [GenState.sawCancel, Event.isGenCancelled]
      · have hid' := hA.ids _ _ e2
        have hne' : gid ≠ g.generatorID := by rw [hid, hid']; omega
        simp [h6 _ g e2, hne', Event.isGenCancelled]
    · intro g hf
      have hf' : ∀ k : Nat, k < s.gens.length → g ≠ (k : Int) + 1 :=
        fun k' hk' => hf k' (by simpa [State.log] using hk')
      have hne : g ≠ gid := by rw [hid]; exact hf' k hk
      simp only [State.log, List.any_append]; simp [Event.isGenCancelled, h7 g hf', hne.symm]
    · intro g
      simp only [State.log, occursAfter_snoc, h8]; simp [Event.isSendBy, Event.isClose, Event.isCancel, Event.isGenCancelled]
    · simp only [State.log, occursAfter_snoc, h9]; simp [Event.isSend, Event.isClose, Event.isCancel, Event.isGenCancelled]

theorem inv {cfg : Config} {s : State} (h : Reachable cfg s) : Inv cfg s :=
  Reachable.induct (Inv cfg)
    ⟨invA_init cfg, invB_init cfg, invW_init cfg, invR_init cfg, invT_init cfg⟩
    (fun _ _ _ hI hs =>
      ⟨invA_step hI.a hs, invB_step hI.a hI.b hs, invW_step hI.w hs, invR_step hI.w hI.r hs,
        invT_step hI.a hI.t hs⟩) s h

/-- The meaning of `occursAfter` by positions in the log. -/
theorem occursAfter_iff (p q : Event → Bool) (tr : List Event) :
    occursAfter p q tr = true ↔
      ∃ (i j : Nat) (a b : Event), i < j ∧ tr[i]? = some a ∧ tr[j]? = some b ∧
        p a = true ∧ q b = true := by
  induction tr with
  | nil => simp [occursAfter]
  | cons e tr ih =>
    have h : occursAfter p q (e :: tr) = ((p e && tr.any q) || occursAfter p q tr) := rfl
    rw [h, Bool.or_eq_true, Bool.and_eq_true, ih, List.any_eq_true]
    constructor
    · rintro (⟨hp, b, hb, hq⟩ | ⟨i, j, a, b, hij, ha, hb, hp, hq⟩)
      · obtain ⟨n, hn⟩ := List.mem_iff_getElem?.1 hb
        exact ⟨0, n + 1, e, b, by omega, by simp, by simpa using hn, hp, hq⟩
      · exact ⟨i + 1, j + 1, a, b, by omega, by simpa using ha, by simpa using hb, hp, hq⟩
    · rintro ⟨i, j, a, b, hij, ha, hb, hp, hq⟩
      obtain ⟨j', rfl⟩ : ∃ j', j = j' + 1 := ⟨j - 1, by omega⟩
      simp only [List.getElem?_cons_succ] at hb
      cases i with
      | zero =>
        simp only [List.getElem?_cons_zero, Option.some.injEq] at ha
        subst ha
        exact Or.inl ⟨hp, b, List.mem_iff_getElem?.2 ⟨j', hb⟩, hq⟩
      | succ i' =>
        simp only [List.getElem?_cons_succ] at ha
        exact Or.inr ⟨i', j', a, b, by omega, ha, hb, hp, hq⟩

theorem wrapInt_of_range {x : Int} (h1 : -9223372036854775808 ≤ x)
    (h2 : x < 9223372036854775808) : wrapInt x = x := by
  unfold wrapInt
  rw [Int.emod_eq_of_lt (by omega) (by omega)]
  omega

theorem buildOrder_value (g P : Int) (j : Nat) : (buildOrder g P j).Value = (j : Int) := rfl

theorem buildOrder_injective (g P : Int) : Function.Injective (buildOrder g P) := by
  intro a b h
  have := congrArg Order.Value h
  simpa [buildOrder] using this

theorem mul_add_lt_of_le {g G P : Int} {j : Nat} (h1 : 1 ≤ g) (h2 : g ≤ G)
    (h3 : (j : Int) < P) : 0 ≤ g * P ∧ g * P + j < (G + 1) * P := by
  have hP : 0 < P := by omega
  constructor
  · positivity
  · nlinarith [mul_nonneg (sub_nonneg.2 h2) hP.le]

theorem buildOrder_id_exact {g G P : Int} {j : Nat} (h1 : 1 ≤ g) (h2 : g ≤ G)
    (h3 : (j : Int) < P) (hno : (G + 1) * P ≤ 9223372036854775808) :
    (buildOrder g P j).ID = g * P + j := by
  obtain ⟨h4, h5⟩ := mul_add_lt_of_le h1 h2 h3
  have hj : (0 : Int) ≤ j := Int.ofNat_nonneg j
  unfold buildOrder
  simp only
  have e1 : wrapInt (g * P) = g * P := wrapInt_of_range (by omega) (by omega)
  rw [e1, wrapInt_of_range (by omega) (by omega)]

theorem id_unique {g g' P : Int} {j j' : Nat} (hj : (j : Int) < P) (hj' : (j' : Int) < P)
    (h : g * P + j = g' * P + j') : g = g' ∧ j = j' := by
  have hP : 0 < P := by omega
  have h0 : (0 : Int) ≤ j := Int.ofNat_nonneg j
  have h0' : (0 : Int) ≤ j' := Int.ofNat_nonneg j'
  have hg : g = g' := by
    rcases lt_trichotomy g g' with hlt | heq | hgt
    · exfalso
      have : (g + 1) * P ≤ g' * P := by nlinarith [mul_nonneg (sub_nonneg.2 (Int.add_one_le_of_lt hlt)) hP.le]
      nlinarith
    · exact heq
    · exfalso
      have : (g' + 1) * P ≤ g * P := by nlinarith [mul_nonneg (sub_nonneg.2 (Int.add_one_le_of_lt hgt)) hP.le]
      nlinarith
  subst hg
  exact ⟨rfl, by omega⟩

theorem sends_cons (e : Event) (tr : List Event) : sends (e :: tr) = sends [e] ++ sends tr := by
  simp only [sends, List.filterMap_cons, List.filterMap_nil]; split <;> simp

theorem sentBy_cons (g : Int) (e : Event) (tr : List Event) :
    sentBy g (e :: tr) = sentBy g [e] ++ sentBy g tr := by
  simp only [sentBy, List.filterMap_cons, List.filterMap_nil]; split <;> simp

theorem mem_sends_single (g : Int) (o : Order) (e : Event) :
    (g, o) ∈ sends [e] ↔ o ∈ sentBy g [e] := by
  cases e <;> simp [sends, sentBy]
  rename_i g' o'
  by_cases hg : g' = g
  · subst hg; simp; exact eq_comm
  · simp [hg]; intro h; exact absurd h.symm hg

theorem mem_sends_iff (g : Int) (o : Order) (tr : List Event) :
    (g, o) ∈ sends tr ↔ o ∈ sentBy g tr := by
  induction tr with
  | nil => simp [sends, sentBy]
  | cons e tr ih =>
    rw [sends_cons, sentBy_cons, List.mem_append, List.mem_append, ih, mem_sends_single]

theorem sends_nodup_of_sentBy (tr : List Event) (h : ∀ g, (sentBy g tr).Nodup) :
    (sends tr).Nodup := by
  induction tr with
  | nil => simp [sends]
  | cons e tr ih =>
    have htail : ∀ g, (sentBy g tr).Nodup := by
      intro g
      have := h g
      rw [sentBy_cons] at this
      exact this.of_append_right
    have ih' := ih htail
    rw [sends_cons]
    cases e with
    | send g0 o0 =>
      have h0 := h g0
      rw [sentBy_cons] at h0
      have hs : sentBy g0 [Event.send g0 o0] = [o0] := by simp [sentBy]
      rw [hs] at h0
      have hnot : o0 ∉ sentBy g0 tr := by
        intro hmem
        have := List.nodup_cons.1 (by simpa using h0)
        exact this.1 hmem
      have hs2 : sends [Event.send g0 o0] = [(g0, o0)] := by simp [sends]
      rw [hs2]
      simp only [List.singleton_append, List.nodup_cons]
      exact ⟨fun hm => hnot ((mem_sends_iff g0 o0 tr).1 hm), ih'⟩
    | _ => simpa [sends] using ih'

theorem get_lt {α : Type} {l : List α} {k : Nat} {a : α} (h : l[k]? = some a) :
    k < l.length := by
  by_contra hc
  rw [List.getElem?_eq_none (by omega)] at h; cases h

theorem gens_length_le {cfg : Config} {s : State} (hA : InvA cfg s) {k : Nat}
    (hk : k < s.gens.length) : (k : Int) + 1 ≤ cfg.numGenerators := by
  cases hm : s.main with
  | genLoop i =>
    obtain ⟨h1, h2⟩ := hA.loopLen i hm
    rcases h2 with h2 | h2 <;> omega
  | genAdded i =>
    obtain ⟨h1, h2⟩ := hA.addedLen i hm
    omega
  | spawnCloser => have := hA.pastLen (by rw [hm]; rfl); omega
  | workLoop i => have := hA.pastLen (by rw [hm]; rfl); omega
  | workAdded i => have := hA.pastLen (by rw [hm]; rfl); omega
  | waiting => have := hA.pastLen (by rw [hm]; rfl); omega
  | finished => have := hA.pastLen (by rw [hm]; rfl); omega

theorem counter_bound {cfg : Config} {g : GenState} (h : GenPcOk cfg g) :
    g.counter = 0 ∨ (g.counter : Int) ≤ cfg.numOrdersPerGenerator := by
  unfold GenPcOk at h
  unfold GenState.counter
  split at h <;> rename_i hpc <;> simp only [hpc]
  · exact h
  · right; omega
  · exact h.1
  · right; omega

theorem sent_elem {cfg : Config} {s : State} (hI : Inv cfg s) {g : Int} {o : Order}
    (h : (g, o) ∈ sends s.trace) :
    ∃ (k : Nat) (gs : GenState) (j : Nat), s.gens[k]? = some gs ∧ gs.generatorID = g ∧
      g = (k : Int) + 1 ∧ j < gs.counter ∧ o = buildOrder g cfg.numOrdersPerGenerator j := by
  rw [mem_sends_iff] at h
  by_cases hf : ∀ k : Nat, k < s.gens.length → g ≠ (k : Int) + 1
  · rw [hI.b.foreign g hf] at h; cases h
  · push_neg at hf
    obtain ⟨k, hk, hgk⟩ := hf
    have hget : s.gens[k]? = some s.gens[k] := List.getElem?_eq_getElem hk
    have hid := hI.a.ids k _ hget
    have hs := hI.b.sent k _ hget
    rw [hid, ← hgk] at hs
    rw [hs, List.mem_map] at h
    obtain ⟨j, hj, rfl⟩ := h
    exact ⟨k, s.gens[k], j, hget, hid.trans hgk.symm, hgk, List.mem_range.1 hj, rfl⟩

theorem sent_elem_range {cfg : Config} {s : State} (hI : Inv cfg s) {g : Int} {o : Order}
    (h : (g, o) ∈ sends s.trace) :
    ∃ j : Nat, 1 ≤ g ∧ g ≤ cfg.numGenerators ∧ (j : Int) < cfg.numOrdersPerGenerator ∧
      o = buildOrder g cfg.numOrdersPerGenerator j := by
  obtain ⟨k, gs, j, hget, _, hgk, hj, ho⟩ := sent_elem hI h
  have h1 := gens_length_le hI.a (get_lt hget)
  have h2 := counter_bound (hI.b.pcOk k gs hget)
  refine ⟨j, by omega, by omega, ?_, ho⟩
  rcases h2 with h2 | h2 <;> omega

theorem sends_nodup {cfg : Config} {s : State} (hI : Inv cfg s) : (sends s.trace).Nodup := by
  apply sends_nodup_of_sentBy
  intro g
  by_cases hf : ∀ k : Nat, k < s.gens.length → g ≠ (k : Int) + 1
  · rw [hI.b.foreign g hf]; simp
  · push_neg at hf
    obtain ⟨k, hk, hgk⟩ := hf
    have hget : s.gens[k]? = some s.gens[k] := List.getElem?_eq_getElem hk
    have hid := hI.a.ids k _ hget
    have hs := hI.b.sent k _ hget
    rw [hid, ← hgk] at hs
    rw [hs]
    exact (List.nodup_range _).map (buildOrder_injective g cfg.numOrdersPerGenerator)

theorem wrap_id_inj {a a' b P : Int} {j j' : Nat}
    (hb : b ≤ 18446744073709551616)
    (h1 : P ≤ a) (h2 : a + j < b + P) (h1' : P ≤ a') (h2' : a' + j' < b + P)
    (h : wrapInt (wrapInt a + (j : Int)) = wrapInt (wrapInt a' + (j' : Int))) :
    a + j = a' + j' := by
  unfold wrapInt at h
  omega

/-- When `G * P <= 2^64` (so the `G * P` consecutive integers from `P` on stay distinct
after wrapping), equal IDs among sent orders mean equal sender and equal order. -/
theorem sent_id_inj {cfg : Config} {s : State} (hI : Inv cfg s)
    (hno : cfg.numGenerators * cfg.numOrdersPerGenerator ≤ 18446744073709551616)
    {p q : Int × Order} (hp : p ∈ sends s.trace) (hq : q ∈ sends s.trace)
    (h : p.2.ID = q.2.ID) : p = q := by
  obtain ⟨g, o⟩ := p
  obtain ⟨g', o'⟩ := q
  obtain ⟨j, h1, h2, h3, rfl⟩ := sent_elem_range hI hp
  obtain ⟨j', h1', h2', h3', rfl⟩ := sent_elem_range hI hq
  have hj : (0 : Int) ≤ j := Int.ofNat_nonneg j
  have hP : 0 < cfg.numOrdersPerGenerator := by omega
  have ha : cfg.numOrdersPerGenerator ≤ g * cfg.numOrdersPerGenerator := by
    nlinarith [mul_nonneg (sub_nonneg.2 h1) hP.le]
  have ha' : cfg.numOrdersPerGenerator ≤ g' * cfg.numOrdersPerGenerator := by
    nlinarith [mul_nonneg (sub_nonneg.2 h1') hP.le]
  have hb : g * cfg.numOrdersPerGenerator + j
      < cfg.numGenerators * cfg.numOrdersPerGenerator + cfg.numOrdersPerGenerator := by
    have := (mul_add_lt_of_le h1 h2 h3).2
    linarith [add_mul cfg.numGenerators 1 cfg.numOrdersPerGenerator]
  have hb' : g' * cfg.numOrdersPerGenerator + j'
      < cfg.numGenerators * cfg.numOrdersPerGenerator + cfg.numOrdersPerGenerator := by
    have := (mul_add_lt_of_le h1' h2' h3').2
    linarith [add_mul cfg.numGenerators 1 cfg.numOrdersPerGenerator]
  have hid : g * cfg.numOrdersPerGenerator + j = g' * cfg.numOrdersPerGenerator + j' :=
    wrap_id_inj hno ha hb ha' hb' h
  obtain ⟨e1, e2⟩ := id_unique h3 h3' hid
  subst e1 e2; rfl

theorem sentIDs_nodup {cfg : Config} {s : State} (hI : Inv cfg s)
    (hno : cfg.numGenerators * cfg.numOrdersPerGenerator ≤ 18446744073709551616) :
    (sentIDs s.trace).Nodup := by
  unfold sentIDs
  exact List.Nodup.map_on (fun p hp q hq h => sent_id_inj hI hno hp hq h) (sends_nodup hI)

/-- When the channel is closed and nobody cancelled, every generator was started and has
sent all its orders. -/
theorem closed_complete {cfg : Config} {s : State} (hI : Inv cfg s)
    (hcl : s.closed = true) (hnc : s.cancelled = false) :
    s.gens.length = cfg.numGenerators.toNat ∧
      ∀ (k : Nat) (g : GenState), s.gens[k]? = some g →
        g.counter = cfg.numOrdersPerGenerator.toNat := by
  have hng : s.main.inGenerate = false := by
    cases hin : s.main.inGenerate with
    | false => rfl
    | true =>
      have h1 := hI.a.closerNS.2 hin
      have h2 := hI.a.closedIff.1 hcl
      rw [h1] at h2; cases h2
  have hnl : s.main.inGenLoop = false := by
    cases hm : s.main <;> simp [hm, MainPc.inGenerate, MainPc.inGenLoop] at hng ⊢
  refine ⟨hI.a.pastLen hnl, ?_⟩
  intro k g hg
  have hex := hI.a.closedExited hcl g (mem_of_get hg)
  have hpc := hI.b.pcOk k g hg
  have hsc : g.sawCancel = false := by
    cases h : g.sawCancel with
    | false => rfl
    | true => have := hI.t.cancelExit k g hg h; rw [hnc] at this; cases this
  unfold GenState.isExited at hex
  unfold GenPcOk at hpc
  unfold GenState.sawCancel at hsc
  unfold GenState.counter
  cases hpcv : g.pc with
  | loop j => simp [hpcv] at hex
  | select j o => simp [hpcv] at hex
  | exited j c =>
    cases c with
    | true => simp [hpcv] at hsc
    | false =>
      simp only [hpcv] at hpc ⊢
      obtain ⟨h1, h2⟩ := hpc
      rcases h1 with h1 | h1 <;> omega

theorem sum_map_const {α : Type} (f : α → Nat) (c : Nat) :
    ∀ l : List α, (∀ a ∈ l, f a = c) → (l.map f).sum = l.length * c
  | [], _ => by simp
  | a :: l, h => by
    have h1 := h a (List.mem_cons_self _ _)
    have h2 := sum_map_const f c l (fun b hb => h b (List.mem_cons_of_mem _ hb))
    simp only [List.map_cons, List.sum_cons, List.length_cons, h1, h2]
    ring

theorem closed_total {cfg : Config} {s : State} (hI : Inv cfg s)
    (hcl : s.closed = true) (hnc : s.cancelled = false) :
    (sends s.trace).length = cfg.numGenerators.toNat * cfg.numOrdersPerGenerator.toNat := by
  obtain ⟨h1, h2⟩ := closed_complete hI hcl hnc
  rw [hI.b.total, sum_map_const GenState.counter cfg.numOrdersPerGenerator.toNat, h1]
  intro g hg
  obtain ⟨k, hk⟩ := List.mem_iff_getElem?.1 hg
  exact h2 k g hk

theorem recvs_cons (e : Event) (tr : List Event) : recvs (e :: tr) = recvs [e] ++ recvs tr := by
  simp only [recvs, List.filterMap_cons, List.filterMap_nil]; split <;> simp

theorem recvBy_cons (w : Int) (e : Event) (tr : List Event) :
    recvBy w (e :: tr) = recvBy w [e] ++ recvBy w tr := by
  simp only [recvBy, List.filterMap_cons, List.filterMap_nil]; split <;> simp

theorem procs_cons (e : Event) (tr : List Event) : procs (e :: tr) = procs [e] ++ procs tr := by
  simp only [procs, List.filterMap_cons, List.filterMap_nil]; split <;> simp

theorem procBy_cons (w : Int) (e : Event) (tr : List Event) :
    procBy w (e :: tr) = procBy w [e] ++ procBy w tr := by
  simp only [procBy, List.filterMap_cons, List.filterMap_nil]; split <;> simp

theorem mem_recvs_single (w : Int) (o : Order) (e : Event) :
    (w, o) ∈ recvs [e] ↔ o ∈ recvBy w [e] := by
  cases e <;> simp [recvs, recvBy]
  rename_i w' o'
  by_cases hw : w' = w
  · subst hw; simp; exact eq_comm
  · simp [hw]; intro h; exact absurd h.symm hw

theorem mem_recvs_iff (w : Int) (o : Order) (tr : List Event) :
    (w, o) ∈ recvs tr ↔ o ∈ recvBy w tr := by
  induction tr with
  | nil => simp [recvs, recvBy]
  | cons e tr ih =>
    rw [recvs_cons, recvBy_cons, List.mem_append, List.mem_append, ih, mem_recvs_single]

theorem mem_procs_single (w : Int) (o : Order) (e : Event) :
    (w, o) ∈ procs [e] ↔ o ∈ procBy w [e] := by
  cases e <;> simp [procs, procBy]
  rename_i w' o' err
  by_cases hw : w' = w
  · subst hw; simp; exact eq_comm
  · simp [hw]; intro h; exact absurd h.symm hw

theorem mem_procs_iff (w : Int) (o : Order) (tr : List Event) :
    (w, o) ∈ procs tr ↔ o ∈ procBy w tr := by
  induction tr with
  | nil => simp [procs, procBy]
  | cons e tr ih =>
    rw [procs_cons, procBy_cons, List.mem_append, List.mem_append, ih, mem_procs_single]

theorem workers_length_le {cfg : Config} {s : State} (hW : InvW cfg s) {k : Nat}
    (hk : k < s.workers.length) : (k : Int) + 1 ≤ cfg.numWorkers := by
  cases hm : s.main with
  | genLoop i => have := hW.wbefore (by rw [hm]; rfl); rw [this] at hk; simp at hk
  | genAdded i => have := hW.wbefore (by rw [hm]; rfl); rw [this] at hk; simp at hk
  | spawnCloser => have := hW.wbefore (by rw [hm]; rfl); rw [this] at hk; simp at hk
  | workLoop i =>
    obtain ⟨h1, h2⟩ := hW.wloopLen i hm
    rcases h2 with h2 | h2 <;> omega
  | workAdded i =>
    obtain ⟨h1, h2⟩ := hW.waddedLen i hm
    omega
  | waiting => have := hW.wafter (by rw [hm]; rfl); omega
  | finished => have := hW.wafter (by rw [hm]; rfl); omega

theorem no_workers {cfg : Config} {s : State} (hI : Inv cfg s) (h : cfg.numWorkers ≤ 0) :
    s.workers = [] ∧ s.workWg = 0 := by
  have hnil : s.workers = [] := by
    apply List.eq_nil_of_length_eq_zero
    by_contra hne
    have := workers_length_le hI.w (Nat.pos_of_ne_zero hne)
    omega
  refine ⟨hnil, ?_⟩
  have hwg := hI.w.wwg
  rw [hnil] at hwg
  cases hm : s.main with
  | workAdded i => have := (hI.w.waddedLen i hm).2; omega
  | _ => simpa [hm, activeWorkers, MainPc.workPending] using hwg

theorem no_recvs {cfg : Config} {s : State} (hI : Inv cfg s) (h : s.workers = []) :
    recvs s.trace = [] ∧ procs s.trace = [] := by
  have hf : ∀ w : Int, recvBy w s.trace = [] ∧ procBy w s.trace = [] := by
    intro w
    have := hI.r.wforeign w (by rw [h]; intro k hk; simp at hk)
    exact ⟨this.1, this.2.1⟩
  constructor
  · apply List.eq_nil_iff_forall_not_mem.2
    rintro ⟨w, o⟩ hm
    rw [mem_recvs_iff, (hf w).1] at hm; cases hm
  · apply List.eq_nil_iff_forall_not_mem.2
    rintro ⟨w, o⟩ hm
    rw [mem_procs_iff, (hf w).2] at hm; cases hm

theorem no_sends_of_no_recvs {cfg : Config} {s : State} (hI : Inv cfg s)
    (h : recvs s.trace = []) : sends s.trace = [] := by
  have := hI.r.pair
  rw [h] at this
  simpa using this.symm

theorem no_sends_of_le {cfg : Config} {s : State} (hI : Inv cfg s)
    (h : cfg.numGenerators ≤ 0 ∨ cfg.numOrdersPerGenerator ≤ 0) : sends s.trace = [] := by
  apply List.eq_nil_iff_forall_not_mem.2
  rintro ⟨g, o⟩ hm
  obtain ⟨j, h1, h2, h3, _⟩ := sent_elem_range hI hm
  have : (0 : Int) ≤ j := Int.ofNat_nonneg j
  rcases h with h | h <;> omega

theorem builtState_reachable : Reachable mainConfig builtState :=
  ⟨startSchedule 5 3 ++ [.genStep 0], by rfl⟩

theorem cancelledState_reachable : Reachable mainConfig cancelledState :=
  ⟨cancelSchedule, by rfl⟩

theorem completedState_reachable : Reachable mainConfig completedState :=
  ⟨fullSchedule 5 10 3, by rfl⟩

theorem noWorkerState_reachable : Reachable ⟨2, 3, 0⟩ noWorkerState :=
  ⟨startSchedule 2 0 ++ [.genStep 0, .genStep 1], by rfl⟩

/-- The ID the Go expression `(generatorID*numOrdersPerGenerator)+j` yields is the integer
`g * P + j` exactly when that integer is below `2^63`, for `g >= 1` and `0 <= j < P`. -/
theorem buildOrder_id_iff {g P : Int} {j : Nat} (h1 : 1 ≤ g) (h3 : (j : Int) < P) :
    (buildOrder g P j).ID = g * P + (j : Int) ↔ g * P + (j : Int) < 9223372036854775808 := by
  have hj : (0 : Int) ≤ j := Int.ofNat_nonneg j
  have hP : 0 < P := by omega
  have hgp : 0 ≤ g * P := mul_nonneg (by omega) hP.le
  constructor
  · intro h
    have hlt : (buildOrder g P j).ID < 9223372036854775808 := by
      unfold buildOrder wrapInt
      simp only
      omega
    rw [h] at hlt
    exact hlt
  · intro hlt
    unfold buildOrder
    simp only
    have e1 : wrapInt (g * P) = g * P := wrapInt_of_range (by omega) (by omega)
    rw [e1, wrapInt_of_range (by omega) (by omega)]

/-- C1, as stated, fails: with `numGenerators = 2` and `numOrdersPerGenerator = 2^62`, the
order task `g = 2` builds in iteration `j = 0` has ID `-2^63`, whereas
`g * numOrdersPerGenerator + j = 2^63`: the product wraps around in 64-bit `int`. -/
theorem built_id_differs_when_the_product_overflows :
    exec overflowConfig init (startSchedule 2 1 ++ [.genStep 1]) = some overflowBuiltState ∧
      overflowBuiltState.gens[1]? = some ⟨2, .select 0 ⟨-9223372036854775808, 0⟩⟩ ∧
      (2 : Int) ≤ overflowConfig.numGenerators ∧
      ((0 : Nat) : Int) < overflowConfig.numOrdersPerGenerator ∧
      2 * overflowConfig.numOrdersPerGenerator + ((0 : Nat) : Int) = 9223372036854775808 ∧
      (⟨-9223372036854775808, 0⟩ : Order).ID ≠
        2 * overflowConfig.numOrdersPerGenerator + ((0 : Nat) : Int) := by
  refine ⟨by rfl, by rfl, by decide, by decide, by decide, by decide⟩

/-- C1, amended: `GenerateOrders` numbers its generator tasks 1..numGenerators (the task at
position `k` of the start order got `generatorID = k + 1`, and once the loop is left there
are exactly `numGenerators` of them), and for every task index `g` in 1..numGenerators and
every `j` with `0 <= j < numOrdersPerGenerator`, the order task `g` builds in iteration `j`
has `Value = j` and, provided `g * numOrdersPerGenerator + j < 2^63` (the computation does
not overflow 64-bit `int`), `ID = g * numOrdersPerGenerator + j`.  The proviso is exact: the
ID is that integer if and only if the integer is below `2^63`; in general it is the
integer reduced to the 64-bit two's complement range.  The same holds of every order that
was sent. -/
theorem generateOrders_numbers_tasks_and_items (cfg : Config) (s : State)
    (hr : Reachable cfg s) :
    (∀ (k : Nat) (g : GenState), s.gens[k]? = some g →
        g.generatorID = (k : Int) + 1 ∧ 1 ≤ g.generatorID ∧
          g.generatorID ≤ cfg.numGenerators) ∧
    (s.main.inGenLoop = false → s.gens.length = cfg.numGenerators.toNat) ∧
    (∀ (k : Nat) (g : Int) (j : Nat) (o : Order), s.gens[k]? = some ⟨g, .select j o⟩ →
        1 ≤ g ∧ g ≤ cfg.numGenerators ∧
        (j : Int) < cfg.numOrdersPerGenerator ∧ o.Value = (j : Int) ∧
        (g * cfg.numOrdersPerGenerator + (j : Int) < 9223372036854775808 →
          o.ID = g * cfg.numOrdersPerGenerator + (j : Int)) ∧
        (o.ID = g * cfg.numOrdersPerGenerator + (j : Int) →
          g * cfg.numOrdersPerGenerator + (j : Int) < 9223372036854775808) ∧
        o.ID = wrapInt (wrapInt (g * cfg.numOrdersPerGenerator) + (j : Int))) ∧
    (∀ (g : Int) (o : Order), (g, o) ∈ sends s.trace →
        ∃ j : Nat, 1 ≤ g ∧ g ≤ cfg.numGenerators ∧ (j : Int) < cfg.numOrdersPerGenerator ∧
          o.Value = (j : Int) ∧
          (g * cfg.numOrdersPerGenerator + (j : Int) < 9223372036854775808 →
            o.ID = g * cfg.numOrdersPerGenerator + (j : Int)) ∧
          (o.ID = g * cfg.numOrdersPerGenerator + (j : Int) →
            g * cfg.numOrdersPerGenerator + (j : Int) < 9223372036854775808) ∧
          o.ID = wrapInt (wrapInt (g * cfg.numOrdersPerGenerator) + (j : Int))) := by
  have hI := inv hr
  refine ⟨?_, hI.a.pastLen, ?_, ?_⟩
  · intro k g hg
    have h1 := hI.a.ids k g hg
    have h2 := gens_length_le hI.a (get_lt hg)
    exact ⟨h1, by omega, by omega⟩
  · intro k g j o hg
    have h1 := hI.a.ids k _ hg
    have h2 := hI.b.pcOk k _ hg
    have h5 := gens_length_le hI.a (get_lt hg)
    simp only [GenPcOk] at h2
    simp only at h1
    obtain ⟨h3, h4⟩ := h2
    subst h4
    have hg1 : 1 ≤ g := by omega
    have hiff := buildOrder_id_iff hg1 h3
    exact ⟨hg1, by omega, h3, rfl, hiff.2, hiff.1, rfl⟩
  · intro g o hm
    obtain ⟨j, h1, h2, h3, rfl⟩ := sent_elem_range hI hm
    have hiff := buildOrder_id_iff h1 h3
    exact ⟨j, h1, h2, h3, rfl, hiff.2, hiff.1, rfl⟩

/-- C1 (amended) on a run with `main`'s arguments: generator 1 has built its first order,
`1 * 10 + 0 < 2^63` and the ID is 10. -/
theorem generateOrders_numbers_tasks_and_items_witness :
    Reachable mainConfig builtState ∧
      builtState.gens[0]? = some ⟨1, .select 0 ⟨10, 0⟩⟩ ∧
      ((0 : Nat) : Int) < mainConfig.numOrdersPerGenerator ∧
      1 * mainConfig.numOrdersPerGenerator + ((0 : Nat) : Int) < 9223372036854775808 ∧
      (⟨10, 0⟩ : Order).ID = 1 * mainConfig.numOrdersPerGenerator + ((0 : Nat) : Int) :=
  ⟨builtState_reachable, by rfl,
    ((generateOrders_numbers_tasks_and_items mainConfig builtState
      builtState_reachable).2.2.1 0 1 0 ⟨10, 0⟩ (by rfl)).2.2.1,
    by decide,
    ((generateOrders_numbers_tasks_and_items mainConfig builtState
      builtState_reachable).2.2.1 0 1 0 ⟨10, 0⟩ (by rfl)).2.2.2.2.1 (by decide)⟩

/-- C4: under every schedule, with or without cancellation, what generator task `g` has
sent so far is, in send order, exactly the first `counter` orders of
`[g*P + 0, g*P + 1, ..., g*P + (P-1)]` (as built by the Go expression): a prefix, with
sequence numbers 0, 1, 2, ... without gap, repeat or reordering; and a task that returned
with fewer than `P` sends is one that took the cancellation branch. -/
theorem generator_sends_in_order (cfg : Config) (s : State) (hr : Reachable cfg s)
    (k : Nat) (g : GenState) (hg : s.gens[k]? = some g) :
    sentBy g.generatorID s.trace =
        (List.range g.counter).map (buildOrder g.generatorID cfg.numOrdersPerGenerator) ∧
    g.counter ≤ cfg.numOrdersPerGenerator.toNat ∧
    sentBy g.generatorID s.trace <+:
        (List.range cfg.numOrdersPerGenerator.toNat).map
          (buildOrder g.generatorID cfg.numOrdersPerGenerator) ∧
    (sentBy g.generatorID s.trace).map Order.Value =
        (List.range g.counter).map Int.ofNat ∧
    (g.isExited = true → g.counter < cfg.numOrdersPerGenerator.toNat →
        g.sawCancel = true) := by
  have hI := inv hr
  have hs := hI.b.sent k g hg
  have hpc := hI.b.pcOk k g hg
  have hb := counter_bound hpc
  have hle : g.counter ≤ cfg.numOrdersPerGenerator.toNat := by
    rcases hb with hb | hb <;> omega
  refine ⟨hs, hle, ?_, ?_, ?_⟩
  · rw [hs]
    obtain ⟨d, hd⟩ := Nat.exists_eq_add_of_le hle
    rw [hd, List.range_add, List.map_append]
    exact List.prefix_append _ _
  · rw [hs, List.map_map]
    rfl
  · intro hex hlt
    unfold GenPcOk at hpc
    unfold GenState.isExited at hex
    unfold GenState.counter at hlt
    unfold GenState.sawCancel
    cases hpcv : g.pc with
    | loop j => simp [hpcv] at hex
    | select j o => simp [hpcv] at hex
    | exited j c =>
      cases c with
      | true => rfl
      | false =>
        simp only [hpcv] at hpc hlt
        obtain ⟨h1, h2⟩ := hpc
        omega

/-- C4 on a run with `main`'s arguments: generator 2 sent orders 20 and 21, then took the
cancel branch. -/
theorem generator_sends_in_order_witness :
    Reachable mainConfig cancelledState ∧
      cancelledState.gens[1]? = some ⟨2, .exited 2 true⟩ ∧
      sentBy 2 cancelledState.trace = [⟨20, 0⟩, ⟨21, 1⟩] ∧
      sentBy 2 cancelledState.trace <+:
        (List.range mainConfig.numOrdersPerGenerator.toNat).map
          (buildOrder 2 mainConfig.numOrdersPerGenerator) :=
  ⟨cancelledState_reachable, by rfl, by rfl,
    (generator_sends_in_order mainConfig cancelledState cancelledState_reachable 1
      ⟨2, .exited 2 true⟩ (by rfl)).2.2.1⟩

/-- C5: in every reachable state the channel has been closed at most once; it is closed
only when all `numGenerators` generator tasks have been started and have returned
(normally or on cancellation); no send event comes after the close event; and the program
has not panicked (no send on a closed channel, no second close). -/
theorem channel_closed_once_after_generators (cfg : Config) (s : State)
    (hr : Reachable cfg s) :
    s.trace.countP Event.isClose ≤ 1 ∧
    s.trace.any Event.isClose = s.closed ∧
    (s.closed = true →
      s.gens.length = cfg.numGenerators.toNat ∧ ∀ g ∈ s.gens, g.isExited = true) ∧
    occursAfter Event.isClose Event.isSend s.trace = false ∧
    s.panicked = false := by
  have hI := inv hr
  refine ⟨?_, hI.t.closeTrace, ?_, hI.t.sendClose, hI.a.noPanic⟩
  · rw [hI.t.closeCount]; split <;> omega
  · intro hcl
    refine ⟨?_, hI.a.closedExited hcl⟩
    apply hI.a.pastLen
    have hng : s.main.inGenerate = false := by
      cases hin : s.main.inGenerate with
      | false => rfl
      | true =>
        have h1 := hI.a.closerNS.2 hin
        have h2 := hI.a.closedIff.1 hcl
        rw [h1] at h2; cases h2
    cases hm : s.main <;> simp [hm, MainPc.inGenerate, MainPc.inGenLoop] at hng ⊢

/-- C5 on the complete run with `main`'s arguments. -/
theorem channel_closed_once_after_generators_witness :
    Reachable mainConfig completedState ∧ completedState.closed = true ∧
      completedState.trace.countP Event.isClose = 1 ∧
      completedState.gens.length = 5 ∧
      occursAfter Event.isClose Event.isSend completedState.trace = false :=
  ⟨completedState_reachable, by rfl, by rfl,
    ((channel_closed_once_after_generators mainConfig completedState
      completedState_reachable).2.2.1 (by rfl)).1,
    (channel_closed_once_after_generators mainConfig completedState
      completedState_reachable).2.2.2.1⟩

/-- C10: with `numWorkers <= 0`, `StartWorkers` starts no worker and never touches the
completion tracker (no `Add`, counter 0), so once `main` is in `wg.Wait()` its next step
is the return from it, and `Process` is never called, whatever the other two arguments
are (and nothing is ever sent, for want of a receiver); with `numGenerators <= 0` or
`numOrdersPerGenerator <= 0` no order is ever sent. -/
theorem nothing_happens_for_nonpositive_counts (cfg : Config) (s : State)
    (hr : Reachable cfg s) :
    (cfg.numWorkers ≤ 0 →
      s.workers = [] ∧ s.workWg = 0 ∧ s.trace.count .workerAdd = 0 ∧
      procs s.trace = [] ∧ sends s.trace = [] ∧
      (s.main = .waiting → step cfg s .mainStep = some { s with main := .finished })) ∧
    (cfg.numGenerators ≤ 0 ∨ cfg.numOrdersPerGenerator ≤ 0 → sends s.trace = []) := by
  have hI := inv hr
  refine ⟨?_, no_sends_of_le hI⟩
  intro hW
  obtain ⟨h1, h2⟩ := no_workers hI hW
  obtain ⟨h3, h4⟩ := no_recvs hI h1
  refine ⟨h1, h2, ?_, h4, no_sends_of_no_recvs hI h3, ?_⟩
  · have := hI.r.adds
    rw [h1] at this
    cases hm : s.main with
    | workAdded i => have := (hI.w.waddedLen i hm).2; omega
    | _ => simpa [hm, MainPc.workPending] using this
  · intro hm
    simp [step, hI.a.noPanic, mainStep, hm, h2]

/-- C10 on a run with two generators and no worker: `main` is in `wg.Wait()`, which can
return, and nothing was sent. -/
theorem nothing_happens_for_nonpositive_counts_witness :
    Reachable ⟨2, 3, 0⟩ noWorkerState ∧ noWorkerState.main = .waiting ∧
      noWorkerState.gens.length = 2 ∧ sends noWorkerState.trace = [] ∧
      step ⟨2, 3, 0⟩ noWorkerState .mainStep
        = some { noWorkerState with main := .finished } :=
  ⟨noWorkerState_reachable, by rfl, by rfl,
    ((nothing_happens_for_nonpositive_counts ⟨2, 3, 0⟩ noWorkerState
      noWorkerState_reachable).1 (by decide)).2.2.2.2.1,
    ((nothing_happens_for_nonpositive_counts ⟨2, 3, 0⟩ noWorkerState
      noWorkerState_reachable).1 (by decide)).2.2.2.2.2 (by rfl)⟩

theorem exec_single (cfg : Config) (s : State) (a : Action) :
    exec cfg s [a] = step cfg s a := by
  simp only [exec]
  cases step cfg s a <;> rfl

theorem exec_cons_some {cfg : Config} {s t : State} {a : Action} (as : List Action)
    (h : step cfg s a = some t) : exec cfg s (a :: as) = exec cfg t as := by
  simp only [exec, h]

theorem exec_append_some {cfg : Config} {s t : State} {as : List Action} (bs : List Action)
    (h : exec cfg s as = some t) : exec cfg s (as ++ bs) = exec cfg t bs := by
  rw [exec_append, h]; rfl

theorem genPhase_init : GenPhase 0 init := by
  constructor <;> simp [init]

theorem genPhase_step (G P W i : Nat) (s : State) (h : GenPhase i s) (hi : i < G) :
    ∃ t, exec (natConfig G P W) s [.mainStep, .mainStep] = some t ∧ GenPhase (i + 1) t := by
  obtain ⟨h1, h2, h3, h4, h5, h6, h7, h8, h9, h10⟩ := h
  have hlt : (i : Int) < (natConfig G P W).numGenerators := by
    simp only [natConfig]; omega
  have s1 : step (natConfig G P W) s .mainStep
      = some { s with main := .genAdded i, genWg := s.genWg + 1 } := by
    simp [step, h10, mainStep, h1, hlt]
  rw [exec_cons_some _ s1, exec_single]
  refine ⟨_, by simp [step, h10, mainStep]; rfl, ?_⟩
  refine ⟨rfl, by simp [h2], ?_, h4, h5, by simp [h6], h7, h8, h9, rfl⟩
  intro k hk
  simp only
  by_cases hki : k < i
  · rw [List.getElem?_append_left (by omega)]; exact h3 k hki
  · have : k = i := by omega
    subst this
    rw [List.getElem?_append_right (by omega)]
    simp [h2]

theorem genPhase_all (G P W : Nat) :
    ∀ i : Nat, i ≤ G →
      ∃ t, exec (natConfig G P W) init (List.replicate (2 * i) Action.mainStep) = some t ∧
        GenPhase i t
  | 0, _ => ⟨init, rfl, genPhase_init⟩
  | i + 1, hi => by
    obtain ⟨t, ht, hph⟩ := genPhase_all G P W i (by omega)
    obtain ⟨u, hu, hph'⟩ := genPhase_step G P W i t hph (by omega)
    refine ⟨u, ?_, hph'⟩
    have : List.replicate (2 * (i + 1)) Action.mainStep
        = List.replicate (2 * i) Action.mainStep ++ [.mainStep, .mainStep] := by
      rw [show 2 * (i + 1) = 2 * i + 2 by ring, List.replicate_add]; rfl
    rw [this, exec_append_some _ ht, hu]

theorem workPhase_start (G P W : Nat) (s : State) (h : GenPhase G s) :
    ∃ t, exec (natConfig G P W) s [.mainStep, .mainStep] = some t ∧ WorkPhase G 0 t := by
  obtain ⟨h1, h2, h3, h4, h5, h6, h7, h8, h9, h10⟩ := h
  have hge : ¬ (G : Int) < (natConfig G P W).numGenerators := by
    simp only [natConfig]; omega
  have s1 : step (natConfig G P W) s .mainStep = some { s with main := .spawnCloser } := by
    simp [step, h10, mainStep, h1, hge]
  rw [exec_cons_some _ s1, exec_single]
  refine ⟨_, by simp [step, h10, mainStep]; rfl, ?_⟩
  exact ⟨rfl, h2, h3, by simp [h4], by intro k hk; omega, rfl, h6, by simp [h7], h8, h9, rfl⟩

theorem workPhase_step (G P W i : Nat) (s : State) (h : WorkPhase G i s) (hi : i < W) :
    ∃ t, exec (natConfig G P W) s [.mainStep, .mainStep] = some t ∧
      WorkPhase G (i + 1) t := by
  obtain ⟨h1, h2, h3, h4, h4', h5, h6, h7, h8, h9, h10⟩ := h
  have hlt : (i : Int) < (natConfig G P W).numWorkers := by
    simp only [natConfig]; omega
  have s1 : step (natConfig G P W) s .mainStep
      = some (({ s with main := .workAdded i, workWg := s.workWg + 1 } : State).log
          .workerAdd) := by
    simp [step, h10, mainStep, h1, hlt]
  rw [exec_cons_some _ s1, exec_single]
  refine ⟨_, by simp [step, State.log, h10, mainStep]; rfl, ?_⟩
  refine ⟨rfl, h2, h3, by simp [State.log, h4], ?_, h5, h6, by simp [State.log, h7], h8, h9,
    rfl⟩
  intro k hk
  simp only [State.log]
  by_cases hki : k < i
  · rw [List.getElem?_append_left (by omega)]; exact h4' k hki
  · have : k = i := by omega
    subst this
    rw [List.getElem?_append_right (by omega)]
    simp [h4]

theorem workPhase_all (G P W : Nat) (s : State) (h : WorkPhase G 0 s) :
    ∀ i : Nat, i ≤ W →
      ∃ t, exec (natConfig G P W) s (List.replicate (2 * i) Action.mainStep) = some t ∧
        WorkPhase G i t
  | 0, _ => ⟨s, rfl, h⟩
  | i + 1, hi => by
    obtain ⟨t, ht, hph⟩ := workPhase_all G P W s h i (by omega)
    obtain ⟨u, hu, hph'⟩ := workPhase_step G P W i t hph (by omega)
    refine ⟨u, ?_, hph'⟩
    have : List.replicate (2 * (i + 1)) Action.mainStep
        = List.replicate (2 * i) Action.mainStep ++ [.mainStep, .mainStep] := by
      rw [show 2 * (i + 1) = 2 * i + 2 by ring, List.replicate_add]; rfl
    rw [this, exec_append_some _ ht, hu]

theorem runPhase_start (G P W : Nat) (s : State) (h : WorkPhase G W s) :
    ∃ t, exec (natConfig G P W) s [.mainStep] = some t ∧ RunPhase G P W 0 0 t := by
  obtain ⟨h1, h2, h3, h4, h4', h5, h6, h7, h8, h9, h10⟩ := h
  have hge : ¬ (W : Int) < (natConfig G P W).numWorkers := by
    simp only [natConfig]; omega
  rw [exec_single]
  refine ⟨{ s with main := .waiting }, by simp [step, h10, mainStep, h1, hge], ?_⟩
  exact ⟨rfl, h2, by intro i hi; omega, fun hk => h3 0 hk, fun i _ hi => h3 i hi, h4, h4', h5,
    by simp [h6], h7, h8, h9, h10⟩

theorem started (G P W : Nat) :
    ∃ t, exec (natConfig G P W) init (startSchedule G W) = some t ∧ RunPhase G P W 0 0 t := by
  obtain ⟨t1, e1, p1⟩ := genPhase_all G P W G le_rfl
  obtain ⟨t2, e2, p2⟩ := workPhase_start G P W t1 p1
  obtain ⟨t3, e3, p3⟩ := workPhase_all G P W t2 p2 W le_rfl
  obtain ⟨t4, e4, p4⟩ := runPhase_start G P W t3 p3
  refine ⟨t4, ?_, p4⟩
  have : startSchedule G W = List.replicate (2 * G) Action.mainStep ++
      ([.mainStep, .mainStep] ++ (List.replicate (2 * W) Action.mainStep ++ [.mainStep])) := by
    unfold startSchedule
    rw [show 2 * G + 2 + 2 * W + 1 = 2 * G + (2 + (2 * W + 1)) by ring, List.replicate_add,
      List.replicate_add, List.replicate_add]
    rfl
  rw [this, exec_append_some _ e1, exec_append_some _ e2, exec_append_some _ e3, e4]

theorem genBuild_effect (cfg : Config) (s : State) (k : Nat) (gid : Int) (j : Nat)
    (hp : s.panicked = false) (hg : s.gens[k]? = some ⟨gid, .loop j⟩)
    (hlt : (j : Int) < cfg.numOrdersPerGenerator) :
    ∃ t, step cfg s (.genStep k) = some t ∧
      t.gens = s.gens.set k ⟨gid, .select j (buildOrder gid cfg.numOrdersPerGenerator j)⟩ ∧
      t.workers = s.workers ∧ s.sameControl t :=
  by
  refine ⟨{ s with gens := s.gens.set k
                            ⟨gid, .select j (buildOrder gid cfg.numOrdersPerGenerator j)⟩ },
    ?_, rfl, rfl, rfl, rfl, rfl, rfl, rfl, rfl, rfl⟩
  simp [step, hp, genStep, hg, hlt]

theorem handoff_effect (cfg : Config) (s : State) (k w : Nat) (gid : Int) (j : Nat)
    (o : Order) (wid : Int) (hp : s.panicked = false)
    (hg : s.gens[k]? = some ⟨gid, .select j o⟩)
    (hw : s.workers[w]? = some ⟨wid, .select⟩) (hcl : s.closed = false)
    (hnc : s.cancelled = false) :
    ∃ t, step cfg s (.handoff k w) = some t ∧
      t.gens = s.gens.set k ⟨gid, .loop (j + 1)⟩ ∧
      t.workers = s.workers.set w ⟨wid, .holding o⟩ ∧ s.sameControl t :=
  by
  refine ⟨(({ s with gens := s.gens.set k ⟨gid, .loop (j + 1)⟩,
                     workers := s.workers.set w ⟨wid, .holding o⟩ } : State).log
            (.send gid o)).log (.recv wid o), ?_, rfl, rfl, rfl, rfl, rfl, rfl, rfl, rfl, rfl⟩
  simp [step, hp, handoff, hg, hw, hcl, hnc]

theorem process_effect (cfg : Config) (s : State) (w : Nat) (wid : Int) (o : Order)
    (err : Bool) (hp : s.panicked = false) (hw : s.workers[w]? = some ⟨wid, .holding o⟩) :
    ∃ t, step cfg s (.process w err) = some t ∧
      t.gens = s.gens ∧ t.workers = s.workers.set w ⟨wid, .select⟩ ∧ s.sameControl t :=
  by
  refine ⟨({ s with workers := s.workers.set w ⟨wid, .select⟩ } : State).log
    (.process wid o err), ?_, rfl, rfl, rfl, rfl, rfl, rfl, rfl, rfl, rfl⟩
  simp [step, hp, processStep, hw]

theorem runPhase_item (G P W k j : Nat) (s : State) (h : RunPhase G P W k j s)
    (hk : k < G) (hj : j < P) (hW : 1 ≤ W) :
    ∃ t, exec (natConfig G P W) s (itemBlock k) = some t ∧ RunPhase G P W k (j + 1) t := by
  obtain ⟨h1, h2, h3, h4, h5, h6, h7, h8, h9, h10, h11, h12, h13⟩ := h
  have hg := h4 hk
  have hw := h7 0 (by omega)
  have hlt : (j : Int) < (natConfig G P W).numOrdersPerGenerator := by
    simp only [natConfig]; omega
  obtain ⟨t1, s1, g1, w1, c1⟩ := genBuild_effect _ s k _ j h13 hg hlt
  obtain ⟨m1, m2, m3, m4, m5, m6, m7⟩ := c1
  obtain ⟨t2, s2, g2, w2, c2⟩ := handoff_effect (natConfig G P W) t1 k 0 ((k : Int) + 1) j
    (buildOrder ((k : Int) + 1) (natConfig G P W).numOrdersPerGenerator j)
    (((0 : Nat) : Int) + 1)
    (by rw [m7, h13]) (by rw [g1, List.getElem?_set]; simp [h2, hk]) (by rw [w1]; exact hw)
    (by rw [m5, h11]) (by rw [m6, h12])
  obtain ⟨n1, n2, n3, n4, n5, n6, n7⟩ := c2
  obtain ⟨t3, s3, g3, w3, c3⟩ := process_effect (natConfig G P W) t2 0 (((0 : Nat) : Int) + 1)
    (buildOrder ((k : Int) + 1) (natConfig G P W).numOrdersPerGenerator j) false
    (by rw [n7, m7, h13]) (by rw [w2, w1, List.getElem?_set]; simp [h6]; omega)
  obtain ⟨p1, p2, p3, p4, p5, p6, p7⟩ := c3
  unfold itemBlock
  rw [exec_cons_some _ s1, exec_cons_some _ s2, exec_single]
  refine ⟨t3, s3, ?_⟩
  refine ⟨by rw [p1, n1, m1, h1], by rw [g3, g2, g1]; simp [h2], ?_, ?_, ?_,
    by rw [w3, w2, w1]; simp [h6], ?_, by rw [p2, n2, m2, h8], by rw [p3, n3, m3, h9],
    by rw [p4, n4, m4, h10], by rw [p5, n5, m5, h11], by rw [p6, n6, m6, h12],
    by rw [p7, n7, m7, h13]⟩
  · intro i hi
    rw [g3, g2, g1, List.set_set, List.getElem?_set_ne (by omega)]
    exact h3 i hi
  · intro _
    rw [g3, g2, g1, List.set_set, List.getElem?_set]
    simp [h2, hk]
  · intro i hi hiG
    rw [g3, g2, g1, List.set_set, List.getElem?_set_ne (by omega)]
    exact h5 i hi hiG
  · intro i hi
    rw [w3, w2, w1, List.set_set]
    by_cases h0 : i = 0
    · subst h0
      rw [List.getElem?_set]
      simp [h6, hi]
    · rw [List.getElem?_set_ne (fun e => h0 e.symm)]
      exact h7 i hi

theorem runPhase_items (G P W k : Nat) (s : State) (h : RunPhase G P W k 0 s)
    (hk : k < G) (hW : 1 ≤ W) :
    ∀ j : Nat, j ≤ P →
      ∃ t, exec (natConfig G P W) s (List.replicate j (itemBlock k)).flatten = some t ∧
        RunPhase G P W k j t
  | 0, _ => ⟨s, rfl, h⟩
  | j + 1, hj => by
    obtain ⟨t, ht, hph⟩ := runPhase_items G P W k s h hk hW j (by omega)
    obtain ⟨u, hu, hph'⟩ := runPhase_item G P W k j t hph hk (by omega) hW
    refine ⟨u, ?_, hph'⟩
    have : (List.replicate (j + 1) (itemBlock k)).flatten
        = (List.replicate j (itemBlock k)).flatten ++ itemBlock k := by
      rw [List.replicate_succ', List.flatten_append]; simp
    rw [this, exec_append_some _ ht, hu]

theorem runPhase_exit (G P W k : Nat) (s : State) (h : RunPhase G P W k P s) (hk : k < G) :
    ∃ t, exec (natConfig G P W) s [.genStep k] = some t ∧ RunPhase G P W (k + 1) 0 t := by
  obtain ⟨h1, h2, h3, h4, h5, h6, h7, h8, h9, h10, h11, h12, h13⟩ := h
  have hg := h4 hk
  have hge : ¬ (P : Int) < (natConfig G P W).numOrdersPerGenerator := by
    simp only [natConfig]; omega
  rw [exec_single]
  refine ⟨_, by simp [step, h13, genStep, hg, hge]; rfl, ?_⟩
  refine ⟨h1, by simp [State.log, h2], ?_, ?_, ?_, h6, h7, h8, ?_, h10, h11, h12, rfl⟩
  · intro i hi
    simp only [State.log]
    by_cases hik : i = k
    · subst hik
      rw [List.getElem?_set]
      simp [h2, hk]
    · rw [List.getElem?_set_ne (fun e => hik e.symm)]
      exact h3 i (by omega)
  · intro hk1
    simp only [State.log]
    rw [List.getElem?_set_ne (by omega)]
    have := h5 (k + 1) (by omega) hk1
    simpa using this
  · intro i hi hiG
    simp only [State.log]
    rw [List.getElem?_set_ne (by omega)]
    exact h5 i (by omega) hiG
  · simp only [State.log, h9]; push_cast; ring

theorem runPhase_generators (G P W : Nat) (s : State) (h : RunPhase G P W 0 0 s)
    (hW : 1 ≤ W) :
    ∀ k : Nat, k ≤ G →
      ∃ t, exec (natConfig G P W) s ((List.range k).map (generatorBlock P)).flatten = some t ∧
        RunPhase G P W k 0 t
  | 0, _ => ⟨s, rfl, h⟩
  | k + 1, hk => by
    obtain ⟨t, ht, hph⟩ := runPhase_generators G P W s h hW k (by omega)
    obtain ⟨u, hu, hph'⟩ := runPhase_items G P W k t hph (by omega) hW P le_rfl
    obtain ⟨v, hv, hph''⟩ := runPhase_exit G P W k u hph' (by omega)
    refine ⟨v, ?_, hph''⟩
    have : ((List.range (k + 1)).map (generatorBlock P)).flatten
        = ((List.range k).map (generatorBlock P)).flatten ++
            ((List.replicate P (itemBlock k)).flatten ++ [Action.genStep k]) := by
      rw [List.range_succ, List.map_append, List.flatten_append]; simp [generatorBlock]
    rw [this, exec_append_some _ ht, exec_append_some _ hu, hv]

theorem drainPhase_start (G P W : Nat) (s : State) (h : RunPhase G P W G 0 s) :
    ∃ t, exec (natConfig G P W) s [.closerStep] = some t ∧ DrainPhase W 0 t := by
  obtain ⟨h1, h2, h3, h4, h5, h6, h7, h8, h9, h10, h11, h12, h13⟩ := h
  have hz : s.genWg = 0 := by rw [h9]; omega
  rw [exec_single]
  refine ⟨_, by simp [step, h13, closerStep, h8, hz, h11]; rfl, ?_⟩
  exact ⟨h1, h6, by intro k hk; omega, fun k _ hk => h7 k hk, by simp [State.log, h10], rfl,
    h12, rfl⟩

theorem drainPhase_step (G P W i : Nat) (s : State) (h : DrainPhase W i s) (hi : i < W) :
    ∃ t, exec (natConfig G P W) s [.workerClosed i] = some t ∧ DrainPhase W (i + 1) t := by
  obtain ⟨h1, h2, h3, h4, h5, h6, h7, h8⟩ := h
  have hw := h4 i le_rfl hi
  rw [exec_single]
  refine ⟨_, by simp [step, h8, workerClosed, hw, h6]; rfl, ?_⟩
  refine ⟨h1, by simp [State.log, h2], ?_, ?_, ?_, rfl, h7, rfl⟩
  · intro k hk
    simp only [State.log]
    by_cases hki : k = i
    · subst hki
      rw [List.getElem?_set]
      simp [h2, hi]
    · rw [List.getElem?_set_ne (fun e => hki e.symm)]
      exact h3 k (by omega)
  · intro k hk hkW
    simp only [State.log]
    rw [List.getElem?_set_ne (by omega)]
    exact h4 k (by omega) hkW
  · simp only [State.log, h5]; push_cast; ring

theorem drainPhase_all (G P W : Nat) (s : State) (h : DrainPhase W 0 s) :
    ∀ i : Nat, i ≤ W →
      ∃ t, exec (natConfig G P W) s ((List.range i).map Action.workerClosed) = some t ∧
        DrainPhase W i t
  | 0, _ => ⟨s, rfl, h⟩
  | i + 1, hi => by
    obtain ⟨t, ht, hph⟩ := drainPhase_all G P W s h i (by omega)
    obtain ⟨u, hu, hph'⟩ := drainPhase_step G P W i t hph (by omega)
    refine ⟨u, ?_, hph'⟩
    rw [List.range_succ, List.map_append, exec_append_some _ ht]
    exact hu

/-- For all numbers of generators and orders and at least one worker, `fullSchedule` is a
run of the pipeline from start to the return of `wg.Wait()` in `main`, without
cancellation and with the channel closed at the end. -/
theorem fullSchedule_completes (G P W : Nat) (hW : 1 ≤ W) :
    ∃ s, exec (natConfig G P W) init (fullSchedule G P W) = some s ∧
      s.main = .finished ∧ s.closed = true ∧ s.cancelled = false := by
  obtain ⟨t1, e1, p1⟩ := started G P W
  obtain ⟨t2, e2, p2⟩ := runPhase_generators G P W t1 p1 hW G le_rfl
  obtain ⟨t3, e3, p3⟩ := drainPhase_start G P W t2 p2
  obtain ⟨t4, e4, p4⟩ := drainPhase_all G P W t3 p3 W le_rfl
  obtain ⟨h1, h2, h3, h4, h5, h6, h7, h8⟩ := p4
  have hz : t4.workWg = 0 := by rw [h5]; omega
  have e5 : exec (natConfig G P W) t4 [.mainStep] = some { t4 with main := .finished } := by
    rw [exec_single]; simp [step, h8, mainStep, h1, hz]
  refine ⟨{ t4 with main := .finished }, ?_, rfl, h6, h7⟩
  have : fullSchedule G P W = startSchedule G W ++
      (((List.range G).map (generatorBlock P)).flatten ++
        ([.closerStep] ++ ((List.range W).map Action.workerClosed ++ [.mainStep]))) := by
    unfold fullSchedule startSchedule generatorBlock itemBlock
    simp [List.append_assoc]
  rw [this, exec_append_some _ e1, exec_append_some _ e2, exec_append_some _ e3,
    exec_append_some _ e4, e5]

/-- For nonnegative counts and at least one worker a run to the end exists: the channel
is closed, `main` is past `wg.Wait()`, and nobody cancelled. -/
theorem completed_run_exists (cfg : Config) (hG : 0 ≤ cfg.numGenerators)
    (hP : 0 ≤ cfg.numOrdersPerGenerator) (hW : 1 ≤ cfg.numWorkers) :
    ∃ s, Reachable cfg s ∧ s.main = .finished ∧ s.closed = true ∧ s.cancelled = false := by
  have hcfg : natConfig cfg.numGenerators.toNat cfg.numOrdersPerGenerator.toNat
      cfg.numWorkers.toNat = cfg := by
    obtain ⟨g, p, w⟩ := cfg
    simp only [natConfig] at hG hP hW ⊢
    rw [Int.toNat_of_nonneg hG, Int.toNat_of_nonneg hP, Int.toNat_of_nonneg (by omega)]
  obtain ⟨s, h1, h2, h3, h4⟩ := fullSchedule_completes cfg.numGenerators.toNat
    cfg.numOrdersPerGenerator.toNat cfg.numWorkers.toNat (by omega)
  rw [hcfg] at h1
  exact ⟨s, ⟨_, h1⟩, h2, h3, h4⟩

/-- C2, as stated, fails: with `G = 5` and `P = 2^62` the first order of generator 1 and
the first order of generator 5 both get ID `2^62` (`5 * 2^62` wraps around in 64-bit
`int`), in a run without cancellation. -/
theorem ids_collide_when_the_product_overflows :
    exec collisionConfig init collisionSchedule = some collisionState ∧
      collisionState.cancelled = false ∧
      sends collisionState.trace =
        [(1, ⟨4611686018427387904, 0⟩), (5, ⟨4611686018427387904, 0⟩)] ∧
      ¬ (sentIDs collisionState.trace).Nodup := by
  refine ⟨by rfl, by rfl, by rfl, ?_⟩
  have h : sentIDs collisionState.trace = [4611686018427387904, 4611686018427387904] := by rfl
  rw [h]
  decide

/-- C2, amended: for `G >= 0` and `P >= 0`, runs without cancellation in which all
generators finish and the channel is closed exist (given at least one worker), and in
every such run exactly `G * P` orders have been sent; when `G * P <= 2^64`, in particular
whenever no ID computation overflows, their IDs are pairwise distinct: two sent orders with
the same ID come from the same generator and have the same sequence number. -/
theorem all_items_sent_with_distinct_ids (cfg : Config)
    (hG : 0 ≤ cfg.numGenerators) (hP : 0 ≤ cfg.numOrdersPerGenerator) :
    (1 ≤ cfg.numWorkers → ∃ s, Reachable cfg s ∧ s.closed = true ∧ s.cancelled = false) ∧
    ∀ s : State, Reachable cfg s → s.closed = true → s.cancelled = false →
      ((sends s.trace).length : Int) = cfg.numGenerators * cfg.numOrdersPerGenerator ∧
      (cfg.numGenerators * cfg.numOrdersPerGenerator ≤ 18446744073709551616 →
        (sentIDs s.trace).Nodup ∧
        ∀ p ∈ sends s.trace, ∀ q ∈ sends s.trace, p.2.ID = q.2.ID →
          p.1 = q.1 ∧ p.2.Value = q.2.Value) := by
  constructor
  · intro hW
    obtain ⟨s, h1, _, h3, h4⟩ := completed_run_exists cfg hG hP hW
    exact ⟨s, h1, h3, h4⟩
  · intro s hr hcl hnc
    have hI := inv hr
    constructor
    · rw [closed_total hI hcl hnc]
      push_cast
      rw [Int.toNat_of_nonneg hG, Int.toNat_of_nonneg hP]
    · intro hno
      refine ⟨sentIDs_nodup hI hno, ?_⟩
      intro p hp q hq h
      have := sent_id_inj hI hno hp hq h
      subst this
      exact ⟨rfl, rfl⟩

/-- C2 (amended) on the complete run with `main`'s arguments: 50 orders, distinct IDs. -/
theorem all_items_sent_with_distinct_ids_witness :
    (0 : Int) ≤ mainConfig.numGenerators ∧ (0 : Int) ≤ mainConfig.numOrdersPerGenerator ∧
      Reachable mainConfig completedState ∧
      ((sends completedState.trace).length : Int) = 5 * 10 ∧
      (sentIDs completedState.trace).Nodup :=
  ⟨by decide, by decide, completedState_reachable,
    ((all_items_sent_with_distinct_ids mainConfig (by decide) (by decide)).2 completedState
      completedState_reachable (by rfl) (by rfl)).1,
    (((all_items_sent_with_distinct_ids mainConfig (by decide) (by decide)).2 completedState
      completedState_reachable (by rfl) (by rfl)).2 (by decide)).1⟩

/-- C3, as stated, fails: with `G = 2` and `P = 2^62` the first order of generator 2 gets
ID `-2^63` (`2 * 2^62` wraps around in 64-bit `int`), which lies outside the interval
`{P, ..., (G+1)*P - 1}`, in a run without cancellation. -/
theorem id_leaves_the_interval_when_the_product_overflows :
    exec overflowConfig init overflowSchedule = some overflowState ∧
      overflowState.cancelled = false ∧
      sentIDs overflowState.trace = [-9223372036854775808] ∧
      ¬ (overflowConfig.numOrdersPerGenerator ≤ -9223372036854775808 ∧
          -9223372036854775808 <
            (overflowConfig.numGenerators + 1) * overflowConfig.numOrdersPerGenerator) := by
  refine ⟨by rfl, by rfl, by rfl, by decide⟩

theorem mem_sentIDs_iff (x : Int) (tr : List Event) :
    x ∈ sentIDs tr ↔ ∃ g o, (g, o) ∈ sends tr ∧ o.ID = x := by
  unfold sentIDs
  rw [List.mem_map]
  constructor
  · rintro ⟨⟨g, o⟩, h1, h2⟩; exact ⟨g, o, h1, h2⟩
  · rintro ⟨g, o, h1, h2⟩; exact ⟨(g, o), h1, h2⟩

theorem mem_interval_of_sent {cfg : Config} {s : State} (hI : Inv cfg s)
    (hno : (cfg.numGenerators + 1) * cfg.numOrdersPerGenerator ≤ 9223372036854775808)
    {x : Int} (hx : x ∈ sentIDs s.trace) :
    cfg.numOrdersPerGenerator ≤ x ∧
      x < (cfg.numGenerators + 1) * cfg.numOrdersPerGenerator := by
  obtain ⟨g, o, hm, rfl⟩ := (mem_sentIDs_iff x s.trace).1 hx
  obtain ⟨j, h1, h2, h3, rfl⟩ := sent_elem_range hI hm
  rw [buildOrder_id_exact h1 h2 h3 hno]
  have hj : (0 : Int) ≤ j := Int.ofNat_nonneg j
  have hP : 0 < cfg.numOrdersPerGenerator := by omega
  obtain ⟨_, h5⟩ := mul_add_lt_of_le h1 h2 h3
  refine ⟨?_, h5⟩
  nlinarith [mul_nonneg (sub_nonneg.2 h1) hP.le]

theorem sent_of_mem_interval {cfg : Config} {s : State} (hI : Inv cfg s)
    (hP0 : 0 ≤ cfg.numOrdersPerGenerator)
    (hno : (cfg.numGenerators + 1) * cfg.numOrdersPerGenerator ≤ 9223372036854775808)
    (hcl : s.closed = true) (hnc : s.cancelled = false) {x : Int}
    (h1 : cfg.numOrdersPerGenerator ≤ x)
    (h2 : x < (cfg.numGenerators + 1) * cfg.numOrdersPerGenerator) :
    x ∈ sentIDs s.trace := by
  obtain ⟨hlen, hcnt⟩ := closed_complete hI hcl hnc
  have hP : 0 < cfg.numOrdersPerGenerator := by
    rcases eq_or_lt_of_le hP0 with h0 | h0
    · rw [← h0] at h1 h2; simp at h2; omega
    · exact h0
  have hq1 : 1 ≤ x / cfg.numOrdersPerGenerator :=
    Int.le_ediv_of_mul_le hP (by omega)
  have hq2 : x / cfg.numOrdersPerGenerator < cfg.numGenerators + 1 :=
    Int.ediv_lt_of_lt_mul hP h2
  have hr1 : 0 ≤ x % cfg.numOrdersPerGenerator := Int.emod_nonneg x (by omega)
  have hr2 : x % cfg.numOrdersPerGenerator < cfg.numOrdersPerGenerator :=
    Int.emod_lt_of_pos x hP
  have hdecomp := Int.ediv_add_emod' x cfg.numOrdersPerGenerator
  generalize x / cfg.numOrdersPerGenerator = g at hq1 hq2 hdecomp
  generalize x % cfg.numOrdersPerGenerator = r at hr1 hr2 hdecomp
  obtain ⟨k, hk⟩ : ∃ k : Nat, g = (k : Int) + 1 := ⟨(g - 1).toNat, by omega⟩
  obtain ⟨j, hj⟩ : ∃ j : Nat, r = (j : Int) := ⟨r.toNat, by omega⟩
  have hklt : k < s.gens.length := by rw [hlen]; omega
  have hget : s.gens[k]? = some s.gens[k] := List.getElem?_eq_getElem hklt
  have hid := hI.a.ids k _ hget
  have hs := hI.b.sent k _ hget
  rw [hcnt k _ hget, hid, ← hk] at hs
  rw [mem_sentIDs_iff]
  refine ⟨g, buildOrder g cfg.numOrdersPerGenerator j, ?_, ?_⟩
  · rw [mem_sends_iff, hs]
    exact List.mem_map_of_mem _ (List.mem_range.2 (by omega))
  · rw [buildOrder_id_exact hq1 (by omega) (by omega) hno]
    omega

/-- C3, amended: for `G >= 0` and `P >= 0` with no overflowing ID computation
(`(G + 1) * P <= 2^63`), runs without cancellation in which the channel is closed exist
(given at least one worker), and in every such run the set of IDs sent is exactly the
interval `{P, ..., (G+1)*P - 1}`, each ID occurring once; in particular for `G = 5`,
`P = 10` the IDs are a permutation of `10, 11, ..., 59`. -/
theorem ids_are_the_interval (cfg : Config)
    (hG : 0 ≤ cfg.numGenerators) (hP : 0 ≤ cfg.numOrdersPerGenerator)
    (hno : (cfg.numGenerators + 1) * cfg.numOrdersPerGenerator ≤ 9223372036854775808) :
    (1 ≤ cfg.numWorkers → ∃ s, Reachable cfg s ∧ s.closed = true ∧ s.cancelled = false) ∧
    ∀ s : State, Reachable cfg s → s.closed = true → s.cancelled = false →
      (∀ x : Int, x ∈ sentIDs s.trace ↔
        cfg.numOrdersPerGenerator ≤ x ∧
          x < (cfg.numGenerators + 1) * cfg.numOrdersPerGenerator) ∧
      (sentIDs s.trace).Nodup ∧
      (cfg.numGenerators = 5 → cfg.numOrdersPerGenerator = 10 →
        (sentIDs s.trace).Perm ((List.range' 10 50).map Int.ofNat)) := by
  constructor
  · intro hW
    obtain ⟨s, h1, _, h3, h4⟩ := completed_run_exists cfg hG hP hW
    exact ⟨s, h1, h3, h4⟩
  intro s hr hcl hnc
  have hI := inv hr
  have hmem : ∀ x : Int, x ∈ sentIDs s.trace ↔
      cfg.numOrdersPerGenerator ≤ x ∧
        x < (cfg.numGenerators + 1) * cfg.numOrdersPerGenerator :=
    fun x => ⟨mem_interval_of_sent hI hno, fun h => sent_of_mem_interval hI hP hno hcl hnc h.1 h.2⟩
  have hnd := sentIDs_nodup hI (by
    have := add_mul cfg.numGenerators 1 cfg.numOrdersPerGenerator
    omega)
  refine ⟨hmem, hnd, ?_⟩
  intro h5 h10
  have hnd2 : ((List.range' 10 50).map Int.ofNat).Nodup :=
    (List.nodup_range' 10 50).map (fun a b h => Int.ofNat.inj h)
  rw [List.perm_ext_iff_of_nodup hnd hnd2]
  intro x
  rw [hmem x, h5, h10, List.mem_map]
  constructor
  · rintro ⟨h1, h2⟩
    refine ⟨x.toNat, ?_, ?_⟩
    · rw [List.mem_range'_1]; omega
    · show ((x.toNat : Nat) : Int) = x
      omega
  · rintro ⟨n, hn, rfl⟩
    rw [List.mem_range'_1] at hn
    show (10 : Int) ≤ (n : Int) ∧ (n : Int) < (5 + 1) * 10
    omega

/-- C3 (amended) on the complete run with `main`'s arguments: the IDs are 10..59. -/
theorem ids_are_the_interval_witness :
    (0 : Int) ≤ mainConfig.numGenerators ∧ (0 : Int) ≤ mainConfig.numOrdersPerGenerator ∧
      (mainConfig.numGenerators + 1) * mainConfig.numOrdersPerGenerator
        ≤ 9223372036854775808 ∧
      Reachable mainConfig completedState ∧
      (sentIDs completedState.trace).Perm ((List.range' 10 50).map Int.ofNat) :=
  ⟨by decide, by decide, by decide, completedState_reachable,
    ((ids_are_the_interval mainConfig (by decide) (by decide) (by decide)).2 completedState
      completedState_reachable (by rfl) (by rfl)).2.2 rfl rfl⟩

theorem recvBy_eq_projBy (w : Int) (tr : List Event) : recvBy w tr = projBy w (recvs tr) := by
  induction tr with
  | nil => rfl
  | cons e tr ih =>
    rw [recvBy_cons, recvs_cons, ih]
    unfold projBy
    rw [List.filterMap_append]
    congr 1
    cases e <;> simp [recvBy, recvs]
    rename_i w' o'
    by_cases h : w' = w <;> simp [h]

theorem procBy_eq_projBy (w : Int) (tr : List Event) : procBy w tr = projBy w (procs tr) := by
  induction tr with
  | nil => rfl
  | cons e tr ih =>
    rw [procBy_cons, procs_cons, ih]
    unfold projBy
    rw [List.filterMap_append]
    congr 1
    cases e <;> simp [procBy, procs]
    rename_i w' o' err
    by_cases h : w' = w <;> simp [h]

theorem projBy_cons (w : Int) (p : Int × Order) (l : List (Int × Order)) :
    projBy w (p :: l) = (if p.1 = w then [p.2] else []) ++ projBy w l := by
  simp only [projBy, List.filterMap_cons]; split <;> simp_all

theorem projBy_append (w : Int) (a b : List (Int × Order)) :
    projBy w (a ++ b) = projBy w a ++ projBy w b := by
  simp [projBy, List.filterMap_append]

theorem projBy_split (w : Int) (o : Order) (t : List Order) :
    ∀ l : List (Int × Order), projBy w l = o :: t →
      ∃ a b, l = a ++ (w, o) :: b ∧ projBy w a = [] ∧ projBy w b = t
  | [], h => by simp [projBy] at h
  | p :: l, h => by
    rw [projBy_cons] at h
    by_cases hp : p.1 = w
    · rw [if_pos hp] at h
      simp only [List.singleton_append, List.cons.injEq] at h
      refine ⟨[], l, ?_, rfl, h.2⟩
      obtain ⟨w', o'⟩ := p
      simp only at hp h
      rw [hp, h.1]; rfl
    · rw [if_neg hp] at h
      simp only [List.nil_append] at h
      obtain ⟨a, b, h1, h2, h3⟩ := projBy_split w o t l h
      refine ⟨p :: a, b, by rw [h1]; rfl, ?_, h3⟩
      rw [projBy_cons, if_neg hp, h2]; rfl

theorem eq_nil_of_projBy_nil (l : List (Int × Order)) (h : ∀ w, projBy w l = []) :
    l = [] := by
  cases l with
  | nil => rfl
  | cons p l =>
    have := h p.1
    rw [projBy_cons, if_pos rfl] at this
    simp at this

theorem perm_of_projBy_eq :
    ∀ (l1 l2 : List (Int × Order)), (∀ w, projBy w l1 = projBy w l2) → l1.Perm l2
  | [], l2, h => by
    have : l2 = [] := eq_nil_of_projBy_nil l2 (fun w => (h w).symm)
    rw [this]
  | (w, o) :: l1, l2, h => by
    have hw := h w
    rw [projBy_cons, if_pos rfl] at hw
    simp only [List.singleton_append] at hw
    obtain ⟨a, b, h1, h2, h3⟩ := projBy_split w o _ l2 hw.symm
    have ih : l1.Perm (a ++ b) := by
      apply perm_of_projBy_eq l1 (a ++ b)
      intro w'
      by_cases hww : w' = w
      · subst hww
        rw [projBy_append, h2, h3]; rfl
      · have := h w'
        rw [projBy_cons, if_neg (fun e => hww e.symm), h1, projBy_append, projBy_cons,
          if_neg (fun e => hww e.symm)] at this
        simp only [List.nil_append] at this
        rw [projBy_append]; exact this
    rw [h1]
    exact (List.Perm.cons (w, o) ih).trans List.perm_middle.symm

theorem active_add_exited (ws : List WorkerState) :
    activeWorkers ws + ws.countP WorkerState.isExited = ws.length := by
  induction ws with
  | nil => rfl
  | cons w ws ih =>
    have h1 : activeWorkers (w :: ws) = w.active + activeWorkers ws := by
      simp [activeWorkers]
    rw [h1, List.countP_cons, List.length_cons]
    unfold WorkerState.active
    cases w.isExited <;> simp <;> omega

theorem recv_worker_range {cfg : Config} {s : State} (hI : Inv cfg s) {w : Int} {o : Order}
    (h : (w, o) ∈ recvs s.trace) : 1 ≤ w ∧ w ≤ cfg.numWorkers := by
  rw [mem_recvs_iff] at h
  by_cases hf : ∀ k : Nat, k < s.workers.length → w ≠ (k : Int) + 1
  · rw [(hI.r.wforeign w hf).1] at h; cases h
  · push_neg at hf
    obtain ⟨k, hk, hwk⟩ := hf
    have := workers_length_le hI.w hk
    omega

theorem recvBy_eq_procBy_of_exited {cfg : Config} {s : State} (hI : Inv cfg s)
    (hex : ∀ w ∈ s.workers, w.isExited = true) (w : Int) :
    recvBy w s.trace = procBy w s.trace := by
  by_cases hf : ∀ k : Nat, k < s.workers.length → w ≠ (k : Int) + 1
  · have := hI.r.wforeign w hf
    rw [this.1, this.2.1]
  · push_neg at hf
    obtain ⟨k, hk, hwk⟩ := hf
    have hget : s.workers[k]? = some s.workers[k] := List.getElem?_eq_getElem hk
    have hid := hI.w.wids k _ hget
    have hr := hI.r.recv k _ hget
    have he := hex _ (mem_of_get hget)
    rw [hid, ← hwk] at hr
    rw [hr]
    unfold WorkerState.isExited at he
    unfold WorkerState.held
    split at he <;> simp_all

theorem finished_all_exited {cfg : Config} {s : State} (hI : Inv cfg s)
    (hm : s.main = .finished) :
    s.workers.length = cfg.numWorkers.toNat ∧ ∀ w ∈ s.workers, w.isExited = true := by
  refine ⟨hI.w.wafter (by rw [hm]; rfl), ?_⟩
  have h0 := hI.w.wdone hm
  have hwg := hI.w.wwg
  rw [h0, hm] at hwg
  apply exited_of_activeWorkers_zero
  have h2 : (0 : Int) ≤ (activeWorkers s.workers : Int) := Int.ofNat_nonneg _
  simp only [MainPc.workPending] at hwg
  omega

/-- C6: for `numWorkers >= 1` (and nonnegative generator counts) runs without
cancellation up to the return of `wg.Wait()` in `main` exist; and in every run every order
accepted on the channel is received by exactly one worker started by `StartWorkers` (the
receive events carry, in the same order, exactly the orders of the send events, each with
one worker id in 1..numWorkers); each worker passes what it received to `Process` in
receive order, at most the last one still in flight; and once all workers have returned,
in particular once `main` is past `wg.Wait()` in a run without cancellation, the orders
given to `Process` are a permutation of the orders sent: nothing lost, nothing
duplicated. -/
theorem each_sent_item_processed_once (cfg : Config) (hW : 1 ≤ cfg.numWorkers) :
    (0 ≤ cfg.numGenerators → 0 ≤ cfg.numOrdersPerGenerator →
      ∃ s, Reachable cfg s ∧ s.main = .finished ∧ s.cancelled = false) ∧
    ∀ s : State, Reachable cfg s →
      (recvs s.trace).map Prod.snd = (sends s.trace).map Prod.snd ∧
      (∀ p ∈ recvs s.trace, 1 ≤ p.1 ∧ p.1 ≤ cfg.numWorkers) ∧
      (∀ (k : Nat) (w : WorkerState), s.workers[k]? = some w →
        recvBy w.id s.trace = procBy w.id s.trace ++ w.held) ∧
      ((∀ w ∈ s.workers, w.isExited = true) →
        (procs s.trace).Perm (recvs s.trace) ∧
        ((procs s.trace).map Prod.snd).Perm ((sends s.trace).map Prod.snd)) ∧
      (s.main = .finished → s.cancelled = false →
        ((procs s.trace).map Prod.snd).Perm ((sends s.trace).map Prod.snd)) := by
  constructor
  · intro hG hP
    obtain ⟨s, h1, h2, _, h4⟩ := completed_run_exists cfg hG hP hW
    exact ⟨s, h1, h2, h4⟩
  intro s hr
  have hI := inv hr
  have hperm : (∀ w ∈ s.workers, w.isExited = true) →
      (procs s.trace).Perm (recvs s.trace) ∧
      ((procs s.trace).map Prod.snd).Perm ((sends s.trace).map Prod.snd) := by
    intro hex
    have h1 : (procs s.trace).Perm (recvs s.trace) := by
      apply perm_of_projBy_eq
      intro w
      rw [← procBy_eq_projBy, ← recvBy_eq_projBy]
      exact (recvBy_eq_procBy_of_exited hI hex w).symm
    refine ⟨h1, ?_⟩
    rw [← hI.r.pair]
    exact h1.map _
  refine ⟨hI.r.pair, ?_, hI.r.recv, hperm, ?_⟩
  · rintro ⟨w, o⟩ hp
    exact recv_worker_range hI hp
  · intro hm _
    exact (hperm (finished_all_exited hI hm).2).2

/-- C6 on the complete run with `main`'s arguments: 50 orders sent, the same 50 processed. -/
theorem each_sent_item_processed_once_witness :
    (1 : Int) ≤ mainConfig.numWorkers ∧
      Reachable mainConfig completedState ∧ completedState.main = .finished ∧
      (sends completedState.trace).length = 50 ∧
      ((procs completedState.trace).map Prod.snd).Perm
        ((sends completedState.trace).map Prod.snd) :=
  ⟨by decide, completedState_reachable, by rfl, by rfl,
    ((each_sent_item_processed_once mainConfig (by decide)).2 completedState
      completedState_reachable).2.2.2.2 (by rfl) (by rfl)⟩

/-- C7: at every moment the `Process` calls of a worker are, in order, exactly the orders
it received, save the one still in flight: one call per received order, none skipped,
none repeated.  Whenever the worker holds an order, `Process` may return with or without
an error; either way the worker is back in its select (not terminated) with that order
appended to its calls, and the two outcomes leave the same state apart from the logged
flag: the error reaches nothing outside the worker. -/
theorem worker_isolates_failures (cfg : Config) (s : State) (hr : Reachable cfg s)
    (k : Nat) (w : WorkerState) (hw : s.workers[k]? = some w) :
    recvBy w.id s.trace = procBy w.id s.trace ++ w.held ∧
    (∀ (o : Order) (err : Bool), w.pc = .holding o →
      ∃ s', step cfg s (.process k err) = some s' ∧
        s'.workers[k]? = some ⟨w.id, .select⟩ ∧
        procBy w.id s'.trace = procBy w.id s.trace ++ [o] ∧
        recvBy w.id s'.trace = procBy w.id s'.trace ∧
        s'.panicked = false) ∧
    (∀ o : Order, w.pc = .holding o →
      (step cfg s (.process k true)).map State.forget =
        (step cfg s (.process k false)).map State.forget) := by
  have hI := inv hr
  have hrecv := hI.r.recv k w hw
  refine ⟨hrecv, ?_, ?_⟩
  · intro o err hpc
    obtain ⟨wid, pc⟩ := w
    simp only at hpc
    subst hpc
    have hlt := get_lt hw
    refine ⟨({ s with workers := s.workers.set k ⟨wid, .select⟩ } : State).log
      (.process wid o err), by simp [step, hI.a.noPanic, processStep, hw], ?_, ?_, ?_, ?_⟩
    · simp [State.log, hlt]
    · simp [State.log, procBy_snoc, procBy]
    · simp only [WorkerState.held] at hrecv
      simp only [State.log, procBy_snoc, recvBy_snoc, hrecv]
      simp [procBy, recvBy]
    · exact hI.a.noPanic
  · intro o hpc
    obtain ⟨wid, pc⟩ := w
    simp only at hpc
    subst hpc
    simp [step, hI.a.noPanic, processStep, hw, State.forget, State.log]

/-- C7 on a run with `main`'s arguments in which `Process` failed on order 20: worker 1 went
on to receive order 21. -/
theorem worker_isolates_failures_witness :
    Reachable mainConfig cancelledState ∧
      procBy 1 cancelledState.trace = [⟨20, 0⟩] ∧
      recvBy 1 cancelledState.trace = [⟨20, 0⟩, ⟨21, 1⟩] ∧
      cancelledState.workers[0]? = some ⟨1, .holding ⟨21, 1⟩⟩ :=
  ⟨cancelledState_reachable, by rfl,
    (worker_isolates_failures mainConfig cancelledState cancelledState_reachable 0
      ⟨1, .holding ⟨21, 1⟩⟩ (by rfl)).1, by rfl⟩

/-- C8, as stated, fails: with `main`'s arguments and an interrupt during start-up, worker 1
has already reported `Done` when `StartWorkers` returns, so the tracker count (initially
0) stands at 2 and not at `numWorkers = 3` although `Add(1)` ran three times. -/
theorem tracker_has_not_risen_by_numWorkers :
    exec mainConfig init earlyExitSchedule = some earlyExitState ∧
      earlyExitState.main = .waiting ∧
      earlyExitState.trace.count .workerAdd = 3 ∧
      earlyExitState.workWg = 2 ∧
      earlyExitState.workWg ≠ mainConfig.numWorkers := by
  refine ⟨by rfl, by rfl, by rfl, by rfl, by decide⟩

/-- C8, amended: for `numWorkers >= 0`, `StartWorkers` runs `Add(1)` before each start
(there are never more starts than `Add`s) and exactly `numWorkers` times in all; every
worker has reported `Done` exactly once if it has returned and not at all otherwise; at
every moment the tracker count is the number of `Add`s so far minus the number of workers
that have returned, hence never below its initial value 0; and once `StartWorkers` has
returned the count is `numWorkers` minus the number of returned workers, so it is back at
0 exactly when all `numWorkers` workers have returned. -/
theorem tracker_balance (cfg : Config) (s : State) (hr : Reachable cfg s)
    (hW : 0 ≤ cfg.numWorkers) :
    (s.trace.filter Event.isWorkerStart).length = s.workers.length ∧
    s.trace.count .workerAdd = s.workers.length + s.main.workPending ∧
    (s.main.workersStarted = true →
      (s.trace.count .workerAdd : Int) = cfg.numWorkers ∧
      (s.workers.length : Int) = cfg.numWorkers) ∧
    (∀ (k : Nat) (w : WorkerState), s.workers[k]? = some w →
      s.trace.count (.workerDone w.id) = if w.isExited then 1 else 0) ∧
    s.workWg =
      (s.trace.count .workerAdd : Int) - (s.workers.countP WorkerState.isExited : Int) ∧
    0 ≤ s.workWg ∧
    (s.main.workersStarted = true →
      s.workWg = cfg.numWorkers - (s.workers.countP WorkerState.isExited : Int) ∧
      (s.workWg = 0 ↔ ∀ w ∈ s.workers, w.isExited = true)) := by
  have hI := inv hr
  have hadds := hI.r.adds
  have hwg := hI.w.wwg
  have hae := active_add_exited s.workers
  have hstarted : s.main.workersStarted = true →
      s.main.workPending = 0 ∧ s.workers.length = cfg.numWorkers.toNat := by
    intro hs
    refine ⟨?_, hI.w.wafter hs⟩
    cases hm : s.main <;> simp [hm, MainPc.workersStarted, MainPc.workPending] at hs ⊢
  refine ⟨hI.r.starts, hadds, ?_, hI.r.dones, ?_, ?_, ?_⟩
  · intro hs
    obtain ⟨h1, h2⟩ := hstarted hs
    rw [hadds, h1, h2]
    simp [Int.toNat_of_nonneg hW]
  · rw [hwg, hadds]; push_cast; omega
  · rw [hwg]; positivity
  · intro hs
    obtain ⟨h1, h2⟩ := hstarted hs
    have h3 : (s.workers.length : Int) = cfg.numWorkers := by
      rw [h2]; exact Int.toNat_of_nonneg hW
    rw [h1] at hwg
    refine ⟨by rw [hwg]; push_cast; omega, ?_⟩
    constructor
    · intro h0
      apply exited_of_activeWorkers_zero
      rw [h0] at hwg
      have : (0 : Int) ≤ (activeWorkers s.workers : Int) := Int.ofNat_nonneg _
      push_cast at hwg
      omega
    · intro hex
      rw [hwg, activeWorkers_zero_of_exited hex]
      rfl

/-- C8 (amended) on the run with an interrupt during start-up: count 2 = 3 - 1. -/
theorem tracker_balance_witness :
    Reachable mainConfig earlyExitState ∧
      earlyExitState.workWg = 3 - (earlyExitState.workers.countP WorkerState.isExited : Int) ∧
      earlyExitState.workers.countP WorkerState.isExited = 1 :=
  ⟨⟨earlyExitSchedule, by rfl⟩,
    ((tracker_balance mainConfig earlyExitState ⟨earlyExitSchedule, by rfl⟩
      (by decide)).2.2.2.2.2.2 (by rfl)).1, by rfl⟩

/-- Once `cancel()` has been called, a step keeps the context cancelled and sends nothing. -/
theorem step_after_cancel {cfg : Config} {s s' : State} {a : Action}
    (h : step cfg s a = some s') (hc : s.cancelled = true) :
    s'.cancelled = true ∧ sends s'.trace = sends s.trace := by
  have hS := step_sound h
  cases hS
  case handoff k w gid j o wid hp hg hw hcl hnc => rw [hc] at hnc; cases hnc
  all_goals
    refine ⟨by first | exact hc | rfl, ?_⟩
    simp [State.log, sends, List.filterMap_append]

/-- Once `cancel()` has been called, a schedule keeps the context cancelled and sends
nothing. -/
theorem exec_after_cancel {cfg : Config} (sched : List Action) {s s' : State}
    (h : exec cfg s sched = some s') (hc : s.cancelled = true) :
    s'.cancelled = true ∧ sends s'.trace = sends s.trace := by
  induction sched generalizing s with
  | nil =>
    simp only [exec, Option.some.injEq] at h
    subst h; exact ⟨hc, rfl⟩
  | cons a as ih =>
    simp only [exec] at h
    cases hst : step cfg s a with
    | none => rw [hst] at h; cases h
    | some t =>
      rw [hst] at h
      obtain ⟨h1, h2⟩ := step_after_cancel hst hc
      obtain ⟨h3, h4⟩ := ih h h1
      exact ⟨h3, h4.trans h2⟩

/-- C9: in no execution does a generator task send an order after cancellation has fired.
In every reachable state no send event follows the `cancel()` event in the log, and from a
state in which the signal has fired no schedule whatever adds a send.  A generator that
waits in its select with the order of iteration `j` when the signal has fired cannot
complete that send with any worker; its cancellation branch can be taken, and taking it the
task returns with nothing sent.  Any generator can be run to its return from a cancelled
state, again with nothing sent.  A task that has returned through the cancellation branch
did so after the signal, has sent exactly the orders of the iterations before the one it
was in, and neither that order nor a later one. -/
theorem no_send_after_cancellation (cfg : Config) (s : State) (hr : Reachable cfg s) :
    occursAfter Event.isCancel Event.isSend s.trace = false ∧
    (s.cancelled = true → ∀ (sched : List Action) (s' : State),
      exec cfg s sched = some s' →
      s'.cancelled = true ∧ sends s'.trace = sends s.trace) ∧
    (∀ (k : Nat) (gid : Int) (j : Nat) (o : Order),
      s.gens[k]? = some ⟨gid, .select j o⟩ → s.cancelled = true →
      (∀ w : Nat, step cfg s (.handoff k w) = none) ∧
      ∃ s', step cfg s (.genCancel k) = some s' ∧
        s'.gens[k]? = some ⟨gid, .exited j true⟩ ∧ sends s'.trace = sends s.trace) ∧
    (∀ (k : Nat) (g : GenState), s.gens[k]? = some g → s.cancelled = true →
      ∃ (sched : List Action) (s' : State) (g' : GenState),
        exec cfg s sched = some s' ∧ s'.gens[k]? = some g' ∧
        g'.generatorID = g.generatorID ∧ g'.isExited = true ∧
        sends s'.trace = sends s.trace) ∧
    (∀ g : Int, occursAfter (Event.isGenCancelled g) (Event.isSendBy g) s.trace = false) ∧
    (∀ g : Int, s.trace.any (Event.isGenCancelled g) = true →
      s.cancelled = true ∧ s.trace.any Event.isCancel = true) ∧
    (∀ (k : Nat) (g : GenState), s.gens[k]? = some g → g.sawCancel = true →
      g.isExited = true ∧ (g.counter : Int) < cfg.numOrdersPerGenerator ∧
      sentBy g.generatorID s.trace =
        (List.range g.counter).map (buildOrder g.generatorID cfg.numOrdersPerGenerator) ∧
      ∀ j : Nat, g.counter ≤ j →
        buildOrder g.generatorID cfg.numOrdersPerGenerator j ∉
          sentBy g.generatorID s.trace) := by
  have hI := inv hr
  have hcanc : ∀ (t : State), t.panicked = false → t.cancelled = true →
      ∀ (k : Nat) (gid : Int) (j : Nat) (o : Order), t.gens[k]? = some ⟨gid, .select j o⟩ →
      ∃ t', step cfg t (.genCancel k) = some t' ∧
        t'.gens[k]? = some ⟨gid, .exited j true⟩ ∧ sends t'.trace = sends t.trace := by
    intro t hp hc k gid j o hg
    have hlt := get_lt hg
    refine ⟨(({ t with gens := t.gens.set k ⟨gid, .exited j true⟩,
                       genWg := t.genWg - 1 } : State).log (.genCancelled gid)).log
              (.genDone gid), by simp [step, hp, genCancel, hg, hc], ?_, ?_⟩
    · simp [State.log, hlt]
    · simp [State.log, sends, List.filterMap_append]
  refine ⟨hI.t.sendCancel, ?_, ?_, ?_, hI.t.sendCanc, ?_, ?_⟩
  · intro hc sched s' h
    exact exec_after_cancel sched h hc
  · intro k gid j o hg hc
    refine ⟨?_, hcanc s hI.a.noPanic hc k gid j o hg⟩
    intro w
    simp only [step, hI.a.noPanic, handoff, hg, hc]
    cases hw : s.workers[w]? with
    | none => simp
    | some ws =>
      obtain ⟨wid, wpc⟩ := ws
      cases wpc <;> simp
  · intro k g hg hc
    obtain ⟨gid, pc⟩ := g
    cases pc with
    | exited j c => exact ⟨[], s, ⟨gid, .exited j c⟩, rfl, hg, rfl, rfl, rfl⟩
    | select j o =>
      obtain ⟨t', h1, h2, h3⟩ := hcanc s hI.a.noPanic hc k gid j o hg
      exact ⟨[.genCancel k], t', ⟨gid, .exited j true⟩, by rw [exec_single]; exact h1, h2, rfl, rfl, h3⟩
    | loop j =>
      have hlt := get_lt hg
      by_cases hj : (j : Int) < cfg.numOrdersPerGenerator
      · obtain ⟨t, h1, h2, _, c1⟩ := genBuild_effect cfg s k gid j hI.a.noPanic hg hj
        obtain ⟨_, _, _, _, _, c6, c7⟩ := c1
        have hg' : t.gens[k]? =
            some ⟨gid, .select j (buildOrder gid cfg.numOrdersPerGenerator j)⟩ := by
          rw [h2]; simp [hlt]
        obtain ⟨t', k1, k2, k3⟩ :=
          hcanc t (by rw [c7]; exact hI.a.noPanic) (by rw [c6]; exact hc) k gid j _ hg'
        refine ⟨[.genStep k, .genCancel k], t', ⟨gid, .exited j true⟩, ?_, k2, rfl, rfl, ?_⟩
        · rw [exec_cons_some _ h1, exec_single]; exact k1
        · rw [k3]; exact (step_after_cancel h1 hc).2
      · refine ⟨[.genStep k],
          ({ s with gens := s.gens.set k ⟨gid, .exited j false⟩,
                    genWg := s.genWg - 1 } : State).log (.genDone gid),
          ⟨gid, .exited j false⟩, ?_, ?_, rfl, rfl, ?_⟩
        · rw [exec_single]; simp [step, hI.a.noPanic, genStep, hg, hj]
        · simp [State.log, hlt]
        · simp [State.log, sends, List.filterMap_append]
  · intro g hany
    have hc : s.cancelled = true := by
      by_cases hf : ∀ k : Nat, k < s.gens.length → g ≠ (k : Int) + 1
      · rw [hI.t.genCancForeign g hf] at hany; cases hany
      · push_neg at hf
        obtain ⟨k, hk, hgk⟩ := hf
        have hget : s.gens[k]? = some s.gens[k] := List.getElem?_eq_getElem hk
        have hid := hI.a.ids k _ hget
        have h1 := hI.t.genCanc k _ hget
        rw [hid, ← hgk, hany] at h1
        exact hI.t.cancelExit k _ hget h1.symm
    exact ⟨hc, by rw [hI.t.cancelTrace]; exact hc⟩
  · intro k g hg hsc
    have hpc := hI.b.pcOk k g hg
    have hs := hI.b.sent k g hg
    unfold GenState.sawCancel at hsc
    unfold GenPcOk at hpc
    unfold GenState.isExited
    have hcount : (g.counter : Int) < cfg.numOrdersPerGenerator := by
      unfold GenState.counter
      cases hpcv : g.pc with
      | loop j => simp [hpcv] at hsc
      | select j o => simp [hpcv] at hsc
      | exited j c =>
        cases c with
        | false => simp [hpcv] at hsc
        | true => simpa [hpcv] using hpc
    refine ⟨?_, hcount, hs, ?_⟩
    · cases hpcv : g.pc with
      | loop j => simp [hpcv] at hsc
      | select j o => simp [hpcv] at hsc
      | exited j c => rfl
    · intro j hj hmem
      rw [hs, List.mem_map] at hmem
      obtain ⟨i, hi, he⟩ := hmem
      have := buildOrder_injective _ _ he
      rw [List.mem_range] at hi
      omega

/-- C9 on a run with `main`'s arguments: the interrupt arrives while generator 1 waits in
its select with order 10 and worker 1 waits to receive.  The send is not completed, the
generator returns through the cancellation branch, and nothing has been sent. -/
theorem no_send_after_cancellation_witness :
    Reachable mainConfig cancelFiredState ∧
      cancelFiredState.cancelled = true ∧
      cancelFiredState.gens[0]? = some ⟨1, .select 0 ⟨10, 0⟩⟩ ∧
      cancelFiredState.workers[0]? = some ⟨1, .select⟩ ∧
      step mainConfig cancelFiredState (.handoff 0 0) = none ∧
      (∃ s', step mainConfig cancelFiredState (.genCancel 0) = some s' ∧
        s'.gens[0]? = some ⟨1, .exited 0 true⟩ ∧
        sends s'.trace = sends cancelFiredState.trace) ∧
      sends cancelFiredState.trace = [] ∧
      occursAfter Event.isCancel Event.isSend cancelFiredState.trace = false :=
  ⟨⟨cancelFiredSchedule, by rfl⟩, by rfl, by rfl, by rfl,
    ((no_send_after_cancellation mainConfig cancelFiredState ⟨cancelFiredSchedule, by rfl⟩).2.2.1
      0 1 0 ⟨10, 0⟩ (by rfl) (by rfl)).1 0,
    ((no_send_after_cancellation mainConfig cancelFiredState ⟨cancelFiredSchedule, by rfl⟩).2.2.1
      0 1 0 ⟨10, 0⟩ (by rfl) (by rfl)).2,
    by rfl,
    (no_send_after_cancellation mainConfig cancelFiredState ⟨cancelFiredSchedule, by rfl⟩).1⟩

end ConcurrentGenerators
